import Mathlib

/-!
# Filesystem driver, system calls, paging and terminals of the 391 teaching kernel

A shallow embedding of `student-distrib/fs.c`, of the calls `open`, `close`,
`read`, `write`, `getargs`, `vidmap`, `halt` and `execute` and of `boot` of
`student-distrib/syscall.c`, of the paging functions of
`student-distrib/paging.c`, of the terminal switch and `terminal_read` of
`student-distrib/terminal.c`, of the keyboard handler of
`student-distrib/keyboard.c` and of the timer handler of
`student-distrib/scheduler.c`.

Memory is modelled by total maps from an index to the value stored there:
`fs.inodes n` is the `n`-th 4 KiB block after the boot block read as an
`inode_block_t`, `(fs.inodes n).data_index i` is the 32-bit word `i` places
after its first index, whether or not `i < 1023`.  A byte buffer handed to a
function is a map from the index relative to the pointer to the byte there.
Unsigned 32-bit arithmetic is written on `Nat` with an explicit `% 2 ^ 32`
where the C expression can wrap; a value returned as `int32_t` is an `Int`.
-/

namespace Kernel391

/-! ## Constants (fs.h, syscall.h) -/

/-- Size in bytes of a filesystem block (`FS_BLOCK_SIZE`). -/
def FS_BLOCK_SIZE : Nat := 4096

/-- Number of directory-entry slots in the boot block (`MAX_NUM_DENTRIES`). -/
def MAX_NUM_DENTRIES : Nat := 63

/-- Length of a task's file-descriptor array (`FD_ARRAY_LEN`). -/
def FD_ARRAY_LEN : Nat := 8

/-- Page-directory index of the user window (`USER_PD_INDEX`); `open` also
passes it to `strncpy` as a byte count. -/
def USER_PD_INDEX : Nat := 32

/-- Size of a command or argument string (`MAX_CMD_SIZE`). -/
def MAX_CMD_SIZE : Nat := 128

/-- Number of values of a 32-bit word. -/
def WORD : Nat := 2 ^ 32

/-- The value of a 32-bit pattern read as `int32_t` (two's complement). -/
def toInt32 (n : Nat) : Int :=
  if n % WORD < 2 ^ 31 then ((n % WORD : Nat) : Int) else ((n % WORD : Nat) : Int) - (WORD : Int)

/-! ## Data model (fs.h) -/

/-- The three counts at the start of the boot block. -/
structure boot_block_t where
  num_dentries : Nat
  num_inodes : Nat
  num_data_blocks : Nat

/-- A 64-byte directory entry: `file_name k` is byte `k` of the 32-byte name
field, `reserved k` is reserved word `k`. -/
structure dentry_t where
  file_name : Nat → Nat
  file_type : Nat
  inode_index : Nat
  reserved : Nat → Nat

/-- A 4 KiB data block; `data k` is its byte `k`. -/
structure data_block_t where
  data : Nat → Nat

/-- An index node: the file length and the data-block indices. -/
structure inode_block_t where
  length : Nat
  data_index : Nat → Nat

/-- The four global pointers set by `init_fs`, with what they point at. -/
structure fs_t where
  boot_block : boot_block_t
  dentries : Nat → dentry_t
  inodes : Nat → inode_block_t
  data_blocks : Nat → data_block_t

/-- A byte buffer addressed relative to its pointer. -/
abbrev buffer := Nat → Nat

/-- The assignment `buf[k] = v`. -/
def set_byte (buf : buffer) (k v : Nat) : buffer :=
  fun j => if j = k then v else buf j

/-! ## read_data (fs.c:94-131) -/

/-- The `for` loop of fs.c:100-103: `true` when every `data_index[i]` with
`0 <= i <= length / FS_BLOCK_SIZE` is below `num_data_blocks`, `false` when
the loop returns -1. -/
def data_index_check (fs : fs_t) (inode : Nat) : Bool :=
  (List.range ((fs.inodes inode).length / FS_BLOCK_SIZE + 1)).all
    (fun i => decide ((fs.inodes inode).data_index i < fs.boot_block.num_data_blocks))

/-- The `while (bytes_written < length)` loop of fs.c:115-128.  The first
argument bounds the number of iterations; the result is the final
`bytes_written` and the buffer. -/
def read_data_loop (fs : fs_t) (inode length : Nat) :
    Nat → Nat → Nat → Nat → Nat → buffer → Nat × buffer
  | 0, bytes_written, _, _, _, buf => (bytes_written, buf)
  | fuel + 1, bytes_written, inode_data_block_index, curr_data_block, offset, buf =>
    if bytes_written < length then
      if offset ≥ FS_BLOCK_SIZE then
        read_data_loop fs inode length fuel (bytes_written + 1)
          (inode_data_block_index + 1)
          ((fs.inodes inode).data_index (inode_data_block_index + 1))
          (0 + 1)
          (set_byte buf bytes_written
            ((fs.data_blocks
              ((fs.inodes inode).data_index (inode_data_block_index + 1))).data 0))
      else
        read_data_loop fs inode length fuel (bytes_written + 1)
          inode_data_block_index curr_data_block (offset + 1)
          (set_byte buf bytes_written ((fs.data_blocks curr_data_block).data offset))
    else (bytes_written, buf)

/-- The function `read_data(inode, offset, buf, length)`: the value returned
and the buffer afterwards.  `offset + length` is a `uint32_t` sum;
`bytes_written` is an `int` returned as `int32_t`, so the count comes back as
the signed reading of its 32-bit pattern. -/
def read_data (fs : fs_t) (inode offset : Nat) (buf : buffer) (length : Nat) :
    Int × buffer :=
  if inode ≥ fs.boot_block.num_inodes ∨
      (offset + length) % WORD > (fs.inodes inode).length then (-1, buf)
  else if data_index_check fs inode = false then (-1, buf)
  else
    let inode_data_block_index := offset / FS_BLOCK_SIZE
    let curr_data_block := (fs.inodes inode).data_index inode_data_block_index
    let r := read_data_loop fs inode length length 0 inode_data_block_index
      curr_data_block (offset % FS_BLOCK_SIZE) buf
    (toInt32 r.1, r.2)

/-- Byte `p` of the file of an inode, as the block list gives it: byte
`p mod 4096` of the data block numbered `data_index[p div 4096]`. -/
def file_byte (fs : fs_t) (inode p : Nat) : Nat :=
  (fs.data_blocks ((fs.inodes inode).data_index (p / FS_BLOCK_SIZE))).data (p % FS_BLOCK_SIZE)

/-- The checks of fs.c:96-103 all pass. -/
def read_valid (fs : fs_t) (inode offset length : Nat) : Prop :=
  inode < fs.boot_block.num_inodes ∧
  (offset + length) % WORD ≤ (fs.inodes inode).length ∧
  data_index_check fs inode = true

instance (fs : fs_t) (inode offset length : Nat) :
    Decidable (read_valid fs inode offset length) := by
  unfold read_valid; infer_instance

/-! ### Sample images -/

/-- A one-inode image: a file of `len` bytes whose index slot 0 names block 0
and whose other slots hold `other`; `m` data blocks; byte `k` of block `b`
is `(b + k + 1) mod 256`. -/
def sample_fs (len other m : Nat) : fs_t where
  boot_block := { num_dentries := 1, num_inodes := 1, num_data_blocks := m }
  dentries := fun _ =>
    { file_name := fun _ => 0, file_type := 0, inode_index := 0, reserved := fun _ => 0 }
  inodes := fun _ =>
    { length := len, data_index := fun i => if i = 0 then 0 else other }
  data_blocks := fun b => { data := fun k => (b + k + 1) % 256 }

/-- A buffer of zero bytes. -/
def zero_buf : buffer := fun _ => 0

/-! ## Strings (lib.c) -/

/-- A C string given by the bytes at its pointer: byte `i` is `s[i]`, and the
bytes past the end of the list read as the terminating NUL. -/
def cstr (s : List Nat) : Nat → Nat := fun i => s.getD i 0

/-- Modelled from the spec: lib.c, which defines `strlen`, is not among the
sources; this is the C library function, the number of bytes before the first
NUL. -/
def strlen : List Nat → Nat
  | [] => 0
  | c :: cs => if c = 0 then 0 else strlen cs + 1

/-- The comparison loop of `strncmp` from index `i` on, `n` bytes left. -/
def strncmp_from (s1 s2 : Nat → Nat) : Nat → Nat → Int
  | 0, _ => 0
  | n + 1, i =>
    if s1 i ≠ s2 i ∨ s1 i = 0 then (s1 i : Int) - (s2 i : Int)
    else strncmp_from s1 s2 n (i + 1)

/-- Modelled from the spec: lib.c, which defines `strncmp`, is not among the
sources; this is the C library function the spec calls an exact match up to
`n` bytes: bytes are compared in order, at most `n` of them, stopping at the
first difference or at a NUL of `s1`; the result is 0 when none differed. -/
def strncmp (s1 s2 : Nat → Nat) (n : Nat) : Int := strncmp_from s1 s2 n 0

/-- Some byte of `src` at an index `<= k` is NUL. -/
def nul_upto (src : Nat → Nat) (k : Nat) : Bool :=
  (List.range (k + 1)).any (fun j => decide (src j = 0))

/-- Modelled from the spec: lib.c, which defines `strncpy`, is not among the
sources; this is the C library function: the first `n` bytes of `dest` become
the bytes of `src` up to its first NUL, followed by NUL bytes; the bytes of
`dest` from `n` on are kept. -/
def strncpy (dest src : Nat → Nat) (n : Nat) : Nat → Nat :=
  fun k => if k < n then (if nul_upto src k then 0 else src k) else dest k

/-! ## Directory lookups (fs.c:38-80) -/

/-- The function `read_dentry_by_index(index, dentry)`: the value returned and
the caller's dentry afterwards.  `index` is a `uint32_t`, so `index < 0` never
holds. -/
def read_dentry_by_index (fs : fs_t) (index : Nat) (dentry : dentry_t) : Int × dentry_t :=
  if index ≥ MAX_NUM_DENTRIES then (-1, dentry)
  else
    (0, { dentry with
            file_name := strncpy dentry.file_name (fs.dentries index).file_name 32
            file_type := (fs.dentries index).file_type
            inode_index := (fs.dentries index).inode_index })

/-- The `for (i = 0; i < MAX_NUM_DENTRIES; i++)` loop of fs.c:66-77 from slot
`i` on, with `n` slots left to visit. -/
def read_dentry_by_name_from (fs : fs_t) (fname : List Nat) (dentry : dentry_t) :
    Nat → Nat → Int × dentry_t
  | 0, _ => (-1, dentry)
  | n + 1, i =>
    if strncmp (cstr fname) (fs.dentries i).file_name 32 = 0 then
      (0, { dentry with
              file_name := strncpy dentry.file_name (fs.dentries i).file_name 32
              file_type := (fs.dentries i).file_type
              inode_index := (fs.dentries i).inode_index })
    else read_dentry_by_name_from fs fname dentry n (i + 1)

/-- The function `read_dentry_by_name(fname, dentry)`: the value returned and
the caller's dentry afterwards. -/
def read_dentry_by_name (fs : fs_t) (fname : List Nat) (dentry : dentry_t) : Int × dentry_t :=
  if strlen fname = 0 then (-1, dentry)
  else read_dentry_by_name_from fs fname dentry MAX_NUM_DENTRIES 0

/-- The name `fname` matches a stored 32-byte name: the two agree on every
byte of `fname` up to and including its terminating NUL, as far as that lies
within the first 32 bytes. -/
def name_matches (fname : List Nat) (stored : Nat → Nat) : Prop :=
  ∀ i, i < 32 → i ≤ strlen fname → stored i = cstr fname i

instance (fname : List Nat) (stored : Nat → Nat) : Decidable (name_matches fname stored) := by
  unfold name_matches; infer_instance

/-- The stored name as `strncpy` delivers it: the bytes up to the first NUL,
zero-padded to 32 bytes. -/
def padded_name (stored : Nat → Nat) (k : Nat) : Nat :=
  if nul_upto stored k then 0 else stored k

/-! ## File descriptors (syscall.h, syscall.c:399-475) -/

/-- The five file-operation jump tables of syscall.c:20-57. -/
inductive fo_jump_table_t where
  | file_fo_jump_table
  | dir_fo_jump_table
  | stdin_jump_table
  | stdout_jump_table
  | rtc_jump_table
  deriving DecidableEq, Repr

/-- An entry of a file-descriptor table.  `fo_jump_table_ptr` is `none` while
the pointer is not that of one of the five tables; `flags` is the 32-bit word
whose bit 0 is the bit-field `active`. -/
structure fd_entry_t where
  fo_jump_table_ptr : Option fo_jump_table_t
  inode_index : Nat
  file_position : Nat
  flags : Nat

/-- The bit-field `active`. -/
def fd_entry_t.active (e : fd_entry_t) : Bool := decide (e.flags % 2 = 1)

/-- The assignment `active = b` for a bit `b`: bit 0 of `flags` is replaced,
the reserved bits are kept. -/
def fd_entry_t.set_active (e : fd_entry_t) (b : Nat) : fd_entry_t :=
  { e with flags := e.flags / 2 * 2 + b % 2 }

/-- The process control block of a task. Pointers are kept as addresses, 0
for `NULL`. -/
structure pcb_t where
  fd_array : Nat → fd_entry_t
  filenames : Nat → Nat → Nat
  process_id : Nat
  parent_ebp : Nat
  parent_esp : Nat
  parent_pcb : Nat
  child_pcb : Nat
  args : Nat → Nat
  return_ebp : Nat
  return_esp : Nat
  entry : Nat

/-- The assignment `arr[i] = e` on an array given as a map. -/
def set_at {α : Type} (arr : Nat → α) (i : Nat) (e : α) : Nat → α :=
  fun j => if j = i then e else arr j

/-- The local `dentry_t dentry` of `open` before `read_dentry_by_name` fills
it.  Every field `open` reads is written by a successful lookup first. -/
def local_dentry : dentry_t :=
  { file_name := fun _ => 0, file_type := 0, inode_index := 0, reserved := fun _ => 0 }

/-- The loop `i = 2; while (fd_array[i].active) { i++; if (i >= FD_ARRAY_LEN)
return -1; }` of syscall.c:412-417 from index `i` on: `some i` for the free
index it stops at, `none` for the `return -1`.  The first argument bounds the
number of iterations. -/
def find_fd (fd_array : Nat → fd_entry_t) : Nat → Nat → Option Nat
  | 0, _ => none
  | fuel + 1, i =>
    if (fd_array i).active then
      if i + 1 ≥ FD_ARRAY_LEN then none else find_fd fd_array fuel (i + 1)
    else some i

/-- The system call `open(filename)` on the PCB of the executing task: the
value returned and the PCB afterwards.  `none` is the `NULL` pointer. -/
def sys_open (fs : fs_t) (pcb : pcb_t) (filename : Option (List Nat)) : Int × pcb_t :=
  match filename with
  | none => (-1, pcb)
  | some name =>
    let r := read_dentry_by_name fs name local_dentry
    if r.1 ≠ 0 then (-1, pcb)
    else
      let dentry := r.2
      match find_fd pcb.fd_array FD_ARRAY_LEN 2 with
      | none => (-1, pcb)
      | some i =>
        let e0 := { pcb.fd_array i with file_position := 0 }
        let names := set_at pcb.filenames i (strncpy (pcb.filenames i) dentry.file_name USER_PD_INDEX)
        if dentry.file_type = 0 then
          let e1 := { e0 with fo_jump_table_ptr := some fo_jump_table_t.rtc_jump_table,
                              inode_index := 0 }
          ((i : Int), { pcb with fd_array := set_at pcb.fd_array i (e1.set_active 1),
                                 filenames := names })
        else if dentry.file_type = 1 then
          let e1 := { e0 with fo_jump_table_ptr := some fo_jump_table_t.dir_fo_jump_table,
                              inode_index := 0 }
          ((i : Int), { pcb with fd_array := set_at pcb.fd_array i (e1.set_active 1),
                                 filenames := names })
        else if dentry.file_type = 2 then
          let e1 := { e0 with fo_jump_table_ptr := some fo_jump_table_t.file_fo_jump_table,
                              inode_index := dentry.inode_index }
          ((i : Int), { pcb with fd_array := set_at pcb.fd_array i (e1.set_active 1),
                                 filenames := names })
        else (-1, { pcb with fd_array := set_at pcb.fd_array i e0, filenames := names })

/-- The system call `close(fd)` on the PCB of the executing task: the value
returned and the PCB afterwards. -/
def close (pcb : pcb_t) (fd : Int) : Int × pcb_t :=
  if fd < 2 ∨ fd ≥ (FD_ARRAY_LEN : Int) then (-1, pcb)
  else if (pcb.fd_array fd.toNat).active = false then (-1, pcb)
  else (0, { pcb with fd_array := set_at pcb.fd_array fd.toNat
                                    ((pcb.fd_array fd.toNat).set_active 0) })

/-! ### Sample directory and PCB -/

/-- The bytes of a string. -/
def bytes (s : String) : List Nat := s.toList.map Char.toNat

/-- A directory of three entries: "." (type 1), "rtc" (type 0, inode 0) and
the 32-byte name "verylargetextwithverylongname.tx" (type 2, inode 7); the
other sixty slots are empty. One inode of 10 bytes, one data block. -/
def sample_dir : fs_t where
  boot_block := { num_dentries := 3, num_inodes := 8, num_data_blocks := 1 }
  dentries := fun i =>
    if i = 0 then
      { file_name := cstr (bytes "."), file_type := 1, inode_index := 0, reserved := fun _ => 0 }
    else if i = 1 then
      { file_name := cstr (bytes "rtc"), file_type := 0, inode_index := 0,
        reserved := fun _ => 0 }
    else if i = 2 then
      { file_name := cstr (bytes "verylargetextwithverylongname.tx"), file_type := 2,
        inode_index := 7, reserved := fun _ => 0 }
    else { file_name := fun _ => 0, file_type := 0, inode_index := 0, reserved := fun _ => 0 }
  inodes := fun _ => { length := 10, data_index := fun _ => 0 }
  data_blocks := fun b => { data := fun k => (b + k + 1) % 256 }

/-- A PCB as `execute` sets one up: stdin and stdout active, slots 2..7
inactive. -/
def sample_pcb : pcb_t where
  fd_array := fun i =>
    if i = 0 then
      { fo_jump_table_ptr := some fo_jump_table_t.stdin_jump_table, inode_index := 0,
        file_position := 0, flags := 1 }
    else if i = 1 then
      { fo_jump_table_ptr := some fo_jump_table_t.stdout_jump_table, inode_index := 0,
        file_position := 0, flags := 1 }
    else { fo_jump_table_ptr := none, inode_index := 0, file_position := 0, flags := 0 }
  filenames := fun _ _ => 0
  process_id := 0
  parent_ebp := 0
  parent_esp := 0
  parent_pcb := 0
  child_pcb := 0
  args := fun _ => 0
  return_ebp := 0
  return_esp := 0
  entry := 0

/-! ## Per-slot file operations (fs.c:141-233) and dispatch (syscall.c:14-57, 343-388) -/

/-- The value of an `int` converted to `uint32_t`. -/
def toUInt32 (x : Int) : Nat := (x % (WORD : Int)).toNat

/-- The index of the first NUL among bytes `i .. i + n - 1` of `s`; `none`
when there is no NUL among them. -/
def find_nul (s : Nat → Nat) : Nat → Nat → Option Nat
  | 0, _ => none
  | n + 1, i => if s i = 0 then some i else find_nul s n (i + 1)

/-- The function `strlen` of lib.c (see `strlen`) on bytes in memory of which
only the first `bound` are known: `none` when the scan would leave them. -/
def strlen_mem (s : Nat → Nat) (bound : Nat) : Option Nat := find_nul s bound 0

/-- Byte `j` of a 32-bit word stored little-endian. -/
def word_byte (w j : Nat) : Nat := (w / 256 ^ j) % 256

/-- The 64 bytes of a `dentry_t` as they lie in memory from `file_name[0]` on:
the 32 name bytes, then `file_type`, `inode_index` and the six reserved words.
Past the structure the bytes read as 0; a scan that gets there is cut off by
`strlen_mem` with the bound 64. -/
def dentry_mem (d : dentry_t) (k : Nat) : Nat :=
  if k < 32 then d.file_name k
  else if k < 36 then word_byte d.file_type (k - 32)
  else if k < 40 then word_byte d.inode_index (k - 36)
  else if k < 64 then word_byte (d.reserved ((k - 40) / 4)) ((k - 40) % 4)
  else 0

/-- The function `file_write`: always -1, nothing is written. -/
def file_write (_fd : Int) (_buf : buffer) (_nbytes : Int) : Int := -1

/-- The function `file_read(fd, buf, nbytes)` on the PCB of the executing
task: the value returned, the buffer and the PCB afterwards.  `position` is an
`int` copy of the `uint32_t` file position; `length - position` and its
comparison with `nbytes` are unsigned; the clamped count is stored back into
the `int32_t nbytes`; `file_position += bytes_read` is a `uint32_t` sum. -/
def file_read (fs : fs_t) (pcb : pcb_t) (fd : Int) (buf : buffer) (nbytes : Int) :
    Int × buffer × pcb_t :=
  let position : Int := toInt32 (pcb.fd_array fd.toNat).file_position
  let inode_idx := (pcb.fd_array fd.toNat).inode_index
  let remaining := ((fs.inodes inode_idx).length + WORD - toUInt32 position) % WORD
  let nbytes1 : Int := if remaining < toUInt32 nbytes then toInt32 remaining else nbytes
  let r := read_data fs inode_idx (toUInt32 position) buf (toUInt32 nbytes1)
  let bytes_read := r.1
  let entry : fd_entry_t :=
    { pcb.fd_array fd.toNat with
      file_position := ((pcb.fd_array fd.toNat).file_position + toUInt32 bytes_read) % WORD }
  (bytes_read, r.2, { pcb with fd_array := set_at pcb.fd_array fd.toNat entry })

/-- The `while (i < MAX_NUM_DENTRIES)` loop of fs.c:222-230.  `none` is the
`return 0` taken when `read_dentry_by_index` fails; otherwise the result is
`i`, the local `dentry` and the buffer when the loop is left.  The first
argument bounds the number of iterations. -/
def dir_read_loop (fs : fs_t) (nbytes : Int) :
    Nat → Int → dentry_t → buffer → Option (Int × dentry_t × buffer)
  | 0, i, dentry, buf => some (i, dentry, buf)
  | fuel + 1, i, dentry, buf =>
    if i < (MAX_NUM_DENTRIES : Int) then
      if (read_dentry_by_index fs (toUInt32 i) dentry).1 ≠ 0 then none
      else
        let dentry1 := (read_dentry_by_index fs (toUInt32 i) dentry).2
        if dentry1.file_name 0 ≠ 0 then
          some (i + 1, dentry1, strncpy buf (dentry_mem dentry1) (toUInt32 nbytes))
        else dir_read_loop fs nbytes fuel (i + 1) dentry1 buf
    else some (i, dentry, buf)

/-- The function `dir_read(fd, buf, nbytes)` on the PCB of the executing task.
`stack` is what the uninitialised local `dentry` holds on entry.  The result
is `none` when the final `strlen(dentry.file_name)` finds no NUL within the
64 bytes of the local; otherwise it is the value returned, the buffer and the
PCB afterwards.  `strlen` gives a `uint32_t`, so the comparison with `nbytes`
is unsigned. -/
def dir_read (fs : fs_t) (pcb : pcb_t) (stack : dentry_t) (fd : Int) (buf : buffer)
    (nbytes : Int) : Option (Int × buffer × pcb_t) :=
  match dir_read_loop fs nbytes (MAX_NUM_DENTRIES + 1)
      (toInt32 (pcb.fd_array fd.toNat).file_position) stack buf with
  | none => some (0, buf, pcb)
  | some (i, dentry, buf1) =>
    match strlen_mem (dentry_mem dentry) 64 with
    | none => none
    | some len =>
      let entry : fd_entry_t := { pcb.fd_array fd.toNat with file_position := toUInt32 i }
      some (toInt32 (if len > toUInt32 nbytes then toUInt32 nbytes else len), buf1,
        { pcb with fd_array := set_at pcb.fd_array fd.toNat entry })

/-- The functions a jump table can hold in its `open` member. -/
inductive open_fn where
  | file_open
  | open_no_op
  | rtc_open
  deriving DecidableEq, Repr

/-- The functions a jump table can hold in its `read` member. -/
inductive read_fn where
  | file_read
  | dir_read
  | terminal_read
  | read_no_op
  | rtc_read
  deriving DecidableEq, Repr

/-- The functions a jump table can hold in its `write` member. -/
inductive write_fn where
  | file_write
  | write_no_op
  | terminal_write
  | rtc_write
  deriving DecidableEq, Repr

/-- The functions a jump table can hold in its `close` member. -/
inductive close_fn where
  | file_close
  | close_no_op
  | rtc_close
  deriving DecidableEq, Repr

/-- The four members of a file-operations jump table. -/
structure jump_table_members where
  open_member : open_fn
  read_member : read_fn
  write_member : write_fn
  close_member : close_fn

/-- The five tables as syscall.c:20-57 initialises them. -/
def jump_table : fo_jump_table_t → jump_table_members
  | .file_fo_jump_table => ⟨.file_open, .file_read, .file_write, .file_close⟩
  | .dir_fo_jump_table => ⟨.file_open, .dir_read, .file_write, .file_close⟩
  | .stdin_jump_table => ⟨.open_no_op, .terminal_read, .write_no_op, .close_no_op⟩
  | .stdout_jump_table => ⟨.open_no_op, .read_no_op, .terminal_write, .close_no_op⟩
  | .rtc_jump_table => ⟨.rtc_open, .rtc_read, .rtc_write, .rtc_close⟩

/-- The terminal and RTC operations, which act on device state of type `δ`
and not on the PCB; `none` is a call that does not return. -/
structure devices (δ : Type) where
  terminal_read : Int → buffer → Int → δ → Option (Int × buffer × δ)
  terminal_write : Int → buffer → Int → δ → Option (Int × δ)
  rtc_read : Int → buffer → Int → δ → Option (Int × buffer × δ)
  rtc_write : Int → buffer → Int → δ → Option (Int × δ)

/-- What a `read` or `write` call leaves: the value returned, the caller's
buffer (`none` for a `NULL` pointer), the PCB and the device state. -/
structure io_result (δ : Type) where
  ret : Int
  buf : Option buffer
  pcb : pcb_t
  dev : δ

/-- Where a `read` or `write` call ends: in `return -1`, in the call of the
member of a table, or in a call through a pointer that is not a table. -/
inductive dispatch where
  | fail
  | invoke (t : fo_jump_table_t)
  | wild
  deriving DecidableEq, Repr

/-- The checks of `read` (syscall.c:349-356) and the table it then calls
through; `buf_null` says that `buf == NULL`. -/
def read_dispatch (pcb : pcb_t) (fd : Int) (buf_null : Bool) (nbytes : Int) : dispatch :=
  if fd < 0 ∨ fd ≥ (FD_ARRAY_LEN : Int) ∨ buf_null = true ∨ nbytes < 0 then dispatch.fail
  else if (pcb.fd_array fd.toNat).active = false then dispatch.fail
  else
    match (pcb.fd_array fd.toNat).fo_jump_table_ptr with
    | some t => dispatch.invoke t
    | none => dispatch.wild

/-- The checks of `write` (syscall.c:378-385) and the table it then calls
through. -/
def write_dispatch (pcb : pcb_t) (fd : Int) (buf_null : Bool) (nbytes : Int) : dispatch :=
  if fd < 0 ∨ fd ≥ (FD_ARRAY_LEN : Int) ∨ buf_null = true ∨ nbytes < 0 then dispatch.fail
  else if (pcb.fd_array fd.toNat).active = false then dispatch.fail
  else
    match (pcb.fd_array fd.toNat).fo_jump_table_ptr with
    | some t => dispatch.invoke t
    | none => dispatch.wild

/-- The call of a `read` member with the arguments of `read`. -/
def call_read {δ : Type} (dv : devices δ) (fs : fs_t) (stack : dentry_t) (f : read_fn)
    (pcb : pcb_t) (dev : δ) (fd : Int) (buf : buffer) (nbytes : Int) :
    Option (io_result δ) :=
  match f with
  | .file_read =>
    some ⟨(file_read fs pcb fd buf nbytes).1, some (file_read fs pcb fd buf nbytes).2.1,
      (file_read fs pcb fd buf nbytes).2.2, dev⟩
  | .dir_read =>
    (dir_read fs pcb stack fd buf nbytes).map (fun r => ⟨r.1, some r.2.1, r.2.2, dev⟩)
  | .terminal_read =>
    (dv.terminal_read fd buf nbytes dev).map (fun r => ⟨r.1, some r.2.1, pcb, r.2.2⟩)
  | .read_no_op => some ⟨-1, some buf, pcb, dev⟩
  | .rtc_read =>
    (dv.rtc_read fd buf nbytes dev).map (fun r => ⟨r.1, some r.2.1, pcb, r.2.2⟩)

/-- The call of a `write` member with the arguments of `write`.  The buffer is
a `const void*`: no member writes it. -/
def call_write {δ : Type} (dv : devices δ) (f : write_fn)
    (pcb : pcb_t) (dev : δ) (fd : Int) (buf : buffer) (nbytes : Int) :
    Option (io_result δ) :=
  match f with
  | .file_write => some ⟨file_write fd buf nbytes, some buf, pcb, dev⟩
  | .write_no_op => some ⟨-1, some buf, pcb, dev⟩
  | .terminal_write =>
    (dv.terminal_write fd buf nbytes dev).map (fun r => ⟨r.1, some buf, pcb, r.2⟩)
  | .rtc_write =>
    (dv.rtc_write fd buf nbytes dev).map (fun r => ⟨r.1, some buf, pcb, r.2⟩)

/-- The system call `read(fd, buf, nbytes)` on the PCB of the executing task;
`none` when the call does not return. -/
def read {δ : Type} (dv : devices δ) (fs : fs_t) (stack : dentry_t) (pcb : pcb_t) (dev : δ)
    (fd : Int) (buf : Option buffer) (nbytes : Int) : Option (io_result δ) :=
  match read_dispatch pcb fd buf.isNone nbytes, buf with
  | .invoke t, some b => call_read dv fs stack (jump_table t).read_member pcb dev fd b nbytes
  | .wild, _ => none
  | _, _ => some ⟨-1, buf, pcb, dev⟩

/-- The system call `write(fd, buf, nbytes)` on the PCB of the executing
task; `none` when the call does not return. -/
def write {δ : Type} (dv : devices δ) (pcb : pcb_t) (dev : δ)
    (fd : Int) (buf : Option buffer) (nbytes : Int) : Option (io_result δ) :=
  match write_dispatch pcb fd buf.isNone nbytes, buf with
  | .invoke t, some b => call_write dv (jump_table t).write_member pcb dev fd b nbytes
  | .wild, _ => none
  | _, _ => some ⟨-1, buf, pcb, dev⟩

/-! ## getargs and vidmap (syscall.c:487-534), paging (paging.h, paging.c:124-182) -/

/-- The shift that turns a page-directory index into an address (`ALIGN_4MB`). -/
def ALIGN_4MB : Nat := 22

/-- Index of the page-directory entry of the vidmap page
(`VID_MAP_VIRTUAL_INDEX`). -/
def VID_MAP_VIRTUAL_INDEX : Nat := 31

/-- Number of entries of a page directory or page table (`PAGE_TABLE_SIZE`). -/
def PAGE_TABLE_SIZE : Nat := 1024

/-- Number of liveness flags (`MAX_NUM_PROCESSES`). -/
def MAX_NUM_PROCESSES : Nat := 7

/-- Memory of the running task as a map from a 32-bit address to the byte
there. -/
abbrev memory := Nat → Nat

/-- The store of a 32-bit word at an address, little-endian. -/
def write32 (mem : memory) (addr v : Nat) : memory :=
  fun a =>
    if a = addr % WORD then word_byte v 0
    else if a = (addr + 1) % WORD then word_byte v 1
    else if a = (addr + 2) % WORD then word_byte v 2
    else if a = (addr + 3) % WORD then word_byte v 3
    else mem a

/-- The loop `while (i < args_length && i < nbytes) { buf[i] = args[i]; i++; }`
of syscall.c:504-507: the final `i` and the memory.  The first argument bounds
the number of iterations. -/
def getargs_loop (args : Nat → Nat) (buf : Nat) (args_length nbytes : Int) :
    Nat → Nat → memory → Nat × memory
  | 0, i, mem => (i, mem)
  | fuel + 1, i, mem =>
    if (i : Int) < args_length ∧ (i : Int) < nbytes then
      getargs_loop args buf args_length nbytes fuel (i + 1)
        (set_byte mem ((buf + i) % WORD) (args i))
    else (i, mem)

/-- The system call `getargs(buf, nbytes)` on the PCB of the executing task;
`buf` is the pointer as an address, 0 for `NULL`.  The result is `none` when
`strlen(pcb->args)` finds no NUL, otherwise the value returned and the memory
afterwards. -/
def getargs (pcb : pcb_t) (mem : memory) (buf : Nat) (nbytes : Int) : Option (Int × memory) :=
  match strlen_mem pcb.args WORD with
  | none => none
  | some len =>
    let args_length : Int := toInt32 len
    if args_length = 0 then some (-1, mem)
    else if buf = 0 ∨ nbytes < args_length ∨ buf < USER_PD_INDEX <<< ALIGN_4MB ∨
        buf ≥ ((USER_PD_INDEX + 1) <<< ALIGN_4MB) - 4 then some (-1, mem)
    else
      let r := getargs_loop pcb.args buf args_length nbytes (args_length.toNat + 1) 0 mem
      some (0, set_byte r.2 ((buf + r.1) % WORD) 0)

/-- A page-directory entry, bit-field by bit-field. -/
structure pde_t where
  present : Nat
  rw : Nat
  privilege_level : Nat
  write_through : Nat
  cache_disabled : Nat
  accessed : Nat
  reserved_dirty : Nat
  size : Nat
  global_page : Nat
  avail : Nat
  addr : Nat

/-- A page-table entry, bit-field by bit-field. -/
structure pte_t where
  present : Nat
  rw : Nat
  privilege_level : Nat
  write_through : Nat
  cache_disabled : Nat
  accessed : Nat
  dirty : Nat
  pat_index : Nat
  global_page : Nat
  avail : Nat
  addr : Nat

/-- The function `create_user_4mb_page(real_index, virt_index)`: the value
returned and the page directory afterwards.  `addr` is a 20-bit field. -/
def create_user_4mb_page (page_directory : Nat → pde_t) (real_index virt_index : Int) :
    Int × (Nat → pde_t) :=
  if real_index < 2 ∨ virt_index < 2 ∨ real_index ≥ (PAGE_TABLE_SIZE : Int) ∨
      virt_index ≥ (PAGE_TABLE_SIZE : Int) then (-1, page_directory)
  else
    (0, set_at page_directory virt_index.toNat
      { addr := (real_index.toNat <<< 10) % 2 ^ 20
        avail := 0
        global_page := 0
        size := 1
        reserved_dirty := 0
        accessed := 0
        cache_disabled := 0
        write_through := 0
        privilege_level := 1
        rw := 1
        present := 1 })

/-- The kernel state the calls below act on.  `pcbs a` is the memory at
address `a` read as a PCB; `processes` is the liveness table; the TSS is kept
by its `esp0` field. -/
structure kernel_t where
  pcbs : Nat → pcb_t
  processes : Nat → Nat
  exec_term_id : Int
  curr_term_id : Int
  page_directory : Nat → pde_t
  page_table_0 : Nat → pte_t
  vid_page_table_0 : Nat → pte_t
  tss_esp0 : Nat

/-- The function `create_vid_4kb_page()`: the address returned and the state
afterwards.  `vid_pt` is the address of `vid_page_table_0`. -/
def create_vid_4kb_page (vid_pt : Nat) (k : kernel_t) : Nat × kernel_t :=
  (VID_MAP_VIRTUAL_INDEX <<< 22,
    { k with
      page_directory := set_at k.page_directory VID_MAP_VIRTUAL_INDEX
        { addr := ((vid_pt % WORD) / 4096) % 2 ^ 20
          avail := 0
          global_page := 0
          size := 0
          reserved_dirty := 0
          accessed := 0
          cache_disabled := 0
          write_through := 0
          privilege_level := 1
          rw := 1
          present := 1 }
      vid_page_table_0 := set_at k.vid_page_table_0 0
        { addr := 0xB8
          avail := 0
          global_page := 0
          pat_index := 0
          dirty := 0
          accessed := 0
          cache_disabled := 0
          write_through := 0
          privilege_level := 1
          rw := 1
          present := 1 } })

/-- The system call `vidmap(screen_start)`: the value returned, the state and
the memory afterwards.  `screen_start` is the pointer as an address, 0 for
`NULL`; `reload_cr3` changes nothing that is modelled. -/
def vidmap (vid_pt : Nat) (k : kernel_t) (mem : memory) (screen_start : Nat) :
    Int × kernel_t × memory :=
  if screen_start ≠ 0 ∧ screen_start ≥ USER_PD_INDEX <<< ALIGN_4MB ∧
      screen_start < ((USER_PD_INDEX + 1) <<< ALIGN_4MB) - 4 then
    (0, (create_vid_4kb_page vid_pt k).2,
      write32 mem screen_start (create_vid_4kb_page vid_pt k).1)
  else (-1, k, mem)

/-! ## halt (syscall.c:74-158, 699-724) and the exception handlers (idt.c:104-202) -/

/-- The function `get_pcb_by_PID(PID)`: the pointer as an address.  The
arithmetic is on `int` with `_8MEGA = 0x800000` and `_8KILO = 0x1000`. -/
def get_pcb_by_PID (PID : Int) : Nat := toUInt32 (0x800000 - (PID + 1) * 0x1000)

/-- The size of a `pcb_t` in bytes: eight 16-byte descriptors, 256 bytes of
file names, `process_id` padded to 4, four words, 128 bytes of arguments and
three words. -/
def SIZEOF_PCB : Nat := 544

/-- The value `(uint32_t)(get_pcb_by_PID(pid - 1) - 4)` stored in `tss.esp0`:
the subtraction is on a `pcb_t*`, so it steps back four PCB sizes. -/
def esp0_for (pid : Int) : Nat :=
  toUInt32 ((get_pcb_by_PID (pid - 1) : Int) - 4 * (SIZEOF_PCB : Int))

/-- The loop of `get_current_executing_pcb` from the PCB at address `a`:
follow `child_pcb` until it is `NULL`.  The first argument bounds the number
of PCBs visited; `none` when the bound is reached. -/
def leaf_from (pcbs : Nat → pcb_t) : Nat → Nat → Option Nat
  | 0, _ => none
  | fuel + 1, a =>
    if (pcbs a).child_pcb ≠ 0 then leaf_from pcbs fuel (pcbs a).child_pcb else some a

/-- The function `get_current_executing_pcb()`: the address of the leaf PCB
of the executing terminal. -/
def get_current_executing_pcb (k : kernel_t) (fuel : Nat) : Option Nat :=
  leaf_from k.pcbs fuel (get_pcb_by_PID k.exec_term_id)

/-- The `for (i = 0; i < FD_ARRAY_LEN; i++)` loop of syscall.c:117-122 from
slot `i` on, with `n` slots left: `close(i)` when `flags == 1`, then
`flags = 0` and `fo_jump_table_ptr = NULL`. -/
def halt_close_loop : Nat → Nat → pcb_t → pcb_t
  | 0, _, pcb => pcb
  | n + 1, i, pcb =>
    let pcb1 := if (pcb.fd_array i).flags = 1 then (close pcb (i : Int)).2 else pcb
    let entry : fd_entry_t := { pcb1.fd_array i with flags := 0, fo_jump_table_ptr := none }
    halt_close_loop n (i + 1) { pcb1 with fd_array := set_at pcb1.fd_array i entry }

/-- How `halt` hands over control.  `relaunch` is the `iret` of the branch for
a task without parent: user mode at `eip` with stack pointer `esp`.  `resume`
gives the registers loaded by the final `asm` block before its `leave; ret`,
which leaves the frame of the parent's `execute` with `eax` as its value. -/
inductive halt_result where
  | relaunch (k : kernel_t) (eip : Nat) (esp : Nat)
  | resume (k : kernel_t) (eax : Nat) (esp : Nat) (ebp : Nat)

/-- The system call `halt(status)`.  `status` is a `uint8_t`: the low 8 bits
of the argument.  `fuel` bounds the walk to the leaf PCB; `none` when the walk
does not end.  The selector stores (`tss.ss0`, the segments of the `iret`
frame) are constants of x86_desc.h and are not part of the state. -/
def halt (k : kernel_t) (fuel : Nat) (status : Nat) : Option halt_result :=
  let _status : Nat := if status % 256 = 255 then 256 else status % 256
  match get_current_executing_pcb k fuel with
  | none => none
  | some current =>
    if (k.pcbs current).parent_pcb = 0 then
      some (halt_result.relaunch
        { k with tss_esp0 := esp0_for ((k.pcbs current).process_id : Int) }
        (k.pcbs current).entry ((33 <<< 22) - 4))
    else
      let pcb1 : pcb_t := { k.pcbs current with args := set_at (k.pcbs current).args 0 0 }
      let pcb2 := halt_close_loop FD_ARRAY_LEN 0 pcb1
      let k1 : kernel_t := { k with pcbs := set_at k.pcbs current pcb2 }
      let parent := (k1.pcbs current).parent_pcb
      let k2 : kernel_t :=
        { k1 with
          page_directory := (create_user_4mb_page k1.page_directory
            (((k1.pcbs parent).process_id : Int) + 2) (USER_PD_INDEX : Int)).2
          tss_esp0 := esp0_for ((k1.pcbs parent).process_id : Int) }
      let k3 : kernel_t :=
        { k2 with processes := set_at k2.processes (k2.pcbs current).process_id 0 }
      let current_ESP := (k3.pcbs current).parent_esp
      let current_EBP := (k3.pcbs current).parent_ebp
      let parent_entry : pcb_t := { k3.pcbs parent with child_pcb := 0 }
      some (halt_result.resume { k3 with pcbs := set_at k3.pcbs parent parent_entry }
        _status current_ESP current_EBP)

/-- The handlers `interrupt_0` .. `interrupt_19` of idt.c:104-202, which
`init_idt` installs at vectors 0x00..0x13: each prints its message and calls
`halt(255)`.  The message is not part of the state. -/
def exception_handler (_vector : Nat) (k : kernel_t) (fuel : Nat) : Option halt_result :=
  halt k fuel 255

/-! ### Sample states for the calls above -/

/-- Devices whose operations never return; the file and directory operations
do not use them. -/
def idle_devices : devices Unit where
  terminal_read := fun _ _ _ _ => none
  terminal_write := fun _ _ _ _ => none
  rtc_read := fun _ _ _ _ => none
  rtc_write := fun _ _ _ _ => none

/-- An image with the one file "f" (type 2, inode 0) of exactly 4096 bytes:
index slot 0 names block 0, the unreferenced slots hold 1, and there is one
data block. -/
def block_file_fs : fs_t where
  boot_block := { num_dentries := 1, num_inodes := 1, num_data_blocks := 1 }
  dentries := fun i =>
    if i = 0 then
      { file_name := cstr (bytes "f"), file_type := 2, inode_index := 0, reserved := fun _ => 0 }
    else { file_name := fun _ => 0, file_type := 0, inode_index := 0, reserved := fun _ => 0 }
  inodes := fun _ => { length := 4096, data_index := fun i => if i = 0 then 0 else 1 }
  data_blocks := fun b => { data := fun k => (b + k + 1) % 256 }

/-- An image whose 63 directory slots all hold the name "a" (type 2, inode
0). -/
def full_dir : fs_t where
  boot_block := { num_dentries := 63, num_inodes := 1, num_data_blocks := 1 }
  dentries := fun _ =>
    { file_name := cstr (bytes "a"), file_type := 2, inode_index := 0, reserved := fun _ => 0 }
  inodes := fun _ => { length := 10, data_index := fun _ => 0 }
  data_blocks := fun b => { data := fun k => (b + k + 1) % 256 }

/-- The sample PCB with descriptor 2 open on the directory at file position
`p`. -/
def dir_pcb (p : Nat) : pcb_t :=
  { sample_pcb with
    fd_array := set_at sample_pcb.fd_array 2
      { fo_jump_table_ptr := some fo_jump_table_t.dir_fo_jump_table, inode_index := 0,
        file_position := p, flags := 1 } }

/-- The sample PCB with the saved argument string `s`. -/
def args_pcb (s : String) : pcb_t := { sample_pcb with args := cstr (bytes s) }

/-- Memory in which every byte is 0xFF. -/
def ff_mem : memory := fun _ => 255

/-- A page-directory entry with every field 0. -/
def zero_pde : pde_t :=
  { present := 0, rw := 0, privilege_level := 0, write_through := 0, cache_disabled := 0,
    accessed := 0, reserved_dirty := 0, size := 0, global_page := 0, avail := 0, addr := 0 }

/-- A page-table entry with every field 0. -/
def zero_pte : pte_t :=
  { present := 0, rw := 0, privilege_level := 0, write_through := 0, cache_disabled := 0,
    accessed := 0, dirty := 0, pat_index := 0, global_page := 0, avail := 0, addr := 0 }

/-- The boot shell of terminal 0 (PID 0, PCB at 0x7FF000) running a child
(PID 3, PCB at 0x7FC000) that has descriptor 2 open; terminal 0 executes. -/
def sample_kernel : kernel_t where
  pcbs := fun a =>
    if a = 0x7FF000 then { sample_pcb with child_pcb := 0x7FC000, entry := 0x80482E8 }
    else if a = 0x7FC000 then
      { dir_pcb 5 with
        process_id := 3, parent_pcb := 0x7FF000, parent_esp := 0x7FEF00,
        parent_ebp := 0x7FEF40, entry := 0x80481A0 }
    else sample_pcb
  processes := fun i => if i = 0 ∨ i = 3 then 1 else 0
  exec_term_id := 0
  curr_term_id := 0
  page_directory := fun _ => zero_pde
  page_table_0 := fun _ => zero_pte
  vid_page_table_0 := fun _ => zero_pte
  tss_esp0 := 0

/-- The boot shell of terminal 0 alone, with descriptor 2 open. -/
def shell_kernel : kernel_t :=
  { sample_kernel with
    pcbs := fun a =>
      if a = 0x7FF000 then { dir_pcb 0 with entry := 0x80482E8 } else sample_pcb
    processes := fun i => if i = 0 then 1 else 0 }

/-! ## Paging set-up (paging.c:17-110), PCB addresses and the executing terminal -/

/-- The function `clear_page_directory_table()`: entries 0..1023 of the page
directory and of `page_table_0` get `present = 0`. -/
def clear_page_directory_table (k : kernel_t) : kernel_t :=
  { k with
    page_directory := fun i =>
      if i < PAGE_TABLE_SIZE then { k.page_directory i with present := 0 }
      else k.page_directory i
    page_table_0 := fun i =>
      if i < PAGE_TABLE_SIZE then { k.page_table_0 i with present := 0 }
      else k.page_table_0 i }

/-- The function `kernel_paging_init()`: directory entry 1 becomes the
kernel's 4 MiB page. -/
def kernel_paging_init (k : kernel_t) : kernel_t :=
  { k with
    page_directory := set_at k.page_directory 1
      { addr := 0x400
        avail := 0
        global_page := 1
        size := 1
        reserved_dirty := 0
        accessed := 0
        cache_disabled := 0
        write_through := 0
        privilege_level := 0
        rw := 1
        present := 1 } }

/-- The function `vga_paging_init()`.  `pt0` is the address of
`page_table_0`; `addr` is a 20-bit field. -/
def vga_paging_init (pt0 : Nat) (k : kernel_t) : kernel_t :=
  { k with
    page_table_0 := set_at k.page_table_0 0x0B8
      { addr := 0x000B8
        avail := 0
        global_page := 0
        pat_index := 0
        dirty := 0
        accessed := 0
        cache_disabled := 0
        write_through := 0
        privilege_level := 0
        rw := 1
        present := 1 }
    page_directory := set_at k.page_directory 0
      { addr := ((pt0 % WORD) / 4096) % 2 ^ 20
        avail := 0
        global_page := 0
        size := 0
        reserved_dirty := 0
        accessed := 0
        cache_disabled := 0
        write_through := 0
        privilege_level := 0
        rw := 1
        present := 1 } }

/-- The function `init_paging()`.  The control registers written by
`setup_control_registers` and the counter `active_tasks` are not part of the
state. -/
def init_paging (pt0 : Nat) (k : kernel_t) : kernel_t :=
  vga_paging_init pt0 (kernel_paging_init (clear_page_directory_table k))

/-- The first byte of the frame a 4 MiB directory entry maps: the top ten
bits of the 20-bit `addr` field select the frame, so the base is
`addr · 4096` when the low ten bits are clear. -/
def frame_base (e : pde_t) : Nat := e.addr * 4096

/-- The loop of `next_executing_term()` (terminal.c:124-135): advance
`exec_term_id`, wrap past 2, stop at a terminal whose liveness entry is not 0.
The first argument bounds the number of iterations; `none` when the bound is
reached.  `exec_term_id` is never negative, so the table is read at
`toNat`. -/
def next_executing_term : Nat → kernel_t → Option kernel_t
  | 0, _ => none
  | fuel + 1, k =>
    let e1 := k.exec_term_id + 1
    let e2 := if e1 > 2 then 0 else e1
    let k1 : kernel_t := { k with exec_term_id := e2 }
    if k1.processes k1.exec_term_id.toNat ≠ 0 then some k1
    else next_executing_term fuel k1

/-! ## Terminals (terminal.h, terminal.c:7-121) and the timer tick (scheduler.c:49-95) -/

/-- The constant `KEY_BUFF_SIZE`. -/
def KEY_BUFF_SIZE : Nat := 128

/-- The constant `VID_SIZE`, `NUM_ROWS * NUM_COLS * 2`. -/
def VID_SIZE : Nat := 25 * 80 * 2

/-- Modelled from the spec: lib.c, which defines `memcpy`, is not among the
sources; this is the C library function: the first `n` bytes of `dest` become
those of `src`, the others are kept. -/
def memcpy (dest src : Nat → Nat) (n : Nat) : Nat → Nat :=
  fun i => if i < n then src i else dest i

/-- The saved state of a terminal, `term_t`. -/
structure term_t where
  x_save : Int
  y_save : Int
  buff_save : Nat → Nat
  vid_save : Nat → Nat
  enters_save : Int
  buff_index_save : Int

/-- The console: `terms`, the keyboard globals `key_buff`, `num_enters` and
`buff_index` of keyboard.h, and the bytes of video memory from `VIDEO` on.
Modelled from the spec: lib.c, which keeps the screen cursor behind `get_x`,
`get_y`, `set_x` and `set_y`, is not among the sources; the cursor is the pair
`screen_x`, `screen_y` those four read and write. -/
structure console_t where
  terms : Nat → term_t
  key_buff : Nat → Nat
  num_enters : Int
  buff_index : Int
  video : Nat → Nat
  screen_x : Int
  screen_y : Int

/-- The kernel state together with the console. -/
structure machine_t where
  k : kernel_t
  con : console_t

/-- The inner loop of `init_terminal` from cell `j` on, `n` cells left: a
blank with attribute 7 in every cell. -/
def blank_cells : Nat → Nat → (Nat → Nat) → (Nat → Nat)
  | 0, _, v => v
  | n + 1, j, v => blank_cells n (j + 1) (set_byte (set_byte v (j <<< 1) 32) ((j <<< 1) + 1) 7)

/-- The outer loop of `init_terminal` from terminal `i` on, `n` left. -/
def init_terminal_loop : Nat → Nat → (Nat → term_t) → (Nat → term_t)
  | 0, _, terms => terms
  | n + 1, i, terms =>
    init_terminal_loop n (i + 1)
      (set_at terms i
        { x_save := 0
          y_save := 0
          buff_save := set_byte (terms i).buff_save 0 0
          enters_save := 0
          buff_index_save := 0
          vid_save := blank_cells (25 * 80) 0 (terms i).vid_save })

/-- The function `init_terminal()`. -/
def init_terminal (m : machine_t) : machine_t :=
  { k := { m.k with curr_term_id := 0, exec_term_id := 0 }
    con := { m.con with terms := init_terminal_loop 3 0 m.con.terms } }

/-- The first half of `switch_displaying_term` (terminal.c:43-48): the line
buffer, the video memory, the cursor, `num_enters` and `buff_index` are saved
in `terms[cur]`. -/
def save_terminal (c : console_t) (cur : Nat) : Nat → term_t :=
  set_at c.terms cur
    { buff_save := memcpy (c.terms cur).buff_save c.key_buff KEY_BUFF_SIZE
      vid_save := memcpy (c.terms cur).vid_save c.video VID_SIZE
      x_save := c.screen_x
      y_save := c.screen_y
      enters_save := c.num_enters
      buff_index_save := c.buff_index }

/-- The second half (terminal.c:51-56): the same six are loaded from
`terms[t]`, `terms` being the array after the save. -/
def load_terminal (c : console_t) (terms : Nat → term_t) (t : Nat) : console_t :=
  { terms := terms
    key_buff := memcpy c.key_buff (terms t).buff_save KEY_BUFF_SIZE
    video := memcpy c.video (terms t).vid_save VID_SIZE
    screen_x := (terms t).x_save
    screen_y := (terms t).y_save
    num_enters := (terms t).enters_save
    buff_index := (terms t).buff_index_save }

/-- The function `switch_displaying_term(term_id)`: the state afterwards and,
when the branch that starts the terminal's shell is taken, the `eip` and `esp`
of its `iret`.  Terminal ids are 0..2, so the arrays are read at `toNat`;
`send_eoi` changes nothing that is modelled. -/
def switch_displaying_term (m : machine_t) (term_id : Int) : machine_t × Option (Nat × Nat) :=
  let c1 := load_terminal m.con (save_terminal m.con m.k.curr_term_id.toNat) term_id.toNat
  let k1 : kernel_t := { m.k with curr_term_id := term_id }
  if k1.processes k1.curr_term_id.toNat = 0 then
    let k2 : kernel_t :=
      { k1 with
        processes := set_at k1.processes k1.curr_term_id.toNat 1
        page_directory :=
          (create_user_4mb_page k1.page_directory (term_id + 2) 32).2
        tss_esp0 := esp0_for term_id
        exec_term_id := term_id }
    ({ k := k2, con := c1 }, some ((k2.pcbs (get_pcb_by_PID term_id)).entry, (33 <<< 22) - 4))
  else ({ k := k1, con := c1 }, none)

/-- The function `remap_vid(exec_term_id)`.  `vid_save_addr i` is the address
of `terms[i].vid_save`; `addr` is a 20-bit field. -/
def remap_vid (vid_save_addr : Nat → Nat) (k : kernel_t) (exec_term_id : Int) : kernel_t :=
  if exec_term_id = k.curr_term_id then
    { k with
      vid_page_table_0 := set_at k.vid_page_table_0 0 { k.vid_page_table_0 0 with addr := 0x000B8 } }
  else
    { k with
      vid_page_table_0 := set_at k.vid_page_table_0 0
        { k.vid_page_table_0 0 with
          addr := ((vid_save_addr exec_term_id.toNat % WORD) / 4096) % 2 ^ 20 } }

/-- The first part of `pit_handler` (scheduler.c:53-62): `ebp` and `esp` are
stored in `return_ebp` and `return_esp` of the leaf PCB `curr_pcb`. -/
def save_context (k : kernel_t) (curr_pcb ebp esp : Nat) : kernel_t :=
  { k with
    pcbs := set_at k.pcbs curr_pcb { k.pcbs curr_pcb with return_ebp := ebp, return_esp := esp } }

/-- The last part of `pit_handler` (scheduler.c:67-85) for the leaf PCB
`curr_pcb` of the new executing terminal: its frame is mapped, the vidmap page
is remapped and `tss.esp0` is set.  Here 4 is subtracted after the cast, so
`tss.esp0` is four bytes below the PCB address. -/
def load_context (vid_save_addr : Nat → Nat) (k : kernel_t) (curr_pcb : Nat) : kernel_t :=
  let pid : Int := ((k.pcbs curr_pcb).process_id : Int)
  let k3 : kernel_t :=
    { k with page_directory := (create_user_4mb_page k.page_directory (pid + 2) 32).2 }
  let k4 := remap_vid vid_save_addr k3 k3.exec_term_id
  { k4 with tss_esp0 := toUInt32 ((get_pcb_by_PID (pid - 1) : Int) - 4) }

/-- The handler `pit_handler()` entered with the registers `ebp`, `esp`: the
state afterwards and the `ebp`, `esp` loaded before its `leave; ret`.  `fuel`
bounds the walks to the leaf PCB and the passes of `next_executing_term`;
`none` when one of them does not end. -/
def pit_handler (vid_save_addr : Nat → Nat) (k : kernel_t) (fuel : Nat) (ebp esp : Nat) :
    Option (kernel_t × Nat × Nat) :=
  match get_current_executing_pcb k fuel with
  | none => none
  | some curr_pcb =>
    match next_executing_term fuel (save_context k curr_pcb ebp esp) with
    | none => none
    | some k2 =>
      match get_current_executing_pcb k2 fuel with
      | none => none
      | some next_pcb =>
        let k5 := load_context vid_save_addr k2 next_pcb
        some (k5, (k5.pcbs next_pcb).return_ebp, (k5.pcbs next_pcb).return_esp)

/-! ### Sample consoles -/

/-- A terminal record with every byte and field zero. -/
def zero_term : term_t :=
  { x_save := 0, y_save := 0, buff_save := fun _ => 0, vid_save := fun _ => 0,
    enters_save := 0, buff_index_save := 0 }

/-- A console showing `ls` typed at column 7 of row 2, over saved terminal
records that are all zero. -/
def sample_console : console_t where
  terms := fun _ => zero_term
  key_buff := cstr (bytes "ls")
  num_enters := 0
  buff_index := 2
  video := fun i => if i % 2 = 0 then 108 else 7
  screen_x := 7
  screen_y := 2

/-- Terminals 0 and 1 live, terminal 0 displayed and executing, with the
console above. -/
def sample_machine : machine_t where
  k := { sample_kernel with processes := fun i => if i ≤ 1 then 1 else 0 }
  con := sample_console

/-! ## execute (syscall.c:173-317) and boot (syscall.c:577-680) -/

/-- The constant `ELF_SIZE`. -/
def ELF_SIZE : Nat := 4

/-- The array `elf_magic`. -/
def elf_magic : List Nat := [0x7f, 0x45, 0x4c, 0x46]

/-- The constant `ENTRY_POINT_OFFSET`. -/
def ENTRY_POINT_OFFSET : Nat := 24

/-- Modelled from the spec: lib.c, which defines `strcpy`, is not among the
sources; this is the C library function: the bytes of `src` up to and
including its first NUL are copied, the bytes of `dest` after them are kept. -/
def strcpy (dest : Nat → Nat) (src : List Nat) : Nat → Nat :=
  fun i => if i ≤ strlen src then cstr src i else dest i

/-- The `uint32_t` whose four bytes, lowest first, are `b 0 .. b 3`. -/
def le32 (b : buffer) : Nat :=
  b 0 % 256 + 256 * (b 1 % 256) + 65536 * (b 2 % 256) + 16777216 * (b 3 % 256)

/-- The `for (i = 3; i < MAX_NUM_PROCESSES; i++)` search of syscall.c:209-215
from `i` on, `n` entries left: the first `i` with `processes[i] == 0`. -/
def find_pid (processes : Nat → Nat) : Nat → Nat → Option Nat
  | 0, _ => none
  | n + 1, i => if processes i = 0 then some i else find_pid processes n (i + 1)

/-- The stores of syscall.c:250-265 and 613-631 into the PCB of a new task,
links apart: the two terminal descriptors, the entry point, the argument
string, `active = 0` in descriptors 2..7, the PID and the registers. -/
def init_pcb (pcb : pcb_t) (args : Nat → Nat) (pid entry_point esp ebp : Nat) : pcb_t :=
  let e0 : fd_entry_t :=
    { pcb.fd_array 0 with fo_jump_table_ptr := some fo_jump_table_t.stdin_jump_table }
  let e1 : fd_entry_t :=
    { pcb.fd_array 1 with fo_jump_table_ptr := some fo_jump_table_t.stdout_jump_table }
  { pcb with
    fd_array := fun i =>
      if i = 0 then e0.set_active 1
      else if i = 1 then e1.set_active 1
      else if i < FD_ARRAY_LEN then (pcb.fd_array i).set_active 0
      else pcb.fd_array i
    entry := entry_point
    args := args
    process_id := pid % 256
    parent_esp := esp
    parent_ebp := ebp }

/-- The PCB creation of syscall.c:246-276: the PCB of `new_PID` is filled,
linked to `prev_pcb` as its parent (or to no parent when `new_PID < 3`), made
the child of `prev_pcb`, and given no child. -/
def new_task_pcbs (pcbs : Nat → pcb_t) (new_PID prev_pcb : Nat) (args : List Nat)
    (entry_point esp ebp : Nat) : Nat → pcb_t :=
  let pcb := get_pcb_by_PID (new_PID : Int)
  let p1 := init_pcb (pcbs pcb) (strcpy (pcbs pcb).args args) new_PID entry_point esp ebp
  let pcbs1 := set_at pcbs pcb p1
  let pcbs2 :=
    if new_PID < 3 then set_at pcbs1 pcb { pcbs1 pcb with parent_pcb := 0 }
    else
      let linked := set_at pcbs1 pcb { pcbs1 pcb with parent_pcb := prev_pcb }
      set_at linked prev_pcb { linked prev_pcb with child_pcb := pcb }
  set_at pcbs2 pcb { pcbs2 pcb with child_pcb := 0 }

/-- How `execute` ends: it returns `v`, or its `iret` enters the new program
in user mode at `eip` with stack pointer `esp`. -/
inductive execute_result where
  | ret (v : Int) (k : kernel_t)
  | launch (k : kernel_t) (eip : Nat) (esp : Nat)

/-- The system call `execute(command)`, entered with the registers `esp`,
`ebp` its `asm` statements store.  `none` is the `NULL` command.
`parse_command` is defined in tasks.c, which is not among the sources, and is
taken as a parameter: the program name and the argument string it delivers.
`exception_test()` has an empty body.  The image is copied into the user
window, which is not part of the state; `stack` holds the bytes of the local
`entry_point` before `read_data` fills them.  `fuel` bounds the walk to the
leaf PCB; the result is `none` when the walk does not end. -/
def execute (parse_command : List Nat → List Nat × List Nat) (fs : fs_t) (k : kernel_t)
    (fuel : Nat) (esp ebp : Nat) (stack : buffer) (command : Option (List Nat)) :
    Option execute_result :=
  match command with
  | none => some (execute_result.ret (-1) k)
  | some command =>
    let cmd := (parse_command command).1
    let args := (parse_command command).2
    let d := read_dentry_by_name fs cmd local_dentry
    if d.1 = -1 then some (execute_result.ret (-1) k)
    else
      let dentry := d.2
      let header := read_data fs dentry.inode_index 0 zero_buf ELF_SIZE
      if header.1 = -1 then some (execute_result.ret (-1) k)
      else if strncmp header.2 (cstr elf_magic) ELF_SIZE ≠ 0 then
        some (execute_result.ret (-1) k)
      else
        match find_pid k.processes (MAX_NUM_PROCESSES - 3) 3 with
        | none => some (execute_result.ret 0 k)
        | some new_PID =>
          let k1 : kernel_t := { k with processes := set_at k.processes new_PID 1 }
          let page := create_user_4mb_page k1.page_directory ((new_PID : Int) + 2) 32
          if page.1 ≠ 0 then
            some (execute_result.ret (-1)
              { k1 with processes := set_at k1.processes new_PID 0 })
          else
            let k2 : kernel_t := { k1 with page_directory := page.2 }
            let bytes_to_read : Int := toInt32 (fs.inodes dentry.inode_index).length
            if (read_data fs dentry.inode_index 0 zero_buf (toUInt32 bytes_to_read)).1 ≠
                bytes_to_read then
              some (execute_result.ret (-1)
                { k2 with
                  processes := set_at k2.processes new_PID 0
                  page_directory :=
                    (create_user_4mb_page k2.page_directory ((new_PID : Int) + 2) 32).2 })
            else
              let entry_point :=
                le32 (read_data fs dentry.inode_index ENTRY_POINT_OFFSET stack 4).2
              match get_current_executing_pcb k2 fuel with
              | none => none
              | some prev_pcb =>
                some (execute_result.launch
                  { k2 with
                    pcbs := new_task_pcbs k2.pcbs new_PID prev_pcb args entry_point esp ebp
                    tss_esp0 := esp0_for (new_PID : Int) }
                  entry_point ((33 <<< 22) - 4))

/-! ### Sample image and command parser for execute -/

/-- An image with the program "shell" (inode 0: 32 bytes that start with the
ELF magic and hold the entry point 0x080482E8 at offset 24) and the text file
"frame0.txt" (inode 1: 32 bytes, all 0x2E). -/
def elf_fs : fs_t where
  boot_block := { num_dentries := 2, num_inodes := 2, num_data_blocks := 2 }
  dentries := fun i =>
    if i = 0 then
      { file_name := cstr (bytes "shell"), file_type := 2, inode_index := 0,
        reserved := fun _ => 0 }
    else if i = 1 then
      { file_name := cstr (bytes "frame0.txt"), file_type := 2, inode_index := 1,
        reserved := fun _ => 0 }
    else { file_name := fun _ => 0, file_type := 0, inode_index := 0, reserved := fun _ => 0 }
  inodes := fun i => { length := 32, data_index := fun _ => i }
  data_blocks := fun b =>
    { data := fun k =>
        if b = 0 then
          cstr ([0x7f, 0x45, 0x4c, 0x46] ++ List.replicate 20 0 ++ [0xE8, 0x82, 0x04, 0x08]) k
        else 0x2E }

/-- A command parser for the samples: the name is the command up to its first
space, the argument string what follows that space. -/
def split_at_space (command : List Nat) : List Nat × List Nat :=
  (command.takeWhile (fun c => c ≠ 32), (command.dropWhile (fun c => c ≠ 32)).drop 1)

/-- One pass of the `for (i = 0; i < 3; i++)` loop of `boot`
(syscall.c:594-632) on the state and the bytes of the local `entry_point`:
the frame of shell `i` is mapped, `exec_term_id = i`, the image is copied into
the user window (not part of the state), the entry point is read and the PCB
of PID `i` is filled with no parent and no child.  `esp`, `ebp` are the
registers of `boot`. -/
def boot_shell (fs : fs_t) (dentry : dentry_t) (esp ebp : Nat) (i : Nat)
    (s : kernel_t × buffer) : kernel_t × buffer :=
  let k1 : kernel_t :=
    { s.1 with
      page_directory := (create_user_4mb_page s.1.page_directory ((i : Int) + 2) 32).2
      exec_term_id := (i : Int) }
  let entry := (read_data fs dentry.inode_index ENTRY_POINT_OFFSET s.2 4).2
  let pcb := get_pcb_by_PID (i : Int)
  let p1 := init_pcb (k1.pcbs pcb) (set_at (k1.pcbs pcb).args 0 0) i (le32 entry) esp ebp
  let p2 : pcb_t := { p1 with parent_pcb := 0, child_pcb := 0 }
  ({ k1 with pcbs := set_at k1.pcbs pcb p2 }, entry)

/-- The loop of `boot` from shell `i` on, `n` shells left. -/
def boot_loop (fs : fs_t) (dentry : dentry_t) (esp ebp : Nat) :
    Nat → Nat → kernel_t × buffer → kernel_t × buffer
  | 0, _, s => s
  | n + 1, i, s => boot_loop fs dentry esp ebp n (i + 1) (boot_shell fs dentry esp ebp i s)

/-- The function `boot()`: the state when its `iret` enters the first shell,
with the `eip` and `esp` of that `iret`.  `stack` and `stack_entry` are the
locals `dentry` and `entry_point` before they are written; `init_pit` changes
nothing that is modelled. -/
def boot (fs : fs_t) (stack : dentry_t) (stack_entry : buffer) (esp ebp : Nat)
    (m : machine_t) : machine_t × Nat × Nat :=
  let m1 := init_terminal m
  let k1 : kernel_t :=
    { m1.k with processes := fun i => if i < MAX_NUM_PROCESSES then 0 else m1.k.processes i }
  let dentry := (read_dentry_by_name fs (bytes "shell") stack).2
  let s := boot_loop fs dentry esp ebp 3 0 (k1, stack_entry)
  let k2 : kernel_t := { s.1 with curr_term_id := 0, exec_term_id := 0 }
  let k3 : kernel_t :=
    { k2 with
      page_directory := (create_user_4mb_page k2.page_directory (k2.exec_term_id + 2) 32).2
      tss_esp0 := esp0_for k2.exec_term_id }
  let k4 : kernel_t := { k3 with processes := set_at k3.processes 0 1 }
  ({ k := k4, con := m1.con }, le32 s.2, (33 <<< 22) - 4)

/-! ## Reachable states and the task tree -/

/-- The states the machine can be in after `boot`: each step is a completed
`execute`, `halt`, timer tick, switch of the displayed terminal (ALT+F1..F3,
so terminal 0..2) or `vidmap`; the last step stands for the calls `open`,
`close`, `read` and `write` of the executing task, which change only the
descriptor table and the file names of its PCB, and for keyboard input and
terminal output, which change only the console. -/
inductive reachable (parse_command : List Nat → List Nat × List Nat) (fs : fs_t)
    (vid_save_addr : Nat → Nat) (vid_pt : Nat) : machine_t → Prop
  | boot (m0 : machine_t) (stack : dentry_t) (stack_entry : buffer) (esp ebp : Nat) :
      reachable parse_command fs vid_save_addr vid_pt (boot fs stack stack_entry esp ebp m0).1
  | execute_ret (m : machine_t) (fuel esp ebp : Nat) (stack : buffer)
      (command : Option (List Nat)) (v : Int) (k1 : kernel_t) :
      reachable parse_command fs vid_save_addr vid_pt m →
      execute parse_command fs m.k fuel esp ebp stack command =
        some (execute_result.ret v k1) →
      reachable parse_command fs vid_save_addr vid_pt { m with k := k1 }
  | execute_launch (m : machine_t) (fuel esp ebp : Nat) (stack : buffer)
      (command : Option (List Nat)) (k1 : kernel_t) (eip sp : Nat) :
      reachable parse_command fs vid_save_addr vid_pt m →
      execute parse_command fs m.k fuel esp ebp stack command =
        some (execute_result.launch k1 eip sp) →
      reachable parse_command fs vid_save_addr vid_pt { m with k := k1 }
  | halt_relaunch (m : machine_t) (fuel status : Nat) (k1 : kernel_t) (eip sp : Nat) :
      reachable parse_command fs vid_save_addr vid_pt m →
      halt m.k fuel status = some (halt_result.relaunch k1 eip sp) →
      reachable parse_command fs vid_save_addr vid_pt { m with k := k1 }
  | halt_resume (m : machine_t) (fuel status : Nat) (k1 : kernel_t) (eax sp bp : Nat) :
      reachable parse_command fs vid_save_addr vid_pt m →
      halt m.k fuel status = some (halt_result.resume k1 eax sp bp) →
      reachable parse_command fs vid_save_addr vid_pt { m with k := k1 }
  | tick (m : machine_t) (fuel ebp esp : Nat) (k1 : kernel_t) (bp sp : Nat) :
      reachable parse_command fs vid_save_addr vid_pt m →
      pit_handler vid_save_addr m.k fuel ebp esp = some (k1, bp, sp) →
      reachable parse_command fs vid_save_addr vid_pt { m with k := k1 }
  | switch (m : machine_t) (t : Nat) :
      reachable parse_command fs vid_save_addr vid_pt m → t ≤ 2 →
      reachable parse_command fs vid_save_addr vid_pt (switch_displaying_term m (t : Int)).1
  | vidmap (m : machine_t) (mem : memory) (screen_start : Nat) :
      reachable parse_command fs vid_save_addr vid_pt m →
      reachable parse_command fs vid_save_addr vid_pt
        { m with k := (vidmap vid_pt m.k mem screen_start).2.1 }
  | io (m : machine_t) (fuel cur : Nat) (fd_array : Nat → fd_entry_t)
      (filenames : Nat → Nat → Nat) (con : console_t) :
      reachable parse_command fs vid_save_addr vid_pt m →
      get_current_executing_pcb m.k fuel = some cur →
      reachable parse_command fs vid_save_addr vid_pt
        { k := { m.k with
                 pcbs := set_at m.k.pcbs cur
                   { m.k.pcbs cur with fd_array := fd_array, filenames := filenames } }
          con := con }

/-- Following `parent_pcb` links from the PCB at address `a` until the link
is `NULL`: the address of the PCB reached.  The first argument bounds the
number of PCBs visited; `none` when the bound is reached. -/
def root_from (pcbs : Nat → pcb_t) : Nat → Nat → Option Nat
  | 0, _ => none
  | fuel + 1, a =>
    if (pcbs a).parent_pcb ≠ 0 then root_from pcbs fuel (pcbs a).parent_pcb else some a

/-- The shape of the task tree, for PCB addresses `A p` of the PIDs `p`: the
PCBs of PIDs 0..2 carry their PID and no parent, and no child while not live;
a live PID in 3..6 carries its PID and has a live parent, of smaller depth
`d`, whose child it is; a child link of a live PID leads to a live PID in
3..6 whose parent link leads back. -/
def links_wf (A : Nat → Nat) (pcbs : Nat → pcb_t) (processes : Nat → Nat) (d : Nat → Nat) :
    Prop :=
  (∀ t, t ≤ 2 →
    (pcbs (A t)).process_id = t ∧ (pcbs (A t)).parent_pcb = 0 ∧
    (processes t = 0 → (pcbs (A t)).child_pcb = 0)) ∧
  (∀ q, 3 ≤ q → q ≤ 6 → processes q ≠ 0 →
    (pcbs (A q)).process_id = q ∧
    ∃ p, p ≤ 6 ∧ processes p ≠ 0 ∧ (pcbs (A q)).parent_pcb = A p ∧
      (pcbs (A p)).child_pcb = A q ∧ d p < d q) ∧
  (∀ p, p ≤ 6 → processes p ≠ 0 → (pcbs (A p)).child_pcb ≠ 0 →
    ∃ q, 3 ≤ q ∧ q ≤ 6 ∧ processes q ≠ 0 ∧ (pcbs (A p)).child_pcb = A q ∧
      (pcbs (A q)).parent_pcb = A p)

/-- The state of the tasks is well formed: the executing terminal is one of
0..2 and live, the task tree has the shape above at the addresses
`get_pcb_by_PID` gives, and directory entry 32 is the entry
`create_user_4mb_page` writes for the frame of the leaf task of the executing
terminal. -/
def kernel_wf (k : kernel_t) : Prop :=
  (∃ e : Nat, e ≤ 2 ∧ k.exec_term_id = (e : Int) ∧ k.processes e ≠ 0) ∧
  (∃ d, links_wf (fun p => get_pcb_by_PID (p : Int)) k.pcbs k.processes d) ∧
  (∀ fuel l, get_current_executing_pcb k fuel = some l →
    k.page_directory 32 =
      (create_user_4mb_page k.page_directory (((k.pcbs l).process_id : Int) + 2) 32).2 32)

/-- The state `h` has the tasks of the state `k`: the same executing terminal,
liveness table and directory entry 32, and, in the PCB of every PID that is
one of 0..2 or live, the same PID, links and saved registers of `execute`. -/
def same_tasks (k h : kernel_t) : Prop :=
  h.exec_term_id = k.exec_term_id ∧ h.processes = k.processes ∧
  h.page_directory 32 = k.page_directory 32 ∧
  ∀ p, p ≤ 6 → (p ≤ 2 ∨ k.processes p ≠ 0) →
    (h.pcbs (get_pcb_by_PID (p : Int))).process_id =
      (k.pcbs (get_pcb_by_PID (p : Int))).process_id ∧
    (h.pcbs (get_pcb_by_PID (p : Int))).parent_pcb =
      (k.pcbs (get_pcb_by_PID (p : Int))).parent_pcb ∧
    (h.pcbs (get_pcb_by_PID (p : Int))).child_pcb =
      (k.pcbs (get_pcb_by_PID (p : Int))).child_pcb ∧
    (h.pcbs (get_pcb_by_PID (p : Int))).parent_esp =
      (k.pcbs (get_pcb_by_PID (p : Int))).parent_esp ∧
    (h.pcbs (get_pcb_by_PID (p : Int))).parent_ebp =
      (k.pcbs (get_pcb_by_PID (p : Int))).parent_ebp

/-! ### Sample runs from boot -/

/-- The machine as `boot` leaves it on the sample image, started from the
sample machine with `esp = 0x7FFF00` and `ebp = 0x7FFF40`. -/
def booted : machine_t :=
  (boot elf_fs local_dentry zero_buf 0x7FFF00 0x7FFF40 sample_machine).1

/-- The run ALT+F2, `vidmap` by the shell of terminal 1, ALT+F1 from the
booted machine. -/
def switched_back : machine_t :=
  let s1 := (switch_displaying_term booted 1).1
  let s2 : machine_t := { s1 with k := (vidmap 0x500000 s1.k ff_mem 134217728).2.1 }
  (switch_displaying_term s2 0).1

/-! ## Keyboard (keyboard.h, keyboard.c) and terminal_read (terminal.c:148-166) -/

/-- The constant `BUFF_SIZE`. -/
def BUFF_SIZE : Nat := 128

/-- The constant `KNOWN_CODES`. -/
def KNOWN_CODES : Nat := 0x3B

/-- The table `no_modifier`; the entries a table of 60 does not list are 0. -/
def no_modifier : List Nat :=
  [0, 0, 49, 50, 51, 52, 53, 54, 55, 56, 57, 48, 45, 61, 0, 0, 113, 119, 101, 114, 116, 121,
   117, 105, 111, 112, 91, 93, 0, 0, 97, 115, 100, 102, 103, 104, 106, 107, 108, 59, 39, 96,
   0, 92, 122, 120, 99, 118, 98, 110, 109, 44, 46, 47, 0, 42, 0, 32, 0]

/-- The table `shift_pressed`. -/
def shift_pressed : List Nat :=
  [0, 0, 33, 64, 35, 36, 37, 94, 38, 42, 40, 41, 95, 43, 8, 0, 81, 87, 69, 82, 84, 89, 85, 73,
   79, 80, 123, 125, 0, 0, 65, 83, 68, 70, 71, 72, 74, 75, 76, 58, 34, 126, 0, 124, 90, 88,
   67, 86, 66, 78, 77, 60, 62, 63, 0, 42, 0, 32, 0]

/-- The table `caps_pressed`. -/
def caps_pressed : List Nat :=
  [0, 0, 49, 50, 51, 52, 53, 54, 55, 56, 57, 48, 45, 61, 0, 0, 81, 87, 69, 82, 84, 89, 85, 73,
   79, 80, 91, 93, 0, 0, 65, 83, 68, 70, 71, 72, 74, 75, 76, 59, 39, 96, 0, 92, 90, 88, 67,
   86, 66, 78, 77, 44, 46, 47, 0, 42, 0, 32, 0]

/-- The table `caps_shift_pressed`. -/
def caps_shift_pressed : List Nat :=
  [0, 0, 33, 64, 35, 36, 37, 94, 38, 42, 40, 41, 95, 43, 0, 0, 113, 119, 101, 114, 116, 121,
   117, 105, 111, 112, 123, 125, 0, 0, 97, 115, 100, 102, 103, 104, 106, 107, 108, 58, 34,
   126, 0, 92, 122, 120, 99, 118, 98, 110, 109, 60, 62, 63, 0, 42, 0, 32, 0]

/-- The modifier flags of keyboard.c. -/
structure key_flags_t where
  SHIFT_LEFT_FLAG : Nat
  SHIFT_RIGHT_FLAG : Nat
  CAPS_LOCK_FLAG : Nat
  CTRL_FLAG : Nat
  alt_flag : Nat

/-- The video memory with the screen cursor. -/
structure screen_t where
  video : Nat → Nat
  screen_x : Int
  screen_y : Int

/-- Modelled from the spec: lib.c, which defines `putc` (behind `printf`),
`print_backspace` and `clear`, is not among the sources.  By the spec the
console owns the VGA text buffer and the cursor, which `putc` and
`print_backspace` change; what they write there is a parameter.  The spec has
CTRL+L clear the screen and the line buffer while `set_buffer` only calls
`clear()`, so `clear` is a parameter on the whole console. -/
structure lib_ops where
  putc : screen_t → Nat → screen_t
  print_backspace : screen_t → screen_t
  clear : console_t → console_t

/-- The console after a function of lib.c has written to the screen. -/
def with_screen (c : console_t) (s : screen_t) : console_t :=
  { c with video := s.video, screen_x := s.screen_x, screen_y := s.screen_y }

/-- The screen of a console. -/
def screen_of (c : console_t) : screen_t :=
  { video := c.video, screen_x := c.screen_x, screen_y := c.screen_y }

/-- The store `key_buff[i] = v` for an `int` index: a store at a negative
index lands before the array and leaves its bytes as they are. -/
def store_key (key_buff : Nat → Nat) (i : Int) (v : Nat) : Nat → Nat :=
  if 0 ≤ i then set_byte key_buff i.toNat v else key_buff

/-- The function `init_keyboard()`; `enable_irq` changes nothing that is
modelled. -/
def init_keyboard (c : console_t) : console_t :=
  { c with
    buff_index := 0
    num_enters := 0
    key_buff := fun i => if i < BUFF_SIZE then 0 else c.key_buff i }

/-- The character `set_buffer` stores for a scancode below `KNOWN_CODES`:
the entry of the table the modifier flags select. -/
def key_char (f : key_flags_t) (key : Nat) : Nat :=
  if f.CAPS_LOCK_FLAG ≠ 0 ∧ (f.SHIFT_RIGHT_FLAG ≠ 0 ∨ f.SHIFT_LEFT_FLAG ≠ 0) then
    caps_shift_pressed.getD key 0
  else if f.SHIFT_LEFT_FLAG ≠ 0 ∨ f.SHIFT_RIGHT_FLAG ≠ 0 then shift_pressed.getD key 0
  else if f.CAPS_LOCK_FLAG ≠ 0 then caps_pressed.getD key 0
  else no_modifier.getD key 0

/-- The function `set_buffer(key)`: the state afterwards and, when ALT+F1..F3
starts the shell of a terminal, the `eip` and `esp` of that `iret`. -/
def set_buffer (ops : lib_ops) (m : machine_t) (f : key_flags_t) (key : Nat) :
    machine_t × Option (Nat × Nat) :=
  if f.CTRL_FLAG ≠ 0 ∧ key = 0x26 then ({ m with con := ops.clear m.con }, none)
  else if key ≥ 0x3B ∧ key ≤ 0x3D then
    if f.alt_flag ≠ 0 then switch_displaying_term m ((key : Int) - 0x3B) else (m, none)
  else if key = 0x0F ∨ key = 0x01 ∨ key = 0x2A ∨ key = 0x37 then (m, none)
  else if m.con.buff_index < (BUFF_SIZE : Int) - 1 then
    if key < KNOWN_CODES then
      let c1 : console_t :=
        { m.con with key_buff := store_key m.con.key_buff m.con.buff_index (key_char f key) }
      let c2 := with_screen c1 (ops.putc (screen_of c1) (key_char f key))
      ({ m with con := { c2 with buff_index := c2.buff_index + 1 } }, none)
    else (m, none)
  else (m, none)

/-- The handler `keyboard_handler()` for the scancode `key` read from the
keyboard port: the state and the flags afterwards and, when a shell is
started, the `eip` and `esp` of its `iret`.  `send_eoi` changes nothing that
is modelled. -/
def keyboard_handler (ops : lib_ops) (m : machine_t) (f : key_flags_t) (key : Nat) :
    machine_t × key_flags_t × Option (Nat × Nat) :=
  if key = 0x2A then (m, { f with SHIFT_LEFT_FLAG := 1 }, none)
  else if key = 0x36 then (m, { f with SHIFT_RIGHT_FLAG := 1 }, none)
  else if key = 0xAA then (m, { f with SHIFT_LEFT_FLAG := 0 }, none)
  else if key = 0xB6 then (m, { f with SHIFT_RIGHT_FLAG := 0 }, none)
  else if key = 0x1C then
    if m.con.buff_index < (BUFF_SIZE : Int) then
      let c1 : console_t :=
        { m.con with key_buff := store_key m.con.key_buff m.con.buff_index 10 }
      let c2 : console_t := { c1 with buff_index := c1.buff_index + 1 }
      let c3 := with_screen c2 (ops.putc (screen_of c2) 10)
      ({ m with con := { c3 with num_enters := c3.num_enters + 1 } }, f, none)
    else (m, f, none)
  else if key = 0x1D then (m, { f with CTRL_FLAG := 1 }, none)
  else if key = 0x9D then (m, { f with CTRL_FLAG := 0 }, none)
  else if key = 0x0E then
    let i1 := m.con.buff_index - 1
    let i2 := if i1 < 0 then 0 else i1
    let c1 : console_t := { m.con with buff_index := i2 }
    let c2 :=
      if c1.key_buff i2.toNat ≠ 0 then with_screen c1 (ops.print_backspace (screen_of c1))
      else c1
    ({ m with con := { c2 with key_buff := store_key c2.key_buff i2 0 } }, f, none)
  else if key = 0x3A then
    (m, { f with CAPS_LOCK_FLAG := if f.CAPS_LOCK_FLAG % 2 = 1 then f.CAPS_LOCK_FLAG - 1
                                   else f.CAPS_LOCK_FLAG + 1 }, none)
  else if key = 0x38 then (m, { f with alt_flag := 1 }, none)
  else if key = 0xE0 then (m, { f with alt_flag := 1 }, none)
  else if key = 0xB8 then (m, { f with alt_flag := 0 }, none)
  else ((set_buffer ops m f key).1, f, (set_buffer ops m f key).2)

/-- The function `shift_buffer(index, buf)` for `buf = key_buff`, as
`terminal_read` calls it: the loop clears bytes `0 .. index` and leaves
`i = index + 1` (`i = 0` for a negative `index`); `memcpy` copies
`BUFF_SIZE - index - 1` bytes (a `uint32_t` count) from `&buf[i + 1]` to
`buf`, lowest address first, so every byte read is read before the copy
reaches it; the write index of the executing terminal goes down by
`index + 1`.  Indices from 128 on stand for the memory behind the array. -/
def shift_buffer (m : machine_t) (index : Int) : machine_t :=
  let cleared : Nat → Nat := fun j => if (j : Int) ≤ index then 0 else m.con.key_buff j
  let i : Int := if 0 ≤ index then index + 1 else 0
  let n := toUInt32 ((BUFF_SIZE : Int) - index - 1)
  let shifted : Nat → Nat := memcpy cleared (fun j => cleared (j + (i + 1).toNat)) n
  let c1 : console_t := { m.con with key_buff := shifted }
  if m.k.exec_term_id = m.k.curr_term_id then
    { m with con := { c1 with buff_index := c1.buff_index - (index + 1) } }
  else
    let e := m.k.exec_term_id.toNat
    let t : term_t :=
      { c1.terms e with buff_index_save := (c1.terms e).buff_index_save - (index + 1) }
    { m with con := { c1 with terms := set_at c1.terms e t } }

/-- The copy loop of `terminal_read` from index `i` on: bytes of `key_buff`
go to `temp` until a `'\n'` is met or `i` reaches `nbytes`.  The first
argument bounds the number of iterations. -/
def terminal_read_loop (key_buff : Nat → Nat) (nbytes : Int) :
    Nat → Nat → buffer → Nat × buffer
  | 0, i, temp => (i, temp)
  | fuel + 1, i, temp =>
    if key_buff i ≠ 10 ∧ (i : Int) < nbytes then
      terminal_read_loop key_buff nbytes fuel (i + 1) (set_byte temp i (key_buff i))
    else (i, temp)

/-- The function `terminal_read(fd, buf, nbytes)`: `none` while the executing
terminal is not the displayed one or no line is ready (the call spins until an
interrupt changes that); otherwise the value returned, the caller's buffer and
the state afterwards.  `stack` is what the local `temp` holds on entry. -/
def terminal_read (m : machine_t) (stack : buffer) (buf : buffer) (nbytes : Int) :
    Option (Int × buffer × machine_t) :=
  if m.k.exec_term_id = m.k.curr_term_id ∧ m.con.num_enters > 0 then
    let m1 : machine_t := { m with con := { m.con with num_enters := m.con.num_enters - 1 } }
    let r := terminal_read_loop m1.con.key_buff nbytes (nbytes.toNat + 1) 0 stack
    let m2 := shift_buffer m1 (r.1 : Int)
    some (toInt32 r.1, memcpy buf r.2 r.1, m2)
  else none

/-- The number of `'\n'` bytes among the first `n` bytes of a buffer. -/
def count_newlines (buf : Nat → Nat) (n : Nat) : Nat :=
  ((List.range n).filter (fun i => buf i = 10)).length

/-- The scancodes with which `keyboard_handler` reaches the stores of
`set_buffer` under the flags `f`: below `KNOWN_CODES`, none of the cases of
the `switch`, not CTRL+L and none of TAB, ESC and the print-screen codes. -/
def printable (f : key_flags_t) (key : Nat) : Prop :=
  key < KNOWN_CODES ∧ key ≠ 0x2A ∧ key ≠ 0x36 ∧ key ≠ 0x1C ∧ key ≠ 0x1D ∧ key ≠ 0x0E ∧
  key ≠ 0x3A ∧ key ≠ 0x38 ∧ ¬ (f.CTRL_FLAG ≠ 0 ∧ key = 0x26) ∧
  key ≠ 0x0F ∧ key ≠ 0x01 ∧ key ≠ 0x37

instance (f : key_flags_t) (key : Nat) : Decidable (printable f key) := by
  unfold printable; infer_instance

/-- The keyboard interrupts for a list of scancodes, one after the other: the
state and the flags afterwards. -/
def type_keys (ops : lib_ops) : machine_t × key_flags_t → List Nat → machine_t × key_flags_t
  | s, [] => s
  | s, key :: keys =>
    type_keys ops
      ((keyboard_handler ops s.1 s.2 key).1, (keyboard_handler ops s.1 s.2 key).2.1) keys

/-! ### Sample keyboard states -/

/-- Modelled from the spec: a sample of the functions of lib.c.  `putc`
writes the character into the cell at the cursor and moves the cursor right,
`print_backspace` moves it left and blanks the cell, `clear` blanks the screen
and homes the cursor. -/
def sample_ops : lib_ops where
  putc := fun s ch =>
    { s with
      video := set_byte s.video ((80 * s.screen_y.toNat + s.screen_x.toNat) * 2) ch
      screen_x := s.screen_x + 1 }
  print_backspace := fun s =>
    { s with
      video := set_byte s.video ((80 * s.screen_y.toNat + (s.screen_x - 1).toNat) * 2) 32
      screen_x := s.screen_x - 1 }
  clear := fun c => { c with video := fun i => if i % 2 = 0 then 32 else 7, screen_x := 0,
                             screen_y := 0 }

/-- No modifier key is held. -/
def no_flags : key_flags_t :=
  { SHIFT_LEFT_FLAG := 0, SHIFT_RIGHT_FLAG := 0, CAPS_LOCK_FLAG := 0, CTRL_FLAG := 0,
    alt_flag := 0 }

/-- The sample machine after `init_keyboard()`: terminal 0 displayed and
executing, the line buffer empty, and the byte `v` in the memory cell behind
`key_buff`. -/
def fresh_machine (v : Nat) : machine_t :=
  { sample_machine with
    con := init_keyboard { sample_machine.con with key_buff := fun i => if i = 128 then v else 0 } }

/-- The keys a, b, ENTER, c, d, ENTER typed into the fresh machine: the line
buffer holds the two lines "ab" and "cd". -/
def two_lines : machine_t :=
  (type_keys sample_ops (fresh_machine 0, no_flags) [0x1E, 0x30, 0x1C, 0x2E, 0x20, 0x1C]).1

/-- The key `a` pressed 130 times. -/
def many_a : List Nat := List.replicate 130 0x1E

/-- The state after `init_keyboard()`, the keys `keys` and one ENTER. -/
def typed_line (ops : lib_ops) (m : machine_t) (f : key_flags_t) (keys : List Nat) :
    machine_t :=
  (keyboard_handler ops
    (type_keys ops ({ m with con := init_keyboard m.con }, f) keys).1
    (type_keys ops ({ m with con := init_keyboard m.con }, f) keys).2 0x1C).1

/-! # Theorems -/

/-! ### The copy loop and the validity checks -/

theorem data_index_check_iff (fs : fs_t) (inode : Nat) :
    data_index_check fs inode = true ↔
      ∀ i, i ≤ (fs.inodes inode).length / FS_BLOCK_SIZE →
        (fs.inodes inode).data_index i < fs.boot_block.num_data_blocks := by
  unfold data_index_check
  simp only [List.all_eq_true, List.mem_range, decide_eq_true_eq]
  constructor
  · intro h i hi
    exact h i (by omega)
  · intro h i hi
    exact h i (by omega)

theorem set_byte_apply (buf : buffer) (k v j : Nat) :
    set_byte buf k v j = if j = k then v else buf j := rfl

/-- The loop invariant of the copy loop: started on a cursor that stands for
file position `o0 + bytes_written`, the loop runs to `bytes_written = length`
and stores file byte `o0 + k` at every index `k` it passes. -/
theorem read_data_loop_spec (fs : fs_t) (inode length o0 : Nat) :
    ∀ (fuel bw idx curr off : Nat) (buf : buffer),
      bw + fuel = length →
      ((off < FS_BLOCK_SIZE ∧ idx = (o0 + bw) / FS_BLOCK_SIZE ∧
          off = (o0 + bw) % FS_BLOCK_SIZE ∧ curr = (fs.inodes inode).data_index idx) ∨
        (off = FS_BLOCK_SIZE ∧ idx + 1 = (o0 + bw) / FS_BLOCK_SIZE ∧
          (o0 + bw) % FS_BLOCK_SIZE = 0)) →
      (read_data_loop fs inode length fuel bw idx curr off buf).1 = length ∧
      ∀ k, (read_data_loop fs inode length fuel bw idx curr off buf).2 k =
        if bw ≤ k ∧ k < length then file_byte fs inode (o0 + k) else buf k := by
  intro fuel
  induction fuel with
  | zero =>
    intro bw idx curr off buf hlen _
    refine ⟨by simp [read_data_loop]; omega, ?_⟩
    intro k
    have : ¬ (bw ≤ k ∧ k < length) := by omega
    simp [read_data_loop, this]
  | succ n ih =>
    intro bw idx curr off buf hlen hinv
    have hlt : bw < length := by omega
    unfold FS_BLOCK_SIZE at hinv
    by_cases hoff : off ≥ FS_BLOCK_SIZE
    · have hb : off = 4096 ∧ idx + 1 = (o0 + bw) / 4096 ∧ (o0 + bw) % 4096 = 0 := by
        unfold FS_BLOCK_SIZE at hoff
        rcases hinv with h | h
        · omega
        · exact h
      have hstep := ih (bw + 1) (idx + 1) ((fs.inodes inode).data_index (idx + 1)) (0 + 1)
        (set_byte buf bw ((fs.data_blocks ((fs.inodes inode).data_index (idx + 1))).data 0))
        (by omega)
        (Or.inl (by unfold FS_BLOCK_SIZE; refine ⟨by omega, by omega, by omega, rfl⟩))
      rw [read_data_loop, if_pos hlt, if_pos hoff]
      refine ⟨hstep.1, ?_⟩
      intro k
      rw [hstep.2 k, set_byte_apply]
      by_cases hk : k = bw
      · subst hk
        have h1 : ¬ (k + 1 ≤ k ∧ k < length) := by omega
        have h2 : k ≤ k ∧ k < length := ⟨le_refl _, hlt⟩
        rw [if_neg h1, if_pos rfl, if_pos h2]
        unfold file_byte FS_BLOCK_SIZE
        rw [← hb.2.1, hb.2.2]
      · by_cases hk2 : bw + 1 ≤ k ∧ k < length
        · have h2 : bw ≤ k ∧ k < length := by omega
          rw [if_pos hk2, if_pos h2]
        · have h2 : ¬ (bw ≤ k ∧ k < length) := by omega
          rw [if_neg hk2, if_neg hk, if_neg h2]
    · have hb : off < 4096 ∧ idx = (o0 + bw) / 4096 ∧ off = (o0 + bw) % 4096 ∧
          curr = (fs.inodes inode).data_index idx := by
        unfold FS_BLOCK_SIZE at hoff
        rcases hinv with h | h
        · exact h
        · omega
      have hstep := ih (bw + 1) idx curr (off + 1)
        (set_byte buf bw ((fs.data_blocks curr).data off))
        (by omega)
        (by
          unfold FS_BLOCK_SIZE
          by_cases hlast : off + 1 < 4096
          · exact Or.inl ⟨hlast, by omega, by omega, hb.2.2.2⟩
          · exact Or.inr ⟨by omega, by omega, by omega⟩)
      rw [read_data_loop, if_pos hlt, if_neg hoff]
      refine ⟨hstep.1, ?_⟩
      intro k
      rw [hstep.2 k, set_byte_apply]
      by_cases hk : k = bw
      · subst hk
        have h1 : ¬ (k + 1 ≤ k ∧ k < length) := by omega
        have h2 : k ≤ k ∧ k < length := ⟨le_refl _, hlt⟩
        rw [if_neg h1, if_pos rfl, if_pos h2]
        unfold file_byte FS_BLOCK_SIZE
        rw [hb.2.2.2, hb.2.1, hb.2.2.1]
      · by_cases hk2 : bw + 1 ≤ k ∧ k < length
        · have h2 : bw ≤ k ∧ k < length := by omega
          rw [if_pos hk2, if_pos h2]
        · have h2 : ¬ (bw ≤ k ∧ k < length) := by omega
          rw [if_neg hk2, if_neg hk, if_neg h2]

/-- When a check fails, `read_data` returns -1 and the buffer is the one it
was given. -/
theorem read_data_of_not_valid (fs : fs_t) (inode offset : Nat) (buf : buffer) (length : Nat)
    (h : ¬ read_valid fs inode offset length) :
    read_data fs inode offset buf length = (-1, buf) := by
  unfold read_data
  unfold read_valid at h
  by_cases h1 : inode ≥ fs.boot_block.num_inodes ∨
      (offset + length) % WORD > (fs.inodes inode).length
  · rw [if_pos h1]
  · rw [if_neg h1]
    have h3 : data_index_check fs inode = false := by
      cases hc : data_index_check fs inode with
      | false => rfl
      | true => exact absurd ⟨by omega, by omega, hc⟩ h
    rw [if_pos h3]

/-- When the checks pass, `read_data` returns `length` as an `int32_t` and the
buffer holds file bytes `offset .. offset + length - 1` at indices
`0 .. length - 1`, every other index being as before. -/
theorem read_data_of_valid (fs : fs_t) (inode offset : Nat) (buf : buffer) (length : Nat)
    (h : read_valid fs inode offset length) :
    (read_data fs inode offset buf length).1 = toInt32 length ∧
    ∀ k, (read_data fs inode offset buf length).2 k =
      if k < length then file_byte fs inode (offset + k) else buf k := by
  obtain ⟨h1, h2, h3⟩ := h
  have hc : ¬ (inode ≥ fs.boot_block.num_inodes ∨
      (offset + length) % WORD > (fs.inodes inode).length) := by omega
  have hd : ¬ (data_index_check fs inode = false) := by simp [h3]
  have hloop := read_data_loop_spec fs inode length offset length 0
    (offset / FS_BLOCK_SIZE) ((fs.inodes inode).data_index (offset / FS_BLOCK_SIZE))
    (offset % FS_BLOCK_SIZE) buf (by omega)
    (Or.inl ⟨Nat.mod_lt _ (by unfold FS_BLOCK_SIZE; omega), by simp, by simp, rfl⟩)
  unfold read_data
  rw [if_neg hc, if_neg hd]
  refine ⟨by simp only [hloop.1], ?_⟩
  intro k
  simp only [hloop.2 k, Nat.zero_le, true_and]

theorem toInt32_of_lt (n : Nat) (h : n < 2 ^ 31) : toInt32 n = (n : Int) := by
  unfold toInt32 WORD
  have h1 : n % 2 ^ 32 = n := Nat.mod_eq_of_lt (by omega)
  rw [h1, if_pos h]

theorem toInt32_of_ge (n : Nat) (h1 : 2 ^ 31 ≤ n) (h2 : n < 2 ^ 32) :
    toInt32 n = (n : Int) - 2 ^ 32 := by
  unfold toInt32 WORD
  have h3 : n % 2 ^ 32 = n := Nat.mod_eq_of_lt h2
  rw [h3, if_neg (by omega)]
  norm_num

/-- A result other than -1 means that the checks passed. -/
theorem read_valid_of_ne (fs : fs_t) (inode offset : Nat) (buf : buffer) (length : Nat)
    (h : (read_data fs inode offset buf length).1 ≠ -1) :
    read_valid fs inode offset length := by
  by_contra hv
  rw [read_data_of_not_valid fs inode offset buf length hv] at h
  exact h rfl

/-! ## read_data -/

/-- C1: for every image, inode index, offset, length and destination buffer,
whenever `read_data` does not return -1: it returns exactly `length`, for
every `length` the `int` counter `bytes_written` can hold (`length < 2^31`;
beyond that the increment of the counter overflows); for every `k < length`,
`buf[k]` is byte `(offset + k) mod 4096` of the data block numbered
`inode.data_index[(offset + k) div 4096]`; and no buffer byte at an index
`>= length` is modified. -/
theorem read_data_copies (fs : fs_t) (inode offset : Nat) (buf : buffer) (length : Nat)
    (h : (read_data fs inode offset buf length).1 ≠ -1) :
    (length < 2 ^ 31 → (read_data fs inode offset buf length).1 = (length : Int)) ∧
    (∀ k, k < length →
      (read_data fs inode offset buf length).2 k =
        (fs.data_blocks ((fs.inodes inode).data_index ((offset + k) / 4096))).data
          ((offset + k) % 4096)) ∧
    (∀ k, length ≤ k → (read_data fs inode offset buf length).2 k = buf k) := by
  have hv := read_valid_of_ne fs inode offset buf length h
  obtain ⟨hret, hbuf⟩ := read_data_of_valid fs inode offset buf length hv
  refine ⟨?_, ?_, ?_⟩
  · intro hl
    rw [hret, toInt32_of_lt length hl]
  · intro k hk
    rw [hbuf k, if_pos hk]
    rfl
  · intro k hk
    rw [hbuf k, if_neg (by omega)]

/-- C1 (witness): a 3-byte read at offset 2 of a 10-byte file, and a 4-byte
read at offset 4094 of a 5000-byte file, which crosses into the block listed
in index slot 1. -/
theorem read_data_copies_witness :
    (read_data (sample_fs 10 0 1) 0 2 zero_buf 3).1 ≠ -1 ∧
    (read_data (sample_fs 10 0 1) 0 2 zero_buf 3).1 = ((3 : Nat) : Int) ∧
    (read_data (sample_fs 10 0 1) 0 2 zero_buf 3).2 1 = 4 ∧
    (read_data (sample_fs 5000 1 2) 0 4094 zero_buf 4).1 = ((4 : Nat) : Int) ∧
    (read_data (sample_fs 5000 1 2) 0 4094 zero_buf 4).2 2 = 2 :=
  ⟨by decide,
   (read_data_copies (sample_fs 10 0 1) 0 2 zero_buf 3 (by decide)).1 (by decide),
   ((read_data_copies (sample_fs 10 0 1) 0 2 zero_buf 3 (by decide)).2.1 1
      (by decide)).trans (by decide),
   (read_data_copies (sample_fs 5000 1 2) 0 4094 zero_buf 4 (by decide)).1 (by decide),
   ((read_data_copies (sample_fs 5000 1 2) 0 4094 zero_buf 4 (by decide)).2.1 2
      (by decide)).trans (by decide)⟩

/-- C2: a read that touches an index slot naming a block `>= num_data_blocks`
and still succeeds.  With `offset = 2^32 - 1` and `length = 2` the 32-bit sum
of fs.c:96 wraps to 1, which a 10-byte file allows; the validation loop
inspects slot 0 only; the read starts in index slot `(2^32 - 1) div 4096`,
which names block 1 of an image that has one data block, and `read_data`
returns 2, not -1, and overwrites `buf[0]`. -/
theorem read_data_wrap_reads_unchecked_slot :
    4294967295 < 2 ^ 32 ∧ 2 < 2 ^ 32 ∧
    (4294967295 + 2) % WORD = 1 ∧
    ((sample_fs 10 1 1).inodes 0).data_index ((4294967295 + 0) / 4096)
      ≥ (sample_fs 10 1 1).boot_block.num_data_blocks ∧
    (read_data (sample_fs 10 1 1) 0 4294967295 zero_buf 2).1 = 2 ∧
    (read_data (sample_fs 10 1 1) 0 4294967295 zero_buf 2).2 0 ≠ zero_buf 0 := by
  decide

/-- When the sum `offset + length` does not wrap, `read_data` returns -1 and
leaves the destination buffer unmodified whenever `inode >= num_inodes`, or
`offset + length` exceeds the inode's length, or any data-block index the
read would touch, `data_index[(offset + k) div 4096]` for a `k < length`, is
`>= num_data_blocks`. -/
theorem read_data_rejects (fs : fs_t) (inode offset : Nat) (buf : buffer) (length : Nat)
    (h : inode ≥ fs.boot_block.num_inodes ∨
      (offset + length < 2 ^ 32 ∧
        (offset + length > (fs.inodes inode).length ∨
          ∃ k, k < length ∧
            (fs.inodes inode).data_index ((offset + k) / 4096)
              ≥ fs.boot_block.num_data_blocks))) :
    read_data fs inode offset buf length = (-1, buf) := by
  apply read_data_of_not_valid
  rintro ⟨h1, h2, h3⟩
  rcases h with h | ⟨hsum, h | ⟨k, hk, hbad⟩⟩
  · omega
  · unfold WORD at h2
    rw [Nat.mod_eq_of_lt hsum] at h2
    omega
  · unfold WORD at h2
    rw [Nat.mod_eq_of_lt hsum] at h2
    rw [data_index_check_iff] at h3
    have := h3 ((offset + k) / 4096) (by unfold FS_BLOCK_SIZE; omega)
    omega

/-- A read that would touch index slot 1, which names block 1 of an image with
one data block, is rejected. -/
theorem read_data_rejects_sample :
    (4000 + 200 < 2 ^ 32 ∧
      ((sample_fs 5000 1 1).inodes 0).data_index ((4000 + 100) / 4096)
        ≥ (sample_fs 5000 1 1).boot_block.num_data_blocks) ∧
    read_data (sample_fs 5000 1 1) 0 4000 zero_buf 200 = (-1, zero_buf) :=
  ⟨by decide,
   read_data_rejects (sample_fs 5000 1 1) 0 4000 zero_buf 200
     (Or.inr ⟨by decide, Or.inr ⟨100, by decide, by decide⟩⟩)⟩

/-- C3 (failing input): a one-inode image with one data block whose file is
exactly 4096 bytes long; the one index slot the length references, slot 0,
names block 0, and the unreferenced slot 1 holds 1.  The image meets the
invariants and the read of the whole file is within the length, yet
`read_data` returns -1: the validation loop runs to `length / 4096` inclusive
and so inspects slot 1. -/
theorem read_data_whole_block_fails :
    (0 < (sample_fs 4096 1 1).boot_block.num_inodes ∧
     0 + 4096 ≤ ((sample_fs 4096 1 1).inodes 0).length ∧
     ∀ i, i < (((sample_fs 4096 1 1).inodes 0).length + 4095) / 4096 →
       ((sample_fs 4096 1 1).inodes 0).data_index i
         < (sample_fs 4096 1 1).boot_block.num_data_blocks) ∧
    (read_data (sample_fs 4096 1 1) 0 0 zero_buf 4096).1 = -1 := by
  refine ⟨⟨by decide, by decide, ?_⟩, by decide⟩
  intro i hi
  have hi0 : i = 0 := by
    have : (((sample_fs 4096 1 1).inodes 0).length + 4095) / 4096 = 1 := by decide
    omega
  subst hi0
  decide

/-- C4: for every inode `i < N` with length `L` on which reads succeed and
every `k <= L`, the `L` bytes produced by `read_data(i, 0, buf, L)` are the `k`
bytes produced by `read_data(i, 0, buf1, k)` followed by the `L - k` bytes
produced by `read_data(i, k, buf2, L - k)`. -/
theorem read_data_split (fs : fs_t) (i k : Nat) (buf buf1 buf2 : buffer)
    (hi : i < fs.boot_block.num_inodes)
    (hok : (read_data fs i 0 buf (fs.inodes i).length).1 ≠ -1)
    (hk : k ≤ (fs.inodes i).length) :
    ∀ j, j < (fs.inodes i).length →
      (read_data fs i 0 buf (fs.inodes i).length).2 j =
        if j < k then (read_data fs i 0 buf1 k).2 j
        else (read_data fs i k buf2 ((fs.inodes i).length - k)).2 (j - k) := by
  intro j hj
  obtain ⟨_, hlen, hchk⟩ := read_valid_of_ne fs i 0 buf _ hok
  have hv1 : read_valid fs i 0 k :=
    ⟨hi, le_trans (Nat.mod_le _ _) (by omega), hchk⟩
  have hv2 : read_valid fs i k ((fs.inodes i).length - k) :=
    ⟨hi, le_trans (Nat.mod_le _ _) (by omega), hchk⟩
  rw [(read_data_of_valid fs i 0 buf _ ⟨hi, hlen, hchk⟩).2 j, if_pos hj]
  by_cases hjk : j < k
  · rw [if_pos hjk, (read_data_of_valid fs i 0 buf1 k hv1).2 j, if_pos hjk]
  · rw [if_neg hjk, (read_data_of_valid fs i k buf2 _ hv2).2 (j - k), if_pos (by omega)]
    congr 1
    omega

/-- C4 (witness): a 5000-byte file spanning two blocks, split at byte 4090. -/
theorem read_data_split_witness :
    (0 < (sample_fs 5000 0 1).boot_block.num_inodes ∧
     4090 ≤ ((sample_fs 5000 0 1).inodes 0).length) ∧
    ∀ j, j < ((sample_fs 5000 0 1).inodes 0).length →
      (read_data (sample_fs 5000 0 1) 0 0 zero_buf ((sample_fs 5000 0 1).inodes 0).length).2 j =
        if j < 4090 then (read_data (sample_fs 5000 0 1) 0 0 zero_buf 4090).2 j
        else (read_data (sample_fs 5000 0 1) 0 4090 zero_buf
          (((sample_fs 5000 0 1).inodes 0).length - 4090)).2 (j - 4090) :=
  ⟨by decide,
   read_data_split (sample_fs 5000 0 1) 0 4090 zero_buf zero_buf zero_buf (by decide)
     (by
        have hv : read_valid (sample_fs 5000 0 1) 0 0 5000 := by decide
        have h := (read_data_of_valid (sample_fs 5000 0 1) 0 0 zero_buf 5000 hv).1
        show (read_data (sample_fs 5000 0 1) 0 0 zero_buf 5000).1 ≠ -1
        rw [h]
        decide)
     (by decide)⟩

/-! ## Strings and directory lookups -/

theorem cstr_nil (i : Nat) : cstr [] i = 0 := by
  simp [cstr]

theorem cstr_cons_zero (c : Nat) (cs : List Nat) : cstr (c :: cs) 0 = c := by
  simp [cstr]

theorem cstr_cons_succ (c : Nat) (cs : List Nat) (i : Nat) :
    cstr (c :: cs) (i + 1) = cstr cs i := by
  simp [cstr]

/-- The byte at index `strlen s` is the terminating NUL. -/
theorem cstr_strlen (s : List Nat) : cstr s (strlen s) = 0 := by
  induction s with
  | nil => simp [cstr_nil]
  | cons c cs ih =>
    by_cases hc : c = 0
    · simp [strlen, hc, cstr_cons_zero]
    · simp only [strlen, if_neg hc, cstr_cons_succ]
      exact ih

/-- No byte before index `strlen s` is NUL. -/
theorem cstr_ne_zero (s : List Nat) : ∀ i, i < strlen s → cstr s i ≠ 0 := by
  induction s with
  | nil => intro i hi; simp [strlen] at hi
  | cons c cs ih =>
    intro i hi
    by_cases hc : c = 0
    · simp [strlen, hc] at hi
    · simp only [strlen, if_neg hc] at hi
      cases i with
      | zero => simpa [cstr_cons_zero] using hc
      | succ m =>
        rw [cstr_cons_succ]
        exact ih m (by omega)

/-- The indices reached without passing a NUL are those `<= strlen s`. -/
theorem no_nul_before_iff (s : List Nat) (j : Nat) :
    (∀ m, m < j → cstr s m ≠ 0) ↔ j ≤ strlen s := by
  constructor
  · intro h
    by_contra hlt
    exact h (strlen s) (by omega) (cstr_strlen s)
  · intro h m hm
    exact cstr_ne_zero s m (by omega)

/-- The comparison is 0 exactly when the two strings agree at every index
reached before the count runs out or a NUL of `s1` has been passed. -/
theorem strncmp_from_eq_zero_iff (s1 s2 : Nat → Nat) :
    ∀ n i, strncmp_from s1 s2 n i = 0 ↔
      ∀ j, i ≤ j → j < i + n → (∀ m, i ≤ m → m < j → s1 m ≠ 0) → s1 j = s2 j := by
  intro n
  induction n with
  | zero =>
    intro i
    simp only [strncmp_from, true_iff]
    intro j h1 h2
    omega
  | succ n ih =>
    intro i
    rw [strncmp_from]
    by_cases hne : s1 i ≠ s2 i
    · rw [if_pos (Or.inl hne)]
      constructor
      · intro h
        exact absurd (by exact_mod_cast (sub_eq_zero.mp h)) hne
      · intro h
        exact absurd (h i (le_refl _) (by omega) (fun m h1 h2 => by omega)) hne
    · have heq : s1 i = s2 i := not_not.mp hne
      by_cases hz : s1 i = 0
      · rw [if_pos (Or.inr hz)]
        constructor
        · intro _ j h1 h2 h3
          by_cases hj : j = i
          · subst hj; exact heq
          · exact absurd hz (h3 i (le_refl _) (by omega))
        · intro _
          rw [heq]
          simp
      · rw [if_neg (by tauto), ih (i + 1)]
        constructor
        · intro h j h1 h2 h3
          by_cases hj : j = i
          · subst hj; exact heq
          · exact h j (by omega) (by omega) (fun m hm1 hm2 => h3 m (by omega) hm2)
        · intro h j h1 h2 h3
          refine h j (by omega) (by omega) ?_
          intro m hm1 hm2
          by_cases hmi : m = i
          · subst hmi; exact hz
          · exact h3 m (by omega) hm2

/-- The comparison made by `read_dentry_by_name` succeeds exactly on the slots
whose stored name matches. -/
theorem strncmp_eq_zero_iff (fname : List Nat) (stored : Nat → Nat) :
    strncmp (cstr fname) stored 32 = 0 ↔ name_matches fname stored := by
  unfold strncmp name_matches
  rw [strncmp_from_eq_zero_iff]
  constructor
  · intro h i h1 h2
    refine (h i (Nat.zero_le _) (by omega) ?_).symm
    intro m _ hm
    exact cstr_ne_zero fname m (by omega)
  · intro h j _ h2 h3
    refine (h j (by omega) ?_).symm
    exact (no_nul_before_iff fname j).mp (fun m hm => h3 m (Nat.zero_le _) hm)

/-- A scan that meets no matching slot returns -1 and keeps the dentry. -/
theorem read_dentry_by_name_from_none (fs : fs_t) (fname : List Nat) (dentry : dentry_t) :
    ∀ n i, (∀ j, i ≤ j → j < i + n → ¬ name_matches fname (fs.dentries j).file_name) →
      read_dentry_by_name_from fs fname dentry n i = (-1, dentry) := by
  intro n
  induction n with
  | zero => intro i _; rfl
  | succ n ih =>
    intro i h
    rw [read_dentry_by_name_from]
    have hi : ¬ strncmp (cstr fname) (fs.dentries i).file_name 32 = 0 := by
      rw [strncmp_eq_zero_iff]
      exact h i (le_refl _) (by omega)
    rw [if_neg hi]
    exact ih (i + 1) (fun j h1 h2 => h j (by omega) (by omega))

/-- A scan returns 0 with the fields of the first matching slot it meets. -/
theorem read_dentry_by_name_from_first (fs : fs_t) (fname : List Nat) (dentry : dentry_t) :
    ∀ n i m, i ≤ m → m < i + n → name_matches fname (fs.dentries m).file_name →
      (∀ j, i ≤ j → j < m → ¬ name_matches fname (fs.dentries j).file_name) →
      read_dentry_by_name_from fs fname dentry n i =
        (0, { dentry with
                file_name := strncpy dentry.file_name (fs.dentries m).file_name 32
                file_type := (fs.dentries m).file_type
                inode_index := (fs.dentries m).inode_index }) := by
  intro n
  induction n with
  | zero => intro i m h1 h2; omega
  | succ n ih =>
    intro i m h1 h2 hm hfirst
    rw [read_dentry_by_name_from]
    by_cases him : i = m
    · subst him
      rw [if_pos ((strncmp_eq_zero_iff fname _).mpr hm)]
    · have hi : ¬ strncmp (cstr fname) (fs.dentries i).file_name 32 = 0 := by
        rw [strncmp_eq_zero_iff]
        exact hfirst i (le_refl _) (by omega)
      rw [if_neg hi]
      exact ih (i + 1) m (by omega) (by omega) hm (fun j hj1 hj2 => hfirst j (by omega) hj2)

/-- The lookup fails, without touching the dentry, on the empty name and on a
name no slot matches. -/
theorem read_dentry_by_name_fail (fs : fs_t) (fname : List Nat) (dentry : dentry_t)
    (h : strlen fname = 0 ∨
      ∀ i, i < 63 → ¬ name_matches fname (fs.dentries i).file_name) :
    read_dentry_by_name fs fname dentry = (-1, dentry) := by
  unfold read_dentry_by_name
  by_cases h0 : strlen fname = 0
  · rw [if_pos h0]
  · rw [if_neg h0]
    rcases h with h | h
    · exact absurd h h0
    · exact read_dentry_by_name_from_none fs fname dentry MAX_NUM_DENTRIES 0
        (fun j _ hj => h j (by unfold MAX_NUM_DENTRIES at hj; omega))

/-- The lookup of a non-empty name returns the first matching slot. -/
theorem read_dentry_by_name_found (fs : fs_t) (fname : List Nat) (dentry : dentry_t)
    (h0 : strlen fname ≠ 0) (m : Nat) (hm : m < 63)
    (hmatch : name_matches fname (fs.dentries m).file_name)
    (hfirst : ∀ j, j < m → ¬ name_matches fname (fs.dentries j).file_name) :
    read_dentry_by_name fs fname dentry =
      (0, { dentry with
              file_name := strncpy dentry.file_name (fs.dentries m).file_name 32
              file_type := (fs.dentries m).file_type
              inode_index := (fs.dentries m).inode_index }) := by
  unfold read_dentry_by_name
  rw [if_neg h0]
  exact read_dentry_by_name_from_first fs fname dentry MAX_NUM_DENTRIES 0 m (Nat.zero_le _)
    (by unfold MAX_NUM_DENTRIES; omega) hmatch (fun j _ hj => hfirst j hj)

theorem strncpy_lt (dest src : Nat → Nat) (n k : Nat) (hk : k < n) :
    strncpy dest src n k = padded_name src k := by
  unfold strncpy padded_name
  rw [if_pos hk]

theorem nul_upto_iff (src : Nat → Nat) (k : Nat) :
    nul_upto src k = true ↔ ∃ j, j ≤ k ∧ src j = 0 := by
  unfold nul_upto
  simp only [List.any_eq_true, List.mem_range, decide_eq_true_eq]
  constructor
  · rintro ⟨j, hj, h⟩
    exact ⟨j, by omega, h⟩
  · rintro ⟨j, hj, h⟩
    exact ⟨j, by omega, h⟩

/-- C5: `read_dentry_by_name` returns -1, leaving the output dentry unchanged,
for the empty name and for every name that matches none of the 63 directory
slots; otherwise it returns 0 and fills the output dentry with the name (as
`strncpy` delivers its 32 bytes), the file type and the inode index of the
lowest-index slot whose stored name matches.  Matching compares at most 32
bytes: a name of 32 bytes or more matches exactly the slots whose full 32-byte
name equals the first 32 bytes of the name. -/
theorem read_dentry_by_name_spec (fs : fs_t) (fname : List Nat) (dentry : dentry_t) :
    ((strlen fname = 0 ∨
        ∀ i, i < 63 → ¬ name_matches fname (fs.dentries i).file_name) →
      read_dentry_by_name fs fname dentry = (-1, dentry)) ∧
    (strlen fname ≠ 0 →
      ∀ i, i < 63 → name_matches fname (fs.dentries i).file_name →
        (∀ j, j < i → ¬ name_matches fname (fs.dentries j).file_name) →
        (read_dentry_by_name fs fname dentry).1 = 0 ∧
        (∀ k, k < 32 → (read_dentry_by_name fs fname dentry).2.file_name k =
          padded_name (fs.dentries i).file_name k) ∧
        (read_dentry_by_name fs fname dentry).2.file_type = (fs.dentries i).file_type ∧
        (read_dentry_by_name fs fname dentry).2.inode_index = (fs.dentries i).inode_index ∧
        (read_dentry_by_name fs fname dentry).2.reserved = dentry.reserved) ∧
    (32 ≤ strlen fname →
      ∀ stored : Nat → Nat,
        (name_matches fname stored ↔ ∀ k, k < 32 → stored k = cstr fname k)) := by
  refine ⟨read_dentry_by_name_fail fs fname dentry, ?_, ?_⟩
  · intro h0 i hi hmatch hfirst
    rw [read_dentry_by_name_found fs fname dentry h0 i hi hmatch hfirst]
    refine ⟨rfl, ?_, rfl, rfl, rfl⟩
    intro k hk
    exact strncpy_lt _ _ 32 k hk
  · intro hlen stored
    unfold name_matches
    constructor
    · intro h k hk
      exact h k hk (by omega)
    · intro h k hk _
      exact h k hk

/-- C5 (witness): the 33-byte name "verylargetextwithverylongname.txt" is
resolved to slot 2, whose 32-byte name is its first 32 bytes. -/
theorem read_dentry_by_name_spec_witness :
    (strlen (bytes "verylargetextwithverylongname.txt") ≠ 0 ∧
      name_matches (bytes "verylargetextwithverylongname.txt")
        (sample_dir.dentries 2).file_name ∧
      ∀ j, j < 2 → ¬ name_matches (bytes "verylargetextwithverylongname.txt")
        (sample_dir.dentries j).file_name) ∧
    (read_dentry_by_name sample_dir (bytes "verylargetextwithverylongname.txt")
      local_dentry).1 = 0 ∧
    (read_dentry_by_name sample_dir (bytes "verylargetextwithverylongname.txt")
      local_dentry).2.inode_index = 7 :=
  have h := (read_dentry_by_name_spec sample_dir (bytes "verylargetextwithverylongname.txt")
    local_dentry).2.1 (by decide) 2 (by decide) (by decide) (by decide)
  ⟨by decide, h.1, h.2.2.2.1⟩

/-- C6: `read_dentry_by_index` returns -1, leaving the output dentry
unchanged, exactly when `index >= 63`; for every `index < 63` (whatever the
image's directory-entry count) it returns 0 and sets the output's `file_type`
and `inode_index` to those of slot `index` and its `file_name` to the slot's
stored name: the bytes up to the first NUL, zero-padded to 32 bytes. -/
theorem read_dentry_by_index_spec (fs : fs_t) (index : Nat) (dentry : dentry_t) :
    ((read_dentry_by_index fs index dentry).1 = -1 ↔ index ≥ 63) ∧
    (index ≥ 63 → read_dentry_by_index fs index dentry = (-1, dentry)) ∧
    (index < 63 →
      (read_dentry_by_index fs index dentry).1 = 0 ∧
      (read_dentry_by_index fs index dentry).2.file_type = (fs.dentries index).file_type ∧
      (read_dentry_by_index fs index dentry).2.inode_index = (fs.dentries index).inode_index ∧
      (∀ k, k < 32 → (read_dentry_by_index fs index dentry).2.file_name k =
        if ∃ j, j ≤ k ∧ (fs.dentries index).file_name j = 0 then 0
        else (fs.dentries index).file_name k) ∧
      (read_dentry_by_index fs index dentry).2.reserved = dentry.reserved) := by
  unfold read_dentry_by_index MAX_NUM_DENTRIES
  by_cases h : index ≥ 63
  · rw [if_pos h]
    exact ⟨⟨fun _ => h, fun _ => rfl⟩, fun _ => rfl, fun h2 => absurd h (by omega)⟩
  · rw [if_neg h]
    refine ⟨⟨fun h2 => absurd (show (0 : Int) = -1 from h2) (by decide), fun h2 => absurd h2 h⟩,
      fun h2 => absurd h2 h, fun _ => ⟨rfl, rfl, rfl, ?_, rfl⟩⟩
    intro k hk
    show strncpy dentry.file_name (fs.dentries index).file_name 32 k = _
    rw [strncpy_lt _ _ 32 k hk]
    unfold padded_name
    by_cases hn : nul_upto (fs.dentries index).file_name k = true
    · rw [if_pos hn, if_pos ((nul_upto_iff _ _).mp hn)]
    · rw [if_neg hn, if_neg (fun hex => hn ((nul_upto_iff _ _).mpr hex))]

/-- C6 (witness): slot 17 of the three-entry sample directory is empty; the
lookup returns 0 and a name whose first byte is NUL. -/
theorem read_dentry_by_index_spec_witness :
    17 < 63 ∧
    (read_dentry_by_index sample_dir 17 local_dentry).1 = 0 ∧
    (read_dentry_by_index sample_dir 17 local_dentry).2.file_type
      = (sample_dir.dentries 17).file_type :=
  have h := (read_dentry_by_index_spec sample_dir 17 local_dentry).2.2 (by decide)
  ⟨by decide, h.1, h.2.1⟩

/-! ## open and close -/

theorem set_at_same {α : Type} (arr : Nat → α) (i : Nat) (e : α) : set_at arr i e i = e := by
  simp [set_at]

theorem set_at_other {α : Type} (arr : Nat → α) (i j : Nat) (e : α) (h : j ≠ i) :
    set_at arr i e j = arr j := by
  simp [set_at, h]

theorem set_active_one (e : fd_entry_t) : (e.set_active 1).active = true := by
  unfold fd_entry_t.set_active fd_entry_t.active
  simp only [decide_eq_true_eq]
  omega

theorem set_active_zero (e : fd_entry_t) : (e.set_active 0).active = false := by
  unfold fd_entry_t.set_active fd_entry_t.active
  simp only [decide_eq_false_iff_not]
  omega

/-- The scan for a free descriptor stops at the lowest inactive index. -/
theorem find_fd_some (arr : Nat → fd_entry_t) :
    ∀ fuel i k, find_fd arr fuel i = some k →
      i ≤ k ∧ (i < 8 → k < 8) ∧ (arr k).active = false ∧
      ∀ j, i ≤ j → j < k → (arr j).active = true := by
  intro fuel
  induction fuel with
  | zero => intro i k h; simp [find_fd] at h
  | succ n ih =>
    intro i k h
    rw [find_fd] at h
    by_cases ha : (arr i).active = true
    · rw [if_pos ha] at h
      by_cases h8 : i + 1 ≥ FD_ARRAY_LEN
      · rw [if_pos h8] at h
        exact absurd h (by simp)
      · rw [if_neg h8] at h
        obtain ⟨h1, h2, h3, h4⟩ := ih (i + 1) k h
        unfold FD_ARRAY_LEN at h8
        refine ⟨by omega, fun _ => h2 (by omega), h3, ?_⟩
        intro j hj1 hj2
        by_cases hji : j = i
        · subst hji; exact ha
        · exact h4 j (by omega) hj2
    · rw [if_neg ha] at h
      have hk : i = k := by simpa using h
      subst hk
      exact ⟨le_refl _, fun h => h, by simpa using ha, fun j h1 h2 => by omega⟩

/-- The scan gives up only when every index from `i` to 7 is active. -/
theorem find_fd_none (arr : Nat → fd_entry_t) :
    ∀ fuel i, i + fuel ≥ 8 → find_fd arr fuel i = none →
      ∀ j, i ≤ j → j < 8 → (arr j).active = true := by
  intro fuel
  induction fuel with
  | zero => intro i h _ j h1 h2; omega
  | succ n ih =>
    intro i hfuel h j h1 h2
    rw [find_fd] at h
    by_cases ha : (arr i).active = true
    · rw [if_pos ha] at h
      by_cases h8 : i + 1 ≥ FD_ARRAY_LEN
      · unfold FD_ARRAY_LEN at h8
        have : j = i := by omega
        subst this
        exact ha
      · rw [if_neg h8] at h
        by_cases hji : j = i
        · subst hji; exact ha
        · exact ih (i + 1) (by omega) h j (by omega) h2
    · rw [if_neg ha] at h
      exact absurd h (by simp)

/-- The scan gives up when every index from 2 to 7 is active. -/
theorem find_fd_full (arr : Nat → fd_entry_t)
    (h : ∀ j, 2 ≤ j → j < 8 → (arr j).active = true) :
    find_fd arr FD_ARRAY_LEN 2 = none := by
  cases hf : find_fd arr FD_ARRAY_LEN 2 with
  | none => rfl
  | some k =>
    obtain ⟨h1, h2, h3, _⟩ := find_fd_some arr FD_ARRAY_LEN 2 k hf
    rw [h k h1 (h2 (by decide))] at h3
    exact absurd h3 (by decide)

/-- The four failure paths of `open` that come before any write. -/
theorem sys_open_early (fs : fs_t) (pcb : pcb_t) (filename : Option (List Nat))
    (h : filename = none ∨
      (∃ name, filename = some name ∧
        (strlen name = 0 ∨
          ∀ i, i < 63 → ¬ name_matches name (fs.dentries i).file_name)) ∨
      (∀ j, 2 ≤ j → j < 8 → (pcb.fd_array j).active = true)) :
    sys_open fs pcb filename = (-1, pcb) := by
  cases filename with
  | none => rfl
  | some name =>
    unfold sys_open
    simp only
    by_cases hr : (read_dentry_by_name fs name local_dentry).1 ≠ 0
    · rw [if_pos hr]
    · rw [if_neg hr]
      rcases h with h | ⟨n, hn, h⟩ | h
      · exact absurd h (by simp)
      · have hn2 : n = name := by simpa using hn.symm
        subst hn2
        rw [read_dentry_by_name_fail fs n local_dentry h] at hr
        exact absurd (by decide) hr
      · rw [find_fd_full pcb.fd_array h]

/-- What `open` does once the name is resolved and the scan stops at `k`. -/
theorem sys_open_at (fs : fs_t) (pcb : pcb_t) (name : List Nat) (k : Nat)
    (hres : (read_dentry_by_name fs name local_dentry).1 = 0)
    (htype : (read_dentry_by_name fs name local_dentry).2.file_type ≤ 2)
    (hk : find_fd pcb.fd_array FD_ARRAY_LEN 2 = some k) :
    (sys_open fs pcb (some name)).1 = (k : Int) ∧
    (sys_open fs pcb (some name)).2.fd_array =
      set_at pcb.fd_array k
        (({ fo_jump_table_ptr :=
              some (if (read_dentry_by_name fs name local_dentry).2.file_type = 0 then
                      fo_jump_table_t.rtc_jump_table
                    else if (read_dentry_by_name fs name local_dentry).2.file_type = 1 then
                      fo_jump_table_t.dir_fo_jump_table
                    else fo_jump_table_t.file_fo_jump_table),
            inode_index :=
              if (read_dentry_by_name fs name local_dentry).2.file_type = 2 then
                (read_dentry_by_name fs name local_dentry).2.inode_index
              else 0,
            file_position := 0,
            flags := (pcb.fd_array k).flags } : fd_entry_t).set_active 1) := by
  unfold sys_open
  simp only [hk]
  rw [if_neg (by simp [hres])]
  by_cases h0 : (read_dentry_by_name fs name local_dentry).2.file_type = 0
  · simp [h0]
  · by_cases h1 : (read_dentry_by_name fs name local_dentry).2.file_type = 1
    · simp [h1]
    · have h2 : (read_dentry_by_name fs name local_dentry).2.file_type = 2 := by omega
      simp [h2]

/-- Whenever `open` does not return -1 it returns an index in 2..7 whose slot
is active afterwards. -/
theorem sys_open_result (fs : fs_t) (pcb : pcb_t) (filename : Option (List Nat))
    (h : (sys_open fs pcb filename).1 ≠ -1) :
    ∃ k : Nat, 2 ≤ k ∧ k < 8 ∧ (sys_open fs pcb filename).1 = (k : Int) ∧
      ((sys_open fs pcb filename).2.fd_array k).active = true := by
  cases filename with
  | none => exact absurd rfl h
  | some name =>
    unfold sys_open at h ⊢
    simp only at h ⊢
    by_cases hr : (read_dentry_by_name fs name local_dentry).1 ≠ 0
    · rw [if_pos hr] at h
      exact absurd rfl h
    · rw [if_neg hr] at h ⊢
      cases hf : find_fd pcb.fd_array FD_ARRAY_LEN 2 with
      | none =>
        rw [hf] at h
        exact absurd rfl h
      | some k =>
        rw [hf] at h
        obtain ⟨h1, h2, _, _⟩ := find_fd_some pcb.fd_array FD_ARRAY_LEN 2 k hf
        refine ⟨k, h1, h2 (by decide), ?_⟩
        simp only
        split_ifs at h ⊢ with h0 h1 h2
        · exact ⟨rfl, by simp only [set_at_same]; exact set_active_one _⟩
        · exact ⟨rfl, by simp only [set_at_same]; exact set_active_one _⟩
        · exact ⟨rfl, by simp only [set_at_same]; exact set_active_one _⟩
        · exact absurd rfl h

/-- C7: for every FD table with at least one inactive slot among 2..7 and
every name that resolves to a dentry of type 0, 1 or 2, `open` returns the
smallest inactive index `k` in 2..7, marks slot `k` active with file position
0, installs the RTC operations for type 0, the directory operations for type 1
and the regular-file operations for type 2, sets the slot's inode index to the
dentry's inode for type 2 and to 0 otherwise, and leaves every other slot
unchanged. -/
theorem sys_open_installs (fs : fs_t) (pcb : pcb_t) (name : List Nat)
    (hfree : ∃ j, 2 ≤ j ∧ j < 8 ∧ (pcb.fd_array j).active = false)
    (hres : (read_dentry_by_name fs name local_dentry).1 = 0)
    (htype : (read_dentry_by_name fs name local_dentry).2.file_type ≤ 2) :
    ∃ k, 2 ≤ k ∧ k < 8 ∧ (pcb.fd_array k).active = false ∧
      (∀ j, 2 ≤ j → j < k → (pcb.fd_array j).active = true) ∧
      (sys_open fs pcb (some name)).1 = (k : Int) ∧
      ((sys_open fs pcb (some name)).2.fd_array k).active = true ∧
      ((sys_open fs pcb (some name)).2.fd_array k).file_position = 0 ∧
      ((sys_open fs pcb (some name)).2.fd_array k).fo_jump_table_ptr =
        some (if (read_dentry_by_name fs name local_dentry).2.file_type = 0 then
                fo_jump_table_t.rtc_jump_table
              else if (read_dentry_by_name fs name local_dentry).2.file_type = 1 then
                fo_jump_table_t.dir_fo_jump_table
              else fo_jump_table_t.file_fo_jump_table) ∧
      ((sys_open fs pcb (some name)).2.fd_array k).inode_index =
        (if (read_dentry_by_name fs name local_dentry).2.file_type = 2 then
           (read_dentry_by_name fs name local_dentry).2.inode_index
         else 0) ∧
      ∀ j, j ≠ k → (sys_open fs pcb (some name)).2.fd_array j = pcb.fd_array j := by
  cases hf : find_fd pcb.fd_array FD_ARRAY_LEN 2 with
  | none =>
    obtain ⟨j, hj1, hj2, hj3⟩ := hfree
    have := find_fd_none pcb.fd_array FD_ARRAY_LEN 2 (by decide) hf j hj1 hj2
    rw [this] at hj3
    exact absurd hj3 (by decide)
  | some k =>
    obtain ⟨h1, h2, h3, h4⟩ := find_fd_some pcb.fd_array FD_ARRAY_LEN 2 k hf
    obtain ⟨hret, harr⟩ := sys_open_at fs pcb name k hres htype hf
    refine ⟨k, h1, h2 (by decide), h3, h4, hret, ?_, ?_, ?_, ?_, ?_⟩
    · rw [harr, set_at_same]
      exact set_active_one _
    · rw [harr, set_at_same]
      rfl
    · rw [harr, set_at_same]
      rfl
    · rw [harr, set_at_same]
      rfl
    · intro j hj
      rw [harr, set_at_other _ _ _ _ hj]

/-- C7 (witness): with slots 0 and 1 in use, opening "rtc" (type 0) returns 2
and installs the RTC operations there. -/
theorem sys_open_installs_witness :
    ((∃ j, 2 ≤ j ∧ j < 8 ∧ (sample_pcb.fd_array j).active = false) ∧
      (read_dentry_by_name sample_dir (bytes "rtc") local_dentry).1 = 0 ∧
      (read_dentry_by_name sample_dir (bytes "rtc") local_dentry).2.file_type ≤ 2) ∧
    ∃ k, 2 ≤ k ∧ k < 8 ∧ (sample_pcb.fd_array k).active = false ∧
      (∀ j, 2 ≤ j → j < k → (sample_pcb.fd_array j).active = true) ∧
      (sys_open sample_dir sample_pcb (some (bytes "rtc"))).1 = (k : Int) ∧
      ((sys_open sample_dir sample_pcb (some (bytes "rtc"))).2.fd_array k).active = true ∧
      ((sys_open sample_dir sample_pcb (some (bytes "rtc"))).2.fd_array k).file_position = 0 ∧
      ((sys_open sample_dir sample_pcb (some (bytes "rtc"))).2.fd_array k).fo_jump_table_ptr =
        some (if (read_dentry_by_name sample_dir (bytes "rtc") local_dentry).2.file_type = 0 then
                fo_jump_table_t.rtc_jump_table
              else if (read_dentry_by_name sample_dir (bytes "rtc") local_dentry).2.file_type = 1
                then fo_jump_table_t.dir_fo_jump_table
              else fo_jump_table_t.file_fo_jump_table) ∧
      ((sys_open sample_dir sample_pcb (some (bytes "rtc"))).2.fd_array k).inode_index =
        (if (read_dentry_by_name sample_dir (bytes "rtc") local_dentry).2.file_type = 2 then
           (read_dentry_by_name sample_dir (bytes "rtc") local_dentry).2.inode_index
         else 0) ∧
      ∀ j, j ≠ k →
        (sys_open sample_dir sample_pcb (some (bytes "rtc"))).2.fd_array j
          = sample_pcb.fd_array j :=
  ⟨⟨⟨2, by decide, by decide, by decide⟩, by decide, by decide⟩,
   sys_open_installs sample_dir sample_pcb (bytes "rtc")
     ⟨2, by decide, by decide, by decide⟩ (by decide) (by decide)⟩

/-- C8: `open` returns -1 and leaves the active bit of every FD slot unchanged
(indeed the whole PCB) when the filename is NULL, is the empty string, resolves
to no directory entry, or when slots 2..7 are all active. -/
theorem sys_open_fails (fs : fs_t) (pcb : pcb_t) (filename : Option (List Nat))
    (h : filename = none ∨
      (∃ name, filename = some name ∧
        (strlen name = 0 ∨
          ∀ i, i < 63 → ¬ name_matches name (fs.dentries i).file_name)) ∨
      (∀ j, 2 ≤ j → j < 8 → (pcb.fd_array j).active = true)) :
    (sys_open fs pcb filename).1 = -1 ∧
    (∀ j, ((sys_open fs pcb filename).2.fd_array j).active = (pcb.fd_array j).active) ∧
    (sys_open fs pcb filename).2 = pcb := by
  rw [sys_open_early fs pcb filename h]
  exact ⟨rfl, fun _ => rfl, rfl⟩

/-- C8 (witness): no slot of the sample directory is named
"bad_filename.error". -/
theorem sys_open_fails_witness :
    (∀ i, i < 63 →
      ¬ name_matches (bytes "bad_filename.error") (sample_dir.dentries i).file_name) ∧
    (sys_open sample_dir sample_pcb (some (bytes "bad_filename.error"))).1 = -1 ∧
    (∀ j, ((sys_open sample_dir sample_pcb (some (bytes "bad_filename.error"))).2.fd_array
      j).active = (sample_pcb.fd_array j).active) ∧
    (sys_open sample_dir sample_pcb (some (bytes "bad_filename.error"))).2 = sample_pcb :=
  ⟨by decide,
   sys_open_fails sample_dir sample_pcb (some (bytes "bad_filename.error"))
     (Or.inr (Or.inl ⟨bytes "bad_filename.error", rfl, Or.inr (by decide)⟩))⟩

/-- What `close` does on a descriptor in 2..7 whose slot is active. -/
theorem close_active (pcb : pcb_t) (k : Nat) (h2 : 2 ≤ k) (h8 : k < 8)
    (ha : (pcb.fd_array k).active = true) :
    close pcb (k : Int) =
      (0, { pcb with fd_array := set_at pcb.fd_array k ((pcb.fd_array k).set_active 0) }) := by
  unfold close FD_ARRAY_LEN
  have hc : ¬ ((k : Int) < 2 ∨ (k : Int) ≥ ((8 : Nat) : Int)) := by omega
  rw [if_neg hc, Int.toNat_ofNat, if_neg (by simp [ha])]

/-- What `close` does on a descriptor in 2..7 whose slot is inactive. -/
theorem close_inactive (pcb : pcb_t) (k : Nat) (ha : (pcb.fd_array k).active = false) :
    close pcb (k : Int) = (-1, pcb) := by
  unfold close
  by_cases hc : (k : Int) < 2 ∨ (k : Int) ≥ (FD_ARRAY_LEN : Int)
  · rw [if_pos hc]
  · rw [if_neg hc, Int.toNat_ofNat, if_pos ha]

/-- C9: for every FD table and name, if `open` returns `k >= 2` then an
immediately following `close(k)` returns 0, and a second `close(k)` returns
-1. -/
theorem open_close_close (fs : fs_t) (pcb : pcb_t) (filename : Option (List Nat))
    (h : (sys_open fs pcb filename).1 ≥ 2) :
    (close (sys_open fs pcb filename).2 (sys_open fs pcb filename).1).1 = 0 ∧
    (close (close (sys_open fs pcb filename).2 (sys_open fs pcb filename).1).2
      (sys_open fs pcb filename).1).1 = -1 := by
  obtain ⟨k, h2, h8, hret, hact⟩ := sys_open_result fs pcb filename (by omega)
  rw [hret, close_active _ k h2 h8 hact]
  refine ⟨rfl, ?_⟩
  rw [close_inactive]
  show fd_entry_t.active (set_at _ k _ k) = false
  rw [set_at_same]
  exact set_active_zero _

/-- C9 (witness): opening "rtc" on the sample PCB returns 2; closing 2 then
returns 0 and closing it again returns -1. -/
theorem open_close_close_witness :
    (sys_open sample_dir sample_pcb (some (bytes "rtc"))).1 ≥ 2 ∧
    (close (sys_open sample_dir sample_pcb (some (bytes "rtc"))).2
      (sys_open sample_dir sample_pcb (some (bytes "rtc"))).1).1 = 0 ∧
    (close (close (sys_open sample_dir sample_pcb (some (bytes "rtc"))).2
        (sys_open sample_dir sample_pcb (some (bytes "rtc"))).1).2
      (sys_open sample_dir sample_pcb (some (bytes "rtc"))).1).1 = -1 :=
  ⟨by decide, open_close_close sample_dir sample_pcb (some (bytes "rtc")) (by decide)⟩

/-- C10: `close(fd)` returns -1 and changes nothing exactly when `fd < 2`,
`fd >= 8` or slot `fd` is inactive; otherwise it returns 0, clears the active
bit of slot `fd` (the slot's other fields and reserved flag bits are kept) and
leaves every other slot, in particular stdin and stdout, unchanged. -/
theorem close_spec (pcb : pcb_t) (fd : Int) :
    ((close pcb fd).1 = -1 ↔
      (fd < 2 ∨ fd ≥ 8 ∨ (pcb.fd_array fd.toNat).active = false)) ∧
    ((fd < 2 ∨ fd ≥ 8 ∨ (pcb.fd_array fd.toNat).active = false) →
      close pcb fd = (-1, pcb)) ∧
    (¬ (fd < 2 ∨ fd ≥ 8 ∨ (pcb.fd_array fd.toNat).active = false) →
      (close pcb fd).1 = 0 ∧
      ((close pcb fd).2.fd_array fd.toNat).active = false ∧
      (close pcb fd).2.fd_array fd.toNat = (pcb.fd_array fd.toNat).set_active 0 ∧
      (∀ j, j ≠ fd.toNat → (close pcb fd).2.fd_array j = pcb.fd_array j) ∧
      (close pcb fd).2.fd_array 0 = pcb.fd_array 0 ∧
      (close pcb fd).2.fd_array 1 = pcb.fd_array 1) := by
  have hfail : (fd < 2 ∨ fd ≥ 8 ∨ (pcb.fd_array fd.toNat).active = false) →
      close pcb fd = (-1, pcb) := by
    intro h
    unfold close FD_ARRAY_LEN
    by_cases hc : fd < 2 ∨ fd ≥ ((8 : Nat) : Int)
    · rw [if_pos hc]
    · have ha : (pcb.fd_array fd.toNat).active = false := by
        rcases h with h | h | h
        · exact absurd (Or.inl h) hc
        · exact absurd (Or.inr (by exact_mod_cast h)) hc
        · exact h
      rw [if_neg hc, if_pos ha]
  have hok : ¬ (fd < 2 ∨ fd ≥ 8 ∨ (pcb.fd_array fd.toNat).active = false) →
      close pcb fd =
        (0, { pcb with fd_array := set_at pcb.fd_array fd.toNat
                                      ((pcb.fd_array fd.toNat).set_active 0) }) := by
    intro h
    unfold close FD_ARRAY_LEN
    have hc : ¬ (fd < 2 ∨ fd ≥ ((8 : Nat) : Int)) := by
      rintro (h1 | h1)
      · exact h (Or.inl h1)
      · exact h (Or.inr (Or.inl (by exact_mod_cast h1)))
    have ha : ¬ (pcb.fd_array fd.toNat).active = false := fun h1 => h (Or.inr (Or.inr h1))
    rw [if_neg hc, if_neg ha]
  refine ⟨⟨?_, fun h => by rw [hfail h]⟩, hfail, ?_⟩
  · intro h
    by_contra hn
    rw [hok hn] at h
    exact absurd (show (0 : Int) = -1 from h) (by decide)
  · intro hn
    have hfd : 2 ≤ fd.toNat := by
      have : ¬ fd < 2 := fun h => hn (Or.inl h)
      omega
    rw [hok hn]
    refine ⟨rfl, ?_, ?_, ?_, ?_, ?_⟩
    · show fd_entry_t.active (set_at _ _ _ _) = false
      rw [set_at_same]
      exact set_active_zero _
    · show set_at _ _ _ _ = _
      rw [set_at_same]
    · intro j hj
      show set_at _ _ _ _ = _
      rw [set_at_other _ _ _ _ hj]
    · show set_at _ _ _ _ = _
      rw [set_at_other _ _ _ _ (by omega)]
    · show set_at _ _ _ _ = _
      rw [set_at_other _ _ _ _ (by omega)]

/-- C10 (witness): closing descriptor 2 after it was opened. -/
theorem close_spec_witness :
    ¬ ((2 : Int) < 2 ∨ (2 : Int) ≥ 8 ∨
        ((sys_open sample_dir sample_pcb (some (bytes "rtc"))).2.fd_array
          (2 : Int).toNat).active = false) ∧
    (close (sys_open sample_dir sample_pcb (some (bytes "rtc"))).2 2).1 = 0 ∧
    ((close (sys_open sample_dir sample_pcb (some (bytes "rtc"))).2 2).2.fd_array
      (2 : Int).toNat).active = false :=
  have h := (close_spec (sys_open sample_dir sample_pcb (some (bytes "rtc"))).2 2).2.2
    (by decide)
  ⟨by decide, h.1, h.2.1⟩

/-! ## read and write -/

/-- The checks of `read` fail exactly on a bad descriptor, a `NULL` buffer, a
negative count or an inactive slot. -/
theorem read_dispatch_fail_iff (pcb : pcb_t) (fd : Int) (buf_null : Bool) (nbytes : Int) :
    read_dispatch pcb fd buf_null nbytes = dispatch.fail ↔
      (fd < 0 ∨ fd ≥ 8 ∨ buf_null = true ∨ nbytes < 0 ∨
        (pcb.fd_array fd.toNat).active = false) := by
  unfold read_dispatch FD_ARRAY_LEN
  by_cases h1 : fd < 0 ∨ fd ≥ ((8 : Nat) : Int) ∨ buf_null = true ∨ nbytes < 0
  · rw [if_pos h1]
    simp only [true_iff]
    rcases h1 with h | h | h | h
    · exact Or.inl h
    · exact Or.inr (Or.inl (by exact_mod_cast h))
    · exact Or.inr (Or.inr (Or.inl h))
    · exact Or.inr (Or.inr (Or.inr (Or.inl h)))
  · rw [if_neg h1]
    by_cases h2 : (pcb.fd_array fd.toNat).active = false
    · rw [if_pos h2]
      simp only [true_iff]
      exact Or.inr (Or.inr (Or.inr (Or.inr h2)))
    · rw [if_neg h2]
      constructor
      · intro h
        cases hp : (pcb.fd_array fd.toNat).fo_jump_table_ptr <;> rw [hp] at h <;>
          exact absurd h (by simp)
      · rintro (h | h | h | h | h)
        · exact absurd (Or.inl h) h1
        · exact absurd (Or.inr (Or.inl (by exact_mod_cast h))) h1
        · exact absurd (Or.inr (Or.inr (Or.inl h))) h1
        · exact absurd (Or.inr (Or.inr (Or.inr h))) h1
        · exact absurd h h2

/-- The checks of `write` are those of `read`. -/
theorem write_dispatch_eq (pcb : pcb_t) (fd : Int) (buf_null : Bool) (nbytes : Int) :
    write_dispatch pcb fd buf_null nbytes = read_dispatch pcb fd buf_null nbytes := rfl

/-- Past the checks, the call goes through the table of the slot. -/
theorem read_dispatch_invoke (pcb : pcb_t) (fd : Int) (buf_null : Bool) (nbytes : Int)
    (t : fo_jump_table_t)
    (h : ¬ (fd < 0 ∨ fd ≥ 8 ∨ buf_null = true ∨ nbytes < 0 ∨
        (pcb.fd_array fd.toNat).active = false))
    (ht : (pcb.fd_array fd.toNat).fo_jump_table_ptr = some t) :
    read_dispatch pcb fd buf_null nbytes = dispatch.invoke t := by
  unfold read_dispatch FD_ARRAY_LEN
  have h1 : ¬ (fd < 0 ∨ fd ≥ ((8 : Nat) : Int) ∨ buf_null = true ∨ nbytes < 0) := by
    rintro (h1 | h1 | h1 | h1)
    · exact h (Or.inl h1)
    · exact h (Or.inr (Or.inl (by exact_mod_cast h1)))
    · exact h (Or.inr (Or.inr (Or.inl h1)))
    · exact h (Or.inr (Or.inr (Or.inr (Or.inl h1))))
  have h2 : ¬ (pcb.fd_array fd.toNat).active = false :=
    fun h2 => h (Or.inr (Or.inr (Or.inr (Or.inr h2))))
  rw [if_neg h1, if_neg h2, ht]

/-- A `read` whose checks fail returns -1 and leaves everything as it was. -/
theorem read_of_fail {δ : Type} (dv : devices δ) (fs : fs_t) (stack : dentry_t) (pcb : pcb_t)
    (dev : δ) (fd : Int) (buf : Option buffer) (nbytes : Int)
    (h : read_dispatch pcb fd buf.isNone nbytes = dispatch.fail) :
    read dv fs stack pcb dev fd buf nbytes = some ⟨-1, buf, pcb, dev⟩ := by
  unfold read
  rw [h]

/-- A `write` whose checks fail returns -1 and leaves everything as it was. -/
theorem write_of_fail {δ : Type} (dv : devices δ) (pcb : pcb_t)
    (dev : δ) (fd : Int) (buf : Option buffer) (nbytes : Int)
    (h : write_dispatch pcb fd buf.isNone nbytes = dispatch.fail) :
    write dv pcb dev fd buf nbytes = some ⟨-1, buf, pcb, dev⟩ := by
  unfold write
  rw [h]

/-- A `read` that passes the checks is the call of the table's `read` member. -/
theorem read_of_invoke {δ : Type} (dv : devices δ) (fs : fs_t) (stack : dentry_t) (pcb : pcb_t)
    (dev : δ) (fd : Int) (b : buffer) (nbytes : Int) (t : fo_jump_table_t)
    (h : read_dispatch pcb fd (some b).isNone nbytes = dispatch.invoke t) :
    read dv fs stack pcb dev fd (some b) nbytes =
      call_read dv fs stack (jump_table t).read_member pcb dev fd b nbytes := by
  unfold read
  rw [h]

/-- A `write` that passes the checks is the call of the table's `write`
member. -/
theorem write_of_invoke {δ : Type} (dv : devices δ) (pcb : pcb_t)
    (dev : δ) (fd : Int) (b : buffer) (nbytes : Int) (t : fo_jump_table_t)
    (h : write_dispatch pcb fd (some b).isNone nbytes = dispatch.invoke t) :
    write dv pcb dev fd (some b) nbytes =
      call_write dv (jump_table t).write_member pcb dev fd b nbytes := by
  unfold write
  rw [h]

theorem isNone_eq_true_iff_eq_none {α : Type} (o : Option α) : o.isNone = true ↔ o = none := by
  cases o <;> simp

/-- C11: `read(fd, buf, n)` and `write(fd, buf, n)` each return -1 without
invoking any per-slot operation (the call ends in `dispatch.fail`) and without
changing any state whenever `fd < 0`, `fd >= 8`, `buf` is `NULL`, `n < 0` or
slot `fd` is inactive; in every other case the result is exactly the result of
the `read` (resp. `write`) member of the table installed in the slot. -/
theorem read_write_dispatch_spec {δ : Type} (dv : devices δ) (fs : fs_t) (stack : dentry_t)
    (pcb : pcb_t) (dev : δ) (fd : Int) (buf : Option buffer) (n : Int) :
    ((fd < 0 ∨ fd ≥ 8 ∨ buf = none ∨ n < 0 ∨ (pcb.fd_array fd.toNat).active = false) →
      read_dispatch pcb fd buf.isNone n = dispatch.fail ∧
      write_dispatch pcb fd buf.isNone n = dispatch.fail ∧
      read dv fs stack pcb dev fd buf n = some ⟨-1, buf, pcb, dev⟩ ∧
      write dv pcb dev fd buf n = some ⟨-1, buf, pcb, dev⟩) ∧
    (¬ (fd < 0 ∨ fd ≥ 8 ∨ buf = none ∨ n < 0 ∨ (pcb.fd_array fd.toNat).active = false) →
      ∀ t b, (pcb.fd_array fd.toNat).fo_jump_table_ptr = some t → buf = some b →
        read dv fs stack pcb dev fd buf n =
          call_read dv fs stack (jump_table t).read_member pcb dev fd b n ∧
        write dv pcb dev fd buf n =
          call_write dv (jump_table t).write_member pcb dev fd b n) := by
  constructor
  · intro h
    have hf : read_dispatch pcb fd buf.isNone n = dispatch.fail := by
      rw [read_dispatch_fail_iff, isNone_eq_true_iff_eq_none]
      exact h
    exact ⟨hf, hf, read_of_fail dv fs stack pcb dev fd buf n hf,
      write_of_fail dv pcb dev fd buf n hf⟩
  · intro h t b ht hb
    subst hb
    have hi : read_dispatch pcb fd (some b).isNone n = dispatch.invoke t := by
      apply read_dispatch_invoke pcb fd _ n t _ ht
      rw [isNone_eq_true_iff_eq_none]
      exact h
    exact ⟨read_of_invoke dv fs stack pcb dev fd b n t hi,
      write_of_invoke dv pcb dev fd b n t hi⟩

/-- C11 (witness): descriptor 5 of the sample PCB is inactive, so `read` and
`write` on it return -1; descriptor 1 is stdout, whose `read` member is
`read_no_op`. -/
theorem read_write_dispatch_spec_witness :
    (sample_pcb.fd_array (5 : Int).toNat).active = false ∧
    read idle_devices sample_dir local_dentry sample_pcb () 5 (some zero_buf) 3
      = some ⟨-1, some zero_buf, sample_pcb, ()⟩ ∧
    write idle_devices sample_pcb () 5 (some zero_buf) 3
      = some ⟨-1, some zero_buf, sample_pcb, ()⟩ ∧
    read idle_devices sample_dir local_dentry sample_pcb () 1 (some zero_buf) 3
      = call_read idle_devices sample_dir local_dentry read_fn.read_no_op sample_pcb () 1
          zero_buf 3 :=
  have h := (read_write_dispatch_spec idle_devices sample_dir local_dentry sample_pcb () 5
    (some zero_buf) 3).1 (Or.inr (Or.inr (Or.inr (Or.inr (by decide)))))
  have h1 := ((read_write_dispatch_spec idle_devices sample_dir local_dentry sample_pcb () 1
    (some zero_buf) 3).2
    (fun h => h.elim (fun h => absurd h (by decide)) (fun h => h.elim (fun h => absurd h (by decide))
      (fun h => h.elim (fun h => Option.noConfusion h) (fun h => h.elim
        (fun h => absurd h (by decide)) (fun h => absurd h (by decide))))))
    fo_jump_table_t.stdout_jump_table zero_buf rfl rfl).1
  ⟨by decide, h.2.2.1, h.2.2.2, h1⟩

/-- A successful `open` resolved the name to a dentry of type 0, 1 or 2 and
found a free slot. -/
theorem sys_open_success (fs : fs_t) (pcb : pcb_t) (name : List Nat)
    (h : (sys_open fs pcb (some name)).1 ≠ -1) :
    (read_dentry_by_name fs name local_dentry).1 = 0 ∧
    (read_dentry_by_name fs name local_dentry).2.file_type ≤ 2 ∧
    ∃ k, find_fd pcb.fd_array FD_ARRAY_LEN 2 = some k := by
  unfold sys_open at h
  simp only at h
  by_cases hr : (read_dentry_by_name fs name local_dentry).1 ≠ 0
  · rw [if_pos hr] at h
    exact absurd rfl h
  · rw [if_neg hr] at h
    cases hf : find_fd pcb.fd_array FD_ARRAY_LEN 2 with
    | none =>
      rw [hf] at h
      exact absurd rfl h
    | some k =>
      rw [hf] at h
      simp only at h
      refine ⟨not_not.mp hr, ?_, k, rfl⟩
      by_contra hgt
      rw [if_neg (by omega), if_neg (by omega), if_neg (by omega)] at h
      exact absurd rfl h

/-- C12: for every descriptor whose slot holds the regular-file or the
directory operations, as `open` installs them for a dentry of type 2 or 1,
`write(fd, buf, n)` returns -1 for all `buf` and `n` and modifies no state:
the PCB with its FD table and file positions, the device state and the
caller's buffer come back as they were (the image is never written: no
function returns one). -/
theorem write_file_dir_fails {δ : Type} (dv : devices δ) :
    (∀ (pcb : pcb_t) (dev : δ) (fd : Int) (buf : Option buffer) (n : Int),
      ((pcb.fd_array fd.toNat).fo_jump_table_ptr = some fo_jump_table_t.file_fo_jump_table ∨
        (pcb.fd_array fd.toNat).fo_jump_table_ptr = some fo_jump_table_t.dir_fo_jump_table) →
      write dv pcb dev fd buf n = some ⟨-1, buf, pcb, dev⟩) ∧
    (∀ (fs : fs_t) (pcb0 : pcb_t) (name : List Nat) (dev : δ) (buf : Option buffer) (n : Int),
      (sys_open fs pcb0 (some name)).1 ≠ -1 →
      (read_dentry_by_name fs name local_dentry).2.file_type ≠ 0 →
      write dv (sys_open fs pcb0 (some name)).2 dev (sys_open fs pcb0 (some name)).1 buf n
        = some ⟨-1, buf, (sys_open fs pcb0 (some name)).2, dev⟩) := by
  have hA : ∀ (pcb : pcb_t) (dev : δ) (fd : Int) (buf : Option buffer) (n : Int),
      ((pcb.fd_array fd.toNat).fo_jump_table_ptr = some fo_jump_table_t.file_fo_jump_table ∨
        (pcb.fd_array fd.toNat).fo_jump_table_ptr = some fo_jump_table_t.dir_fo_jump_table) →
      write dv pcb dev fd buf n = some ⟨-1, buf, pcb, dev⟩ := by
    intro pcb dev fd buf n ht
    by_cases hf : (fd < 0 ∨ fd ≥ 8 ∨ buf.isNone = true ∨ n < 0 ∨
        (pcb.fd_array fd.toNat).active = false)
    · exact write_of_fail dv pcb dev fd buf n
        ((write_dispatch_eq pcb fd _ n).trans ((read_dispatch_fail_iff pcb fd _ n).mpr hf))
    · cases buf with
      | none => exact absurd (Or.inr (Or.inr (Or.inl rfl))) hf
      | some b =>
        rcases ht with ht | ht
        · rw [write_of_invoke dv pcb dev fd b n _
            ((write_dispatch_eq pcb fd _ n).trans (read_dispatch_invoke pcb fd _ n _ hf ht))]
          rfl
        · rw [write_of_invoke dv pcb dev fd b n _
            ((write_dispatch_eq pcb fd _ n).trans (read_dispatch_invoke pcb fd _ n _ hf ht))]
          rfl
  refine ⟨hA, ?_⟩
  intro fs pcb0 name dev buf n hopen htype
  obtain ⟨hres, hle, k, hk⟩ := sys_open_success fs pcb0 name hopen
  obtain ⟨hret, harr⟩ := sys_open_at fs pcb0 name k hres hle hk
  apply hA
  rw [hret, Int.toNat_ofNat, harr, set_at_same]
  by_cases h1 : (read_dentry_by_name fs name local_dentry).2.file_type = 1
  · right
    simp [fd_entry_t.set_active, h1]
  · left
    simp [fd_entry_t.set_active, h1, htype]

/-- C12 (witness): "." is the directory (type 1); opened on the sample PCB it
gets descriptor 2, and a write of 10 bytes to it returns -1 and changes
nothing. -/
theorem write_file_dir_fails_witness :
    ((sys_open sample_dir sample_pcb (some (bytes "."))).1 ≠ -1 ∧
      (read_dentry_by_name sample_dir (bytes ".") local_dentry).2.file_type ≠ 0) ∧
    write idle_devices (sys_open sample_dir sample_pcb (some (bytes "."))).2 ()
        (sys_open sample_dir sample_pcb (some (bytes "."))).1 (some zero_buf) 10
      = some ⟨-1, some zero_buf, (sys_open sample_dir sample_pcb (some (bytes "."))).2, ()⟩ :=
  ⟨by decide,
   (write_file_dir_fails idle_devices).2 sample_dir sample_pcb (bytes ".") () (some zero_buf) 10
     (by decide) (by decide)⟩

/-! ## file_read, dir_read, getargs, vidmap -/

theorem toUInt32_natCast (x : Nat) (h : x < 2 ^ 32) : toUInt32 (x : Int) = x := by
  unfold toUInt32 WORD
  omega

theorem toUInt32_toInt32 (x : Nat) (h : x < 2 ^ 32) : toUInt32 (toInt32 x) = x := by
  unfold toUInt32 toInt32 WORD
  split_ifs <;> omega

/-- Apart from the validation of `read_data`, `file_read` does what is asked
of a regular-file read: on a slot whose inode is below `num_inodes` and passes
the block check of fs.c:100-103, at a position `p <= L`, a read of
`0 <= n < 2^31` bytes returns `min(n, L - p)`, stores file bytes
`p .. p + min(n, L - p) - 1` at the start of the buffer, keeps the rest of the
buffer and moves the position to `p + min(n, L - p)`. -/
theorem file_read_of_checked (fs : fs_t) (pcb : pcb_t) (fd : Int) (buf : buffer) (n : Int)
    (hino : (pcb.fd_array fd.toNat).inode_index < fs.boot_block.num_inodes)
    (hchk : data_index_check fs (pcb.fd_array fd.toNat).inode_index = true)
    (hL : (fs.inodes (pcb.fd_array fd.toNat).inode_index).length < 2 ^ 32)
    (hp : (pcb.fd_array fd.toNat).file_position
      ≤ (fs.inodes (pcb.fd_array fd.toNat).inode_index).length)
    (hn0 : 0 ≤ n) (hn : n < 2 ^ 31) :
    (file_read fs pcb fd buf n).1 =
      ((min n.toNat ((fs.inodes (pcb.fd_array fd.toNat).inode_index).length
        - (pcb.fd_array fd.toNat).file_position) : Nat) : Int) ∧
    (∀ j, j < min n.toNat ((fs.inodes (pcb.fd_array fd.toNat).inode_index).length
        - (pcb.fd_array fd.toNat).file_position) →
      (file_read fs pcb fd buf n).2.1 j =
        file_byte fs (pcb.fd_array fd.toNat).inode_index
          ((pcb.fd_array fd.toNat).file_position + j)) ∧
    (∀ j, min n.toNat ((fs.inodes (pcb.fd_array fd.toNat).inode_index).length
        - (pcb.fd_array fd.toNat).file_position) ≤ j →
      (file_read fs pcb fd buf n).2.1 j = buf j) ∧
    ((file_read fs pcb fd buf n).2.2.fd_array fd.toNat).file_position =
      (pcb.fd_array fd.toNat).file_position +
        min n.toNat ((fs.inodes (pcb.fd_array fd.toNat).inode_index).length
          - (pcb.fd_array fd.toNat).file_position) := by
  generalize hpd : (pcb.fd_array fd.toNat).file_position = p at hp ⊢
  generalize hid : (pcb.fd_array fd.toNat).inode_index = ino at hino hchk hL hp ⊢
  generalize hLd : (fs.inodes ino).length = L at hL hp ⊢
  have hpos : toUInt32 (toInt32 p) = p := toUInt32_toInt32 p (by omega)
  have hrem : (L + WORD - p) % WORD = L - p := by unfold WORD; omega
  have hcnt : toUInt32 n = n.toNat := by unfold toUInt32 WORD; omega
  have hm : toUInt32 (if L - p < n.toNat then toInt32 (L - p) else n) = min n.toNat (L - p) := by
    by_cases hc : L - p < n.toNat
    · rw [if_pos hc, toUInt32_toInt32 _ (by omega)]
      omega
    · rw [if_neg hc, hcnt]
      omega
  have hv : read_valid fs ino p (min n.toNat (L - p)) := by
    refine ⟨hino, ?_, hchk⟩
    rw [hLd]
    exact le_trans (Nat.mod_le _ _) (by omega)
  obtain ⟨hret, hbuf⟩ := read_data_of_valid fs ino p buf (min n.toNat (L - p)) hv
  have hmlt : min n.toNat (L - p) < 2 ^ 31 := by omega
  unfold file_read
  simp only [hpd, hid, hLd, hpos, hrem, hcnt, hm]
  refine ⟨?_, ?_, ?_, ?_⟩
  · rw [hret, toInt32_of_lt _ hmlt]
  · intro j hj
    rw [hbuf j, if_pos hj]
  · intro j hj
    rw [hbuf j, if_neg (by omega)]
  · rw [set_at_same]
    show (p + toUInt32 (read_data fs ino p buf (min n.toNat (L - p))).1) % WORD = _
    rw [hret, toInt32_of_lt _ hmlt, toUInt32_natCast _ (by omega)]
    unfold WORD
    omega

/-- C13 (failing input): the image `block_file_fs` is well formed: its file
"f" has inode 0 of the one inode, a length of 4096 bytes, and the one index
slot that length references names block 0 of the one data block.  With "f"
opened as descriptor 2 at file position 0, `read(2, buf, 4)` returns -1
instead of 4 and leaves the file position at 2^32 - 1, beyond the length:
`read_data` rejects the inode because its validation loop also inspects the
unreferenced slot 1, and `file_read` adds the -1 to the position. -/
theorem file_read_whole_block_fails :
    ((block_file_fs.dentries 0).inode_index < block_file_fs.boot_block.num_inodes ∧
      (∀ i, i < ((block_file_fs.inodes 0).length + 4095) / 4096 →
        (block_file_fs.inodes 0).data_index i < block_file_fs.boot_block.num_data_blocks) ∧
      (sys_open block_file_fs sample_pcb (some (bytes "f"))).1 = 2 ∧
      ((sys_open block_file_fs sample_pcb (some (bytes "f"))).2.fd_array 2).file_position
        ≤ (block_file_fs.inodes 0).length) ∧
    (read idle_devices block_file_fs local_dentry
      (sys_open block_file_fs sample_pcb (some (bytes "f"))).2 () 2 (some zero_buf) 4).map
        (fun r => r.ret) = some (-1) ∧
    (read idle_devices block_file_fs local_dentry
      (sys_open block_file_fs sample_pcb (some (bytes "f"))).2 () 2 (some zero_buf) 4).map
        (fun r => (r.pcb.fd_array 2).file_position) = some 4294967295 := by
  refine ⟨⟨by decide, ?_, by decide, by decide⟩, by decide, by decide⟩
  intro i hi
  have hi0 : i = 0 := by
    have : ((block_file_fs.inodes 0).length + 4095) / 4096 = 1 := by decide
    omega
  subst hi0
  decide

/-- C14 (failing input): in `full_dir` all 63 slots are populated.  The call
at position 62 returns the last name (length 1) and moves the position to 63.
The next call does not enter the loop, so its result is the `strlen` of the
uninitialised local `dentry`: 1 when the local still holds what the previous
call left there, 0 only when it happens to start with a NUL. -/
theorem dir_read_past_end_stale :
    (∀ i, i < 63 → (full_dir.dentries i).file_name 0 ≠ 0) ∧
    (dir_read full_dir (dir_pcb 62) local_dentry 2 zero_buf 32).map
        (fun r => (r.1, r.2.1 0, (r.2.2.fd_array 2).file_position)) = some (1, 97, 63) ∧
    (dir_read full_dir (dir_pcb 63) (read_dentry_by_index full_dir 62 local_dentry).2 2
        zero_buf 32).map (fun r => (r.1, (r.2.2.fd_array 2).file_position)) = some (1, 63) ∧
    (dir_read full_dir (dir_pcb 63) local_dentry 2 zero_buf 32).map
        (fun r => (r.1, (r.2.2.fd_array 2).file_position)) = some (0, 63) := by
  refine ⟨?_, by decide, by decide, by decide⟩
  intro i _
  show cstr (bytes "a") 0 ≠ 0
  decide

/-- C15 (failing input): the saved argument string is "ab" and `n = 2`, so
the string with its NUL needs 3 bytes and does not fit.  `getargs` returns 0
all the same and stores the NUL at index 2 of the buffer at 128 MiB, a byte
that held 0xFF. -/
theorem getargs_exact_fit_overruns :
    strlen (bytes "ab") + 1 > 2 ∧
    ff_mem (134217728 + 2) = 255 ∧
    (getargs (args_pcb "ab") ff_mem 134217728 2).map
        (fun r => (r.1, r.2 134217728, r.2 (134217728 + 1), r.2 (134217728 + 2)))
      = some (0, 97, 98, 0) := by
  decide

/-- C16 (failing input): the saved argument string is "abcdefghij", the
buffer starts 5 bytes below the end of the user window (132 MiB = 138412032)
and `n = 10`.  `getargs` returns 0 and writes the six bytes at 132 MiB and
above: 'f' at 138412032 and the NUL at 138412037, which held 0xFF. -/
theorem getargs_writes_past_window :
    (134217728 ≤ 138412027 ∧ 138412027 < 138412032) ∧
    (ff_mem 138412032 = 255 ∧ ff_mem 138412037 = 255) ∧
    (getargs (args_pcb "abcdefghij") ff_mem 138412027 10).map
        (fun r => (r.1, r.2 138412032, r.2 138412037)) = some (0, 102, 0) := by
  decide

theorem write32_at (mem : memory) (addr v j : Nat) (hj : j < 4) (ha : addr + 3 < WORD) :
    write32 mem addr v (addr + j) = word_byte v j := by
  unfold write32
  unfold WORD at ha ⊢
  have h0 : addr % 2 ^ 32 = addr := Nat.mod_eq_of_lt (by omega)
  have h1 : (addr + 1) % 2 ^ 32 = addr + 1 := Nat.mod_eq_of_lt (by omega)
  have h2 : (addr + 2) % 2 ^ 32 = addr + 2 := Nat.mod_eq_of_lt (by omega)
  have h3 : (addr + 3) % 2 ^ 32 = addr + 3 := Nat.mod_eq_of_lt (by omega)
  rw [h0, h1, h2, h3]
  have hcases : j = 0 ∨ j = 1 ∨ j = 2 ∨ j = 3 := by omega
  rcases hcases with h | h | h | h <;> subst h <;> simp

theorem write32_other (mem : memory) (addr v a : Nat) (ha : addr + 3 < WORD)
    (h : a < addr ∨ a > addr + 3) : write32 mem addr v a = mem a := by
  unfold write32
  unfold WORD at ha ⊢
  have h0 : addr % 2 ^ 32 = addr := Nat.mod_eq_of_lt (by omega)
  have h1 : (addr + 1) % 2 ^ 32 = addr + 1 := Nat.mod_eq_of_lt (by omega)
  have h2 : (addr + 2) % 2 ^ 32 = addr + 2 := Nat.mod_eq_of_lt (by omega)
  have h3 : (addr + 3) % 2 ^ 32 = addr + 3 := Nat.mod_eq_of_lt (by omega)
  rw [h0, h1, h2, h3, if_neg (by omega), if_neg (by omega), if_neg (by omega),
    if_neg (by omega)]

/-- C17: `vidmap(ptr)` returns -1 and changes neither the paging structures
nor memory when `ptr` is `NULL` or lies outside the user window
[128 MiB, 132 MiB); whenever it returns 0, the four bytes it wrote at `ptr`
lie wholly inside the user window and hold the address
`31 << 22 = 0x07C00000` (no other byte is written), and page-directory entry
31 is a present, user-accessible entry for a 4 KiB page table. -/
theorem vidmap_spec (vid_pt : Nat) (k : kernel_t) (mem : memory) (screen_start : Nat) :
    ((screen_start = 0 ∨ screen_start < 134217728 ∨ screen_start ≥ 138412032) →
      vidmap vid_pt k mem screen_start = (-1, k, mem)) ∧
    ((vidmap vid_pt k mem screen_start).1 = 0 →
      134217728 ≤ screen_start ∧ screen_start + 3 < 138412032 ∧
      (31 <<< 22 = 0x07C00000) ∧
      (∀ j, j < 4 →
        (vidmap vid_pt k mem screen_start).2.2 (screen_start + j) = word_byte 0x07C00000 j) ∧
      (∀ a, (a < screen_start ∨ a > screen_start + 3) →
        (vidmap vid_pt k mem screen_start).2.2 a = mem a) ∧
      ((vidmap vid_pt k mem screen_start).2.1.page_directory 31).present = 1 ∧
      ((vidmap vid_pt k mem screen_start).2.1.page_directory 31).privilege_level = 1 ∧
      ((vidmap vid_pt k mem screen_start).2.1.page_directory 31).size = 0) := by
  have e1 : USER_PD_INDEX <<< ALIGN_4MB = 134217728 := by decide
  have e2 : ((USER_PD_INDEX + 1) <<< ALIGN_4MB) - 4 = 138412028 := by decide
  unfold vidmap
  rw [e1, e2]
  by_cases hc : screen_start ≠ 0 ∧ screen_start ≥ 134217728 ∧ screen_start < 138412028
  · rw [if_pos hc]
    obtain ⟨h0, h1, h2⟩ := hc
    have hw : screen_start + 3 < WORD := by unfold WORD; omega
    refine ⟨fun h => absurd h (by omega), fun _ => ⟨h1, by omega, by decide, ?_, ?_, ?_, ?_, ?_⟩⟩
    · intro j hj
      exact write32_at mem screen_start _ j hj hw
    · intro a ha
      exact write32_other mem screen_start _ a hw ha
    · simp [create_vid_4kb_page, set_at, VID_MAP_VIRTUAL_INDEX]
    · simp [create_vid_4kb_page, set_at, VID_MAP_VIRTUAL_INDEX]
    · simp [create_vid_4kb_page, set_at, VID_MAP_VIRTUAL_INDEX]
  · rw [if_neg hc]
    exact ⟨fun _ => rfl, fun h => absurd (show (-1 : Int) = 0 from h) (by decide)⟩

/-- C17 (witness): a pointer at the start of the user window. -/
theorem vidmap_spec_witness :
    (vidmap 0x500000 sample_kernel ff_mem 134217728).1 = 0 ∧
    (vidmap 0x500000 sample_kernel ff_mem 134217728).2.2 (134217728 + 3) = 7 ∧
    ((vidmap 0x500000 sample_kernel ff_mem 134217728).2.1.page_directory 31).present = 1 :=
  have h := (vidmap_spec 0x500000 sample_kernel ff_mem 134217728).2 (by decide)
  ⟨by decide, (h.2.2.2.1 3 (by decide)).trans (by decide), h.2.2.2.2.2.1⟩

/-! ## halt -/

/-- The PCB `close` returns differs from the one it was given at most in the
slot it closed. -/
theorem close_frame (pcb : pcb_t) (i : Nat) :
    (close pcb (i : Int)).2.process_id = pcb.process_id ∧
    (close pcb (i : Int)).2.parent_pcb = pcb.parent_pcb ∧
    (close pcb (i : Int)).2.parent_esp = pcb.parent_esp ∧
    (close pcb (i : Int)).2.parent_ebp = pcb.parent_ebp ∧
    ∀ j, j ≠ i → (close pcb (i : Int)).2.fd_array j = pcb.fd_array j := by
  unfold close
  split_ifs
  · exact ⟨rfl, rfl, rfl, rfl, fun _ _ => rfl⟩
  · exact ⟨rfl, rfl, rfl, rfl, fun _ _ => rfl⟩
  · refine ⟨rfl, rfl, rfl, rfl, ?_⟩
    intro j hj
    show set_at _ _ _ _ = _
    rw [Int.toNat_ofNat, set_at_other _ _ _ _ hj]

/-- The descriptor loop of `halt` leaves the slots it visits with `flags = 0`
and no table, and leaves the other slots and the fields read later as they
were. -/
theorem halt_close_loop_spec :
    ∀ (n i : Nat) (pcb : pcb_t),
      (halt_close_loop n i pcb).process_id = pcb.process_id ∧
      (halt_close_loop n i pcb).parent_pcb = pcb.parent_pcb ∧
      (halt_close_loop n i pcb).parent_esp = pcb.parent_esp ∧
      (halt_close_loop n i pcb).parent_ebp = pcb.parent_ebp ∧
      (∀ j, i ≤ j → j < i + n →
        ((halt_close_loop n i pcb).fd_array j).flags = 0 ∧
        ((halt_close_loop n i pcb).fd_array j).fo_jump_table_ptr = none) ∧
      (∀ j, (j < i ∨ i + n ≤ j) → (halt_close_loop n i pcb).fd_array j = pcb.fd_array j) := by
  intro n
  induction n with
  | zero =>
    intro i pcb
    exact ⟨rfl, rfl, rfl, rfl, fun j h1 h2 => by omega, fun _ _ => rfl⟩
  | succ n ih =>
    intro i pcb
    rw [halt_close_loop]
    by_cases hf : (pcb.fd_array i).flags = 1
    · simp only [if_pos hf]
      obtain ⟨c1, c2, c3, c4, c5⟩ := close_frame pcb i
      obtain ⟨h1, h2, h3, h4, h5, h6⟩ := ih (i + 1)
        { (close pcb (i : Int)).2 with
          fd_array := set_at (close pcb (i : Int)).2.fd_array i
            { (close pcb (i : Int)).2.fd_array i with flags := 0, fo_jump_table_ptr := none } }
      refine ⟨h1.trans c1, h2.trans c2, h3.trans c3, h4.trans c4, ?_, ?_⟩
      · intro j hj1 hj2
        by_cases hji : j = i
        · subst hji
          rw [h6 j (Or.inl (by omega))]
          show fd_entry_t.flags (set_at _ j _ j) = 0 ∧
            fd_entry_t.fo_jump_table_ptr (set_at _ j _ j) = none
          rw [set_at_same]
          exact ⟨rfl, rfl⟩
        · exact h5 j (by omega) (by omega)
      · intro j hj
        rw [h6 j (by omega)]
        show set_at _ i _ j = _
        rw [set_at_other _ _ _ _ (by omega)]
        exact c5 j (by omega)
    · simp only [if_neg hf]
      obtain ⟨h1, h2, h3, h4, h5, h6⟩ := ih (i + 1)
        { pcb with
          fd_array := set_at pcb.fd_array i
            { pcb.fd_array i with flags := 0, fo_jump_table_ptr := none } }
      refine ⟨h1, h2, h3, h4, ?_, ?_⟩
      · intro j hj1 hj2
        by_cases hji : j = i
        · subst hji
          rw [h6 j (Or.inl (by omega))]
          show fd_entry_t.flags (set_at _ j _ j) = 0 ∧
            fd_entry_t.fo_jump_table_ptr (set_at _ j _ j) = none
          rw [set_at_same]
          exact ⟨rfl, rfl⟩
        · exact h5 j (by omega) (by omega)
      · intro j hj
        rw [h6 j (by omega)]
        show set_at _ i _ j = _
        rw [set_at_other _ _ _ _ (by omega)]

/-- A slot with `flags = 0` is inactive. -/
theorem active_of_flags_zero (e : fd_entry_t) (h : e.flags = 0) : e.active = false := by
  unfold fd_entry_t.active
  rw [h]
  decide

/-- The mapping `create_user_4mb_page` writes for a real index in 2..1023. -/
theorem create_user_4mb_page_ok (pd : Nat → pde_t) (real_index : Nat)
    (h2 : 2 ≤ real_index) (h : real_index < 1024) :
    ((create_user_4mb_page pd (real_index : Int) (USER_PD_INDEX : Int)).2 32).present = 1 ∧
    ((create_user_4mb_page pd (real_index : Int) (USER_PD_INDEX : Int)).2 32).size = 1 ∧
    ((create_user_4mb_page pd (real_index : Int) (USER_PD_INDEX : Int)).2 32).privilege_level
      = 1 ∧
    ((create_user_4mb_page pd (real_index : Int) (USER_PD_INDEX : Int)).2 32).rw = 1 ∧
    ((create_user_4mb_page pd (real_index : Int) (USER_PD_INDEX : Int)).2 32).addr * 4096
      = real_index * 4194304 ∧
    ∀ j, j ≠ 32 →
      (create_user_4mb_page pd (real_index : Int) (USER_PD_INDEX : Int)).2 j = pd j := by
  unfold create_user_4mb_page USER_PD_INDEX PAGE_TABLE_SIZE
  have hc : ¬ ((real_index : Int) < 2 ∨ ((32 : Nat) : Int) < 2 ∨
      (real_index : Int) ≥ ((1024 : Nat) : Int) ∨ ((32 : Nat) : Int) ≥ ((1024 : Nat) : Int)) := by
    omega
  rw [if_neg hc]
  simp only [Int.toNat_ofNat]
  refine ⟨by rw [set_at_same], by rw [set_at_same], by rw [set_at_same], by rw [set_at_same],
    ?_, fun j hj => set_at_other _ _ _ _ hj⟩
  rw [set_at_same]
  show (real_index <<< 10) % 2 ^ 20 * 4096 = real_index * 4194304
  rw [Nat.shiftLeft_eq, Nat.mod_eq_of_lt (by omega)]
  omega

/-- What `halt` does when the leaf task `current` of the executing terminal
has a parent. -/
theorem halt_resume (k : kernel_t) (fuel status current : Nat)
    (hleaf : get_current_executing_pcb k fuel = some current)
    (hparent : (k.pcbs current).parent_pcb ≠ 0)
    (hpid : (k.pcbs (k.pcbs current).parent_pcb).process_id < 256) :
    ∃ (k1 : kernel_t) (esp ebp : Nat),
      halt k fuel status = some (halt_result.resume k1
        (if status % 256 = 255 then 256 else status % 256) esp ebp) ∧
      esp = (k.pcbs current).parent_esp ∧
      ebp = (k.pcbs current).parent_ebp ∧
      k1.processes = set_at k.processes (k.pcbs current).process_id 0 ∧
      (k1.pcbs (k.pcbs current).parent_pcb).child_pcb = 0 ∧
      (∀ i, i < 8 → ((k1.pcbs current).fd_array i).active = false) ∧
      (k1.page_directory 32).present = 1 ∧
      (k1.page_directory 32).size = 1 ∧
      (k1.page_directory 32).privilege_level = 1 ∧
      (k1.page_directory 32).addr * 4096 =
        ((k.pcbs (k.pcbs current).parent_pcb).process_id + 2) * 4194304 ∧
      (∀ j, j ≠ 32 → k1.page_directory j = k.page_directory j) := by
  have hl := halt_close_loop_spec FD_ARRAY_LEN 0
    { k.pcbs current with args := set_at (k.pcbs current).args 0 0 }
  obtain ⟨p1, p2, p3, _, p5, p6⟩ := create_user_4mb_page_ok k.page_directory
    ((k.pcbs (k.pcbs current).parent_pcb).process_id + 2) (by omega) (by omega)
  unfold halt
  simp only [hleaf]
  rw [if_neg hparent]
  generalize halt_close_loop FD_ARRAY_LEN 0
    { k.pcbs current with args := set_at (k.pcbs current).args 0 0 } = pcb2 at hl ⊢
  obtain ⟨l1, l2, l3, l4, l5, _⟩ := hl
  have e2 : pcb2.parent_pcb = (k.pcbs current).parent_pcb := l2
  have e1 : pcb2.process_id = (k.pcbs current).process_id := l1
  have hpp : (set_at k.pcbs current pcb2 (k.pcbs current).parent_pcb).process_id
      = (k.pcbs (k.pcbs current).parent_pcb).process_id := by
    by_cases hpc : (k.pcbs current).parent_pcb = current
    · rw [hpc, set_at_same]
      exact e1
    · rw [set_at_other _ _ _ _ hpc]
  have hfd : ∀ i, i < 8 → (pcb2.fd_array i).active = false := fun i hi =>
    active_of_flags_zero _ (l5 i (Nat.zero_le _) (by unfold FD_ARRAY_LEN; omega)).1
  refine ⟨_, _, _, rfl, ?_, ?_, ?_, ?_, ?_, ?_, ?_, ?_, ?_, ?_⟩
  · simp only [set_at_same]
    exact l3
  · simp only [set_at_same]
    exact l4
  · simp only [set_at_same, e1]
  · simp only [set_at_same, e2]
  · intro i hi
    simp only [set_at_same, e2]
    by_cases hpc : current = (k.pcbs current).parent_pcb
    · rw [← hpc]
      simp only [set_at_same]
      exact hfd i hi
    · rw [set_at_other _ _ _ _ hpc, set_at_same]
      exact hfd i hi
  · simp only [set_at_same, e2, hpp]
    exact_mod_cast p1
  · simp only [set_at_same, e2, hpp]
    exact_mod_cast p2
  · simp only [set_at_same, e2, hpp]
    exact_mod_cast p3
  · simp only [set_at_same, e2, hpp]
    exact_mod_cast p5
  · intro j hj
    simp only [set_at_same, e2, hpp]
    exact_mod_cast p6 j hj

/-- With a parent, `halt` ends in the `resume` hand-over with the expanded
status and the frame pointers `execute` saved in the PCB of the halted task. -/
theorem halt_resume_regs (k : kernel_t) (fuel status current : Nat)
    (hleaf : get_current_executing_pcb k fuel = some current)
    (hparent : (k.pcbs current).parent_pcb ≠ 0) :
    ∃ (k1 : kernel_t) (esp ebp : Nat),
      halt k fuel status = some (halt_result.resume k1
        (if status % 256 = 255 then 256 else status % 256) esp ebp) ∧
      esp = (k.pcbs current).parent_esp ∧
      ebp = (k.pcbs current).parent_ebp := by
  have hl := halt_close_loop_spec FD_ARRAY_LEN 0
    { k.pcbs current with args := set_at (k.pcbs current).args 0 0 }
  unfold halt
  simp only [hleaf]
  rw [if_neg hparent]
  generalize halt_close_loop FD_ARRAY_LEN 0
    { k.pcbs current with args := set_at (k.pcbs current).args 0 0 } = pcb2 at hl ⊢
  obtain ⟨_, _, l3, l4, _, _⟩ := hl
  refine ⟨_, _, _, rfl, ?_, ?_⟩
  · simp only [set_at_same]
    exact l3
  · simp only [set_at_same]
    exact l4

/-- Without a parent, `halt` ends in the `iret` to the saved entry point, and
the only store before it is the one to `tss.esp0`. -/
theorem halt_relaunch (k : kernel_t) (fuel status current : Nat)
    (hleaf : get_current_executing_pcb k fuel = some current)
    (hparent : (k.pcbs current).parent_pcb = 0) :
    halt k fuel status = some (halt_result.relaunch
      { k with tss_esp0 := esp0_for ((k.pcbs current).process_id : Int) }
      (k.pcbs current).entry 138412028) := by
  unfold halt
  simp only [hleaf]
  rw [if_pos hparent]
  rfl

/-- C18: when the halting task has a parent, the 32-bit status `halt`
delivers to the parent's `execute` (the `eax` of the hand-over) is 256 when
the 8-bit argument is 255 and is the argument for every other value 0..254;
each of the 20 exception handlers (vectors 0x00..0x13) halts the faulting task
so that the delivered status is 256. -/
theorem halt_delivers_status (k : kernel_t) (fuel current : Nat)
    (hleaf : get_current_executing_pcb k fuel = some current)
    (hparent : (k.pcbs current).parent_pcb ≠ 0) :
    (∃ (k1 : kernel_t) (esp ebp : Nat),
      halt k fuel 255 = some (halt_result.resume k1 256 esp ebp)) ∧
    (∀ status, status ≤ 254 →
      ∃ (k1 : kernel_t) (esp ebp : Nat),
        halt k fuel status = some (halt_result.resume k1 status esp ebp)) ∧
    (∀ vector, vector < 20 →
      ∃ (k1 : kernel_t) (esp ebp : Nat),
        exception_handler vector k fuel = some (halt_result.resume k1 256 esp ebp)) := by
  have h255 : ∃ (k1 : kernel_t) (esp ebp : Nat),
      halt k fuel 255 = some (halt_result.resume k1 256 esp ebp) := by
    obtain ⟨k1, esp, ebp, h, _, _⟩ := halt_resume_regs k fuel 255 current hleaf hparent
    exact ⟨k1, esp, ebp, h⟩
  refine ⟨h255, ?_, fun _ _ => h255⟩
  intro status hs
  obtain ⟨k1, esp, ebp, h, _, _⟩ := halt_resume_regs k fuel status current hleaf hparent
  have e : (if status % 256 = 255 then 256 else status % 256) = status := by
    have : status % 256 = status := Nat.mod_eq_of_lt (by omega)
    rw [this, if_neg (by omega)]
  rw [e] at h
  exact ⟨k1, esp, ebp, h⟩

/-- C18 (witness): in the sample state the leaf of terminal 0 is the child at
0x7FC000, whose parent is the shell; a page fault (vector 14) there delivers
256. -/
theorem halt_delivers_status_witness :
    (get_current_executing_pcb sample_kernel 7 = some 0x7FC000 ∧
      (sample_kernel.pcbs 0x7FC000).parent_pcb ≠ 0) ∧
    ∃ (k1 : kernel_t) (esp ebp : Nat),
      exception_handler 14 sample_kernel 7 = some (halt_result.resume k1 256 esp ebp) :=
  ⟨by decide,
   (halt_delivers_status sample_kernel 7 0x7FC000 (by decide) (by decide)).2.2 14 (by decide)⟩

/-- C19: when the leaf task of the executing terminal has a parent, `halt`
clears that task's liveness flag and no other, sets the parent's `child_pcb`
to null, leaves all eight FD slots of the halted task inactive, points
page-directory entry 32 at physical (parent pid + 2) * 4 MiB as a present
user 4 MiB page (no other entry changes), and hands over with ESP and EBP
equal to the `parent_esp` and `parent_ebp` saved in the PCB of the halted
task. -/
theorem halt_with_parent (k : kernel_t) (fuel status current : Nat)
    (hleaf : get_current_executing_pcb k fuel = some current)
    (hparent : (k.pcbs current).parent_pcb ≠ 0)
    (hpid : (k.pcbs (k.pcbs current).parent_pcb).process_id < 256) :
    ∃ (k1 : kernel_t) (eax esp ebp : Nat),
      halt k fuel status = some (halt_result.resume k1 eax esp ebp) ∧
      k1.processes (k.pcbs current).process_id = 0 ∧
      (∀ p, p ≠ (k.pcbs current).process_id → k1.processes p = k.processes p) ∧
      (k1.pcbs (k.pcbs current).parent_pcb).child_pcb = 0 ∧
      (∀ i, i < 8 → ((k1.pcbs current).fd_array i).active = false) ∧
      (k1.page_directory 32).present = 1 ∧
      (k1.page_directory 32).size = 1 ∧
      (k1.page_directory 32).privilege_level = 1 ∧
      (k1.page_directory 32).addr * 4096 =
        ((k.pcbs (k.pcbs current).parent_pcb).process_id + 2) * 4194304 ∧
      (∀ j, j ≠ 32 → k1.page_directory j = k.page_directory j) ∧
      esp = (k.pcbs current).parent_esp ∧
      ebp = (k.pcbs current).parent_ebp := by
  obtain ⟨k1, esp, ebp, h, hesp, hebp, hproc, hchild, hfd, q1, q2, q3, q4, q5⟩ :=
    halt_resume k fuel status current hleaf hparent hpid
  refine ⟨k1, _, esp, ebp, h, ?_, ?_, hchild, hfd, q1, q2, q3, q4, q5, hesp, hebp⟩
  · rw [hproc, set_at_same]
  · intro p hp
    rw [hproc, set_at_other _ _ _ _ hp]

/-- C19 (witness): the child (PID 3) of the sample state halts; its parent is
the shell with PID 0, so entry 32 maps physical 2 * 4 MiB. -/
theorem halt_with_parent_witness :
    (get_current_executing_pcb sample_kernel 7 = some 0x7FC000 ∧
      (sample_kernel.pcbs 0x7FC000).parent_pcb ≠ 0 ∧
      (sample_kernel.pcbs (sample_kernel.pcbs 0x7FC000).parent_pcb).process_id < 256) ∧
    ∃ (k1 : kernel_t) (eax esp ebp : Nat),
      halt sample_kernel 7 0 = some (halt_result.resume k1 eax esp ebp) ∧
      k1.processes (sample_kernel.pcbs 0x7FC000).process_id = 0 ∧
      (∀ p, p ≠ (sample_kernel.pcbs 0x7FC000).process_id →
        k1.processes p = sample_kernel.processes p) ∧
      (k1.pcbs (sample_kernel.pcbs 0x7FC000).parent_pcb).child_pcb = 0 ∧
      (∀ i, i < 8 → ((k1.pcbs 0x7FC000).fd_array i).active = false) ∧
      (k1.page_directory 32).present = 1 ∧
      (k1.page_directory 32).size = 1 ∧
      (k1.page_directory 32).privilege_level = 1 ∧
      (k1.page_directory 32).addr * 4096 =
        ((sample_kernel.pcbs (sample_kernel.pcbs 0x7FC000).parent_pcb).process_id + 2)
          * 4194304 ∧
      (∀ j, j ≠ 32 → k1.page_directory j = sample_kernel.page_directory j) ∧
      esp = (sample_kernel.pcbs 0x7FC000).parent_esp ∧
      ebp = (sample_kernel.pcbs 0x7FC000).parent_ebp :=
  ⟨by decide,
   halt_with_parent sample_kernel 7 0 0x7FC000 (by decide) (by decide) (by decide)⟩

/-- C20 (failing input): the boot shell of terminal 0 (PID 0, no parent, no
child) has descriptor 2 open and calls `halt(0)`.  The shell is relaunched at
its saved entry point with its liveness flag still 1, but the `iret` comes
before the loop that closes the descriptors: slot 2 of its FD table is still
active after the relaunch. -/
theorem halt_shell_keeps_descriptors :
    (get_current_executing_pcb shell_kernel 7 = some 0x7FF000 ∧
      (shell_kernel.pcbs 0x7FF000).parent_pcb = 0 ∧
      ((shell_kernel.pcbs 0x7FF000).fd_array 2).active = true) ∧
    (halt shell_kernel 7 0).map (fun r =>
        match r with
        | halt_result.relaunch k eip _ =>
          (true, eip, k.processes 0, ((k.pcbs 0x7FF000).fd_array 2).active)
        | halt_result.resume _ _ _ _ => (false, 0, 0, false))
      = some (true, (shell_kernel.pcbs 0x7FF000).entry, 1, true) := by
  decide

/-! ## PCB addresses, the user window and the paging set-up -/

/-- C24 (evaluation): for every PID in 0..6 `get_pcb_by_PID` gives
`0x800000 − (p+1)·4096`, which is not the `0x800000 − (p+1)·8192` of the
claim, and consecutive PCBs are 4096 bytes apart: the constant `_8KILO` is
`0x1000`. -/
theorem get_pcb_by_PID_spacing :
    ∀ p : Fin 7,
      get_pcb_by_PID (p.val : Int) = 0x800000 - (p.val + 1) * 4096 ∧
      get_pcb_by_PID (p.val : Int) ≠ 0x800000 - (p.val + 1) * 8192 ∧
      get_pcb_by_PID (p.val : Int) - get_pcb_by_PID ((p.val : Int) + 1) = 4096 := by
  decide

/-- C27: for `0 ≤ pid ≤ 1021`, `create_user_4mb_page(pid + 2, 32)` returns 0
and makes directory entry 32 a present, writable, user-level, non-global
4 MiB page whose frame starts at `(pid + 2)·4 MiB`, every other entry staying
as it was; for `pid < 0` it returns -1 and changes nothing; the frames of two
different PIDs in 0..6 are disjoint, lie in 8 MiB..36 MiB and so above the
kernel page at 4 MiB..8 MiB. -/
theorem create_user_4mb_page_user_window (pd : Nat → pde_t) (pid : Int) :
    (0 ≤ pid → pid ≤ 1021 →
      (create_user_4mb_page pd (pid + 2) 32).1 = 0 ∧
      ((create_user_4mb_page pd (pid + 2) 32).2 32).present = 1 ∧
      ((create_user_4mb_page pd (pid + 2) 32).2 32).rw = 1 ∧
      ((create_user_4mb_page pd (pid + 2) 32).2 32).privilege_level = 1 ∧
      ((create_user_4mb_page pd (pid + 2) 32).2 32).global_page = 0 ∧
      ((create_user_4mb_page pd (pid + 2) 32).2 32).size = 1 ∧
      frame_base ((create_user_4mb_page pd (pid + 2) 32).2 32) = (pid + 2).toNat * 4194304 ∧
      ∀ j, j ≠ 32 → (create_user_4mb_page pd (pid + 2) 32).2 j = pd j) ∧
    (pid < 0 → create_user_4mb_page pd (pid + 2) 32 = (-1, pd)) ∧
    (∀ p q : Nat, p ≤ 6 → q ≤ 6 → p ≠ q →
      (frame_base ((create_user_4mb_page pd ((p : Int) + 2) 32).2 32) + 4194304 ≤
          frame_base ((create_user_4mb_page pd ((q : Int) + 2) 32).2 32) ∨
        frame_base ((create_user_4mb_page pd ((q : Int) + 2) 32).2 32) + 4194304 ≤
          frame_base ((create_user_4mb_page pd ((p : Int) + 2) 32).2 32)) ∧
      8 * 1048576 ≤ frame_base ((create_user_4mb_page pd ((p : Int) + 2) 32).2 32) ∧
      frame_base ((create_user_4mb_page pd ((p : Int) + 2) 32).2 32) + 4194304 ≤
        36 * 1048576) := by
  have key : ∀ r : Int, 2 ≤ r → r ≤ 1023 →
      create_user_4mb_page pd r 32 =
        (0, set_at pd 32
          { addr := (r.toNat <<< 10) % 2 ^ 20, avail := 0, global_page := 0, size := 1,
            reserved_dirty := 0, accessed := 0, cache_disabled := 0, write_through := 0,
            privilege_level := 1, rw := 1, present := 1 }) := by
    intro r h1 h2
    unfold create_user_4mb_page PAGE_TABLE_SIZE
    rw [if_neg (by omega)]
    rfl
  have base : ∀ r : Int, 2 ≤ r → r ≤ 1023 →
      frame_base ((create_user_4mb_page pd r 32).2 32) = r.toNat * 4194304 := by
    intro r h1 h2
    rw [key r h1 h2]
    show (set_at pd 32 _ 32).addr * 4096 = _
    rw [set_at_same]
    show (r.toNat <<< 10) % 2 ^ 20 * 4096 = _
    rw [Nat.shiftLeft_eq]
    omega
  refine ⟨?_, ?_, ?_⟩
  · intro h0 h1
    have hk := key (pid + 2) (by omega) (by omega)
    refine ⟨by rw [hk], ?_, ?_, ?_, ?_, ?_, base _ (by omega) (by omega), ?_⟩
    · rw [hk]; simp [set_at]
    · rw [hk]; simp [set_at]
    · rw [hk]; simp [set_at]
    · rw [hk]; simp [set_at]
    · rw [hk]; simp [set_at]
    · intro j hj
      rw [hk]
      exact set_at_other _ _ _ _ hj
  · intro h
    unfold create_user_4mb_page
    rw [if_pos (Or.inl (by omega))]
  · intro p q hp hq hpq
    rw [base _ (by omega) (by omega), base _ (by omega) (by omega)]
    omega

/-- C27 (witness): PID 3 maps the frame at 20 MiB, PID -1 is refused, and the
frames of PIDs 0 and 6 are disjoint. -/
theorem create_user_4mb_page_user_window_witness :
    frame_base ((create_user_4mb_page (fun _ => zero_pde) (3 + 2) 32).2 32) = 20 * 1048576 ∧
    create_user_4mb_page (fun _ => zero_pde) (-1 + 2) 32 = (-1, fun _ => zero_pde) :=
  ⟨(((create_user_4mb_page_user_window (fun _ => zero_pde) 3).1 (by decide) (by decide)
      ).2.2.2.2.2.2.1).trans (by decide),
    (create_user_4mb_page_user_window (fun _ => zero_pde) (-1)).2.1 (by decide)⟩

/-- C28 (evaluation): after `init_paging`, directory entry 0 is a present
entry for the 4 KiB page table `page_table_0`, whose only present slot among
its 1024 is 0xB8, mapping physical 0xB8000 writable; but both the slot and the
directory entry have `privilege_level = 0`, supervisor only, so the mapping is
not accessible from user mode. -/
theorem init_paging_vga_supervisor (pt0 : Nat) (k : kernel_t) :
    ((init_paging pt0 k).page_directory 0).present = 1 ∧
    ((init_paging pt0 k).page_directory 0).size = 0 ∧
    ((init_paging pt0 k).page_directory 0).addr = ((pt0 % WORD) / 4096) % 2 ^ 20 ∧
    (∀ i, i < 1024 → (((init_paging pt0 k).page_table_0 i).present = 1 ↔ i = 0xB8)) ∧
    ((init_paging pt0 k).page_table_0 0xB8).addr = 0xB8 ∧
    ((init_paging pt0 k).page_table_0 0xB8).rw = 1 ∧
    ((init_paging pt0 k).page_table_0 0xB8).privilege_level = 0 ∧
    ((init_paging pt0 k).page_directory 0).privilege_level = 0 := by
  refine ⟨?_, ?_, ?_, ?_, ?_, ?_, ?_, ?_⟩
  · simp [init_paging, vga_paging_init, set_at]
  · simp [init_paging, vga_paging_init, set_at]
  · simp [init_paging, vga_paging_init, set_at]
  · intro i hi
    by_cases h : i = 0xB8
    · subst h
      simp [init_paging, vga_paging_init, set_at]
    · simp [init_paging, vga_paging_init, kernel_paging_init, clear_page_directory_table,
        set_at, h, PAGE_TABLE_SIZE, hi]
  · simp [init_paging, vga_paging_init, set_at]
  · simp [init_paging, vga_paging_init, set_at]
  · simp [init_paging, vga_paging_init, set_at]
  · simp [init_paging, vga_paging_init, set_at]

/-! ## next_executing_term -/

/-- One pass of the loop: the terminal tried first. -/
theorem next_executing_term_succ (fuel : Nat) (k : kernel_t) :
    next_executing_term (fuel + 1) k =
      if k.processes (if k.exec_term_id + 1 > 2 then 0 else k.exec_term_id + 1).toNat ≠ 0 then
        some { k with exec_term_id := if k.exec_term_id + 1 > 2 then 0 else k.exec_term_id + 1 }
      else
        next_executing_term fuel
          { k with exec_term_id := if k.exec_term_id + 1 > 2 then 0 else k.exec_term_id + 1 } :=
  rfl

/-- With no live terminal the loop never stops. -/
theorem next_executing_term_none (fuel : Nat) :
    ∀ k : kernel_t, (∀ t, t ≤ 2 → k.processes t = 0) → next_executing_term fuel k = none := by
  induction fuel with
  | zero => intro k _; rfl
  | succ f ih =>
    intro k h
    rw [next_executing_term_succ]
    have h2 : (if k.exec_term_id + 1 > 2 then 0 else k.exec_term_id + 1).toNat ≤ 2 := by
      split_ifs <;> omega
    rw [if_neg (by rw [h _ h2]; exact fun hh => hh rfl)]
    exact ih _ h

/-- C29: from `exec_term_id = e` in {0,1,2} with a live terminal,
`next_executing_term` stops after `j ≤ 3` passes, `e + j` (mod 3) being the
first live terminal in the order `e+1, e+2, e+3` (mod 3), and changes only
`exec_term_id`; with no live terminal it stops for no bound on the passes. -/
theorem next_executing_term_spec (k : kernel_t) (e : Nat) (he : e ≤ 2)
    (hk : k.exec_term_id = (e : Int)) :
    ((∃ t, t ≤ 2 ∧ k.processes t ≠ 0) →
      ∃ j, 1 ≤ j ∧ j ≤ 3 ∧ k.processes ((e + j) % 3) ≠ 0 ∧
        (∀ i, 1 ≤ i → i < j → k.processes ((e + i) % 3) = 0) ∧
        ∀ fuel, j ≤ fuel →
          next_executing_term fuel k =
            some { k with exec_term_id := (((e + j) % 3 : Nat) : Int) }) ∧
    ((∀ t, t ≤ 2 → k.processes t = 0) → ∀ fuel, next_executing_term fuel k = none) := by
  refine ⟨?_, fun h fuel => next_executing_term_none fuel k h⟩
  rintro ⟨t, ht, hlive⟩
  by_cases h1 : k.processes ((e + 1) % 3) ≠ 0
  · refine ⟨1, le_refl _, by omega, h1, fun i hi hi2 => absurd hi2 (by omega), ?_⟩
    intro fuel hf
    obtain ⟨f, rfl⟩ : ∃ f, fuel = f + 1 := ⟨fuel - 1, by omega⟩
    rw [next_executing_term_succ, hk]
    interval_cases e
    · rw [if_pos (by simpa using h1)]; rfl
    · rw [if_pos (by simpa using h1)]; rfl
    · rw [if_pos (by simpa using h1)]; rfl
  · by_cases h2 : k.processes ((e + 2) % 3) ≠ 0
    · refine ⟨2, by omega, by omega, h2, ?_, ?_⟩
      · intro i hi hi2
        obtain rfl : i = 1 := by omega
        exact not_not.mp h1
      · intro fuel hf
        obtain ⟨f, rfl⟩ : ∃ f, fuel = f + 2 := ⟨fuel - 2, by omega⟩
        rw [next_executing_term_succ, hk]
        interval_cases e
        · rw [if_neg (by simpa using h1), next_executing_term_succ]
          rw [if_pos (by simpa using h2)]; rfl
        · rw [if_neg (by simpa using h1), next_executing_term_succ]
          rw [if_pos (by simpa using h2)]; rfl
        · rw [if_neg (by simpa using h1), next_executing_term_succ]
          rw [if_pos (by simpa using h2)]; rfl
    · have h3 : k.processes ((e + 3) % 3) ≠ 0 := by
        have e3 : (e + 3) % 3 = e := by omega
        rw [e3]
        intro h0
        have ht3 : t = e ∨ t = (e + 1) % 3 ∨ t = (e + 2) % 3 := by omega
        rcases ht3 with rfl | rfl | rfl
        · exact hlive h0
        · exact h1 hlive
        · exact h2 hlive
      refine ⟨3, by omega, le_refl _, h3, ?_, ?_⟩
      · intro i hi hi2
        have hi3 : i = 1 ∨ i = 2 := by omega
        rcases hi3 with rfl | rfl
        · exact not_not.mp h1
        · exact not_not.mp h2
      · intro fuel hf
        obtain ⟨f, rfl⟩ : ∃ f, fuel = f + 3 := ⟨fuel - 3, by omega⟩
        rw [next_executing_term_succ, hk]
        interval_cases e
        · rw [if_neg (by simpa using h1), next_executing_term_succ]
          rw [if_neg (by simpa using h2), next_executing_term_succ]
          rw [if_pos (by simpa using h3)]; rfl
        · rw [if_neg (by simpa using h1), next_executing_term_succ]
          rw [if_neg (by simpa using h2), next_executing_term_succ]
          rw [if_pos (by simpa using h3)]; rfl
        · rw [if_neg (by simpa using h1), next_executing_term_succ]
          rw [if_neg (by simpa using h2), next_executing_term_succ]
          rw [if_pos (by simpa using h3)]; rfl

/-- C29 (witness): terminal 0 executes and is the only live one, so the loop
comes back to it on the third pass; in a state with no live terminal the loop
does not stop within 100 passes. -/
theorem next_executing_term_spec_witness :
    (next_executing_term 3 shell_kernel).map (fun r => r.exec_term_id) = some 0 ∧
    (next_executing_term 2 shell_kernel).map (fun r => r.exec_term_id) = none ∧
    (next_executing_term 100 { shell_kernel with processes := fun _ => 0 }).map
      (fun r => r.exec_term_id) = none :=
  ⟨by decide, by decide,
    by rw [(next_executing_term_spec { shell_kernel with processes := fun _ => 0 } 0
      (by decide) rfl).2 (fun _ _ => rfl) 100]; rfl⟩

/-! ## switch_displaying_term -/

/-- Copying `n` bytes over a copy of `n` bytes leaves the last source. -/
theorem memcpy_over (d s t : Nat → Nat) (n : Nat) :
    memcpy (memcpy d s n) (memcpy t d n) n = d := by
  funext i
  unfold memcpy
  split_ifs <;> rfl

/-- Copying back `n` bytes that were copied from there changes nothing. -/
theorem memcpy_back (d s : Nat → Nat) (n : Nat) : memcpy d (memcpy s d n) n = d := by
  funext i
  unfold memcpy
  split_ifs <;> rfl

/-- A switch to a live terminal `t` saves, loads and sets `curr_term_id`. -/
theorem switch_displaying_term_live (m : machine_t) (t : Nat) (hl : m.k.processes t ≠ 0) :
    switch_displaying_term m (t : Int) =
      ({ k := { m.k with curr_term_id := (t : Int) }
         con := load_terminal m.con (save_terminal m.con m.k.curr_term_id.toNat) t }, none) := by
  unfold switch_displaying_term
  simp only [Int.toNat_ofNat]
  rw [if_neg hl]

/-- A switch to a terminal `t` that is not live yet also marks it live, maps
its frame, makes it the executing terminal and enters its shell. -/
theorem switch_displaying_term_start (m : machine_t) (t : Nat) (hl : m.k.processes t = 0) :
    switch_displaying_term m (t : Int) =
      ({ k :=
          { m.k with
            curr_term_id := (t : Int)
            processes := set_at m.k.processes t 1
            page_directory := (create_user_4mb_page m.k.page_directory ((t : Int) + 2) 32).2
            tss_esp0 := esp0_for (t : Int)
            exec_term_id := (t : Int) }
         con := load_terminal m.con (save_terminal m.con m.k.curr_term_id.toNat) t },
        some ((m.k.pcbs (get_pcb_by_PID (t : Int))).entry, (33 <<< 22) - 4)) := by
  unfold switch_displaying_term
  simp only [Int.toNat_ofNat]
  rw [if_pos hl]

/-- C30 (counterexample): terminal 0 is displayed and live; switching to
terminal 0 overwrites its saved cursor column, 0 before, with the screen's
column 7. -/
theorem switch_displaying_term_same_counterexample :
    sample_machine.k.curr_term_id = 0 ∧ sample_machine.k.processes 0 ≠ 0 ∧
    (sample_machine.con.terms 0).x_save = 0 ∧
    ((switch_displaying_term sample_machine 0).1.con.terms 0).x_save = 7 := by
  decide

/-- C30 (amended): for live terminals `a` (displayed) and `b`, the switch to
`b` makes `b` the displayed terminal, and the switch back to `a` restores the
kernel state, the video memory, the cursor, the line buffer, its index and the
line-ready count, and leaves the saved record of `b` as it was when `b ≠ a`;
a switch to the displayed terminal `a` itself leaves the kernel state and
those six as they were, and of the saved records changes only that of `a`,
which becomes a copy of the live state: its first 128 line-buffer bytes and
4000 video bytes are those of the line buffer and the video memory, and its
cursor, line-ready count and index are the live ones. -/
theorem switch_displaying_term_round_trip (m : machine_t) (a b : Nat)
    (hcur : m.k.curr_term_id = (a : Int))
    (hla : m.k.processes a ≠ 0) (hlb : m.k.processes b ≠ 0) :
    ((switch_displaying_term m (b : Int)).1.k.curr_term_id = (b : Int) ∧
      (switch_displaying_term m (b : Int)).2 = none ∧
      (switch_displaying_term (switch_displaying_term m (b : Int)).1 (a : Int)).2 = none ∧
      (switch_displaying_term (switch_displaying_term m (b : Int)).1 (a : Int)).1.k = m.k ∧
      (switch_displaying_term (switch_displaying_term m (b : Int)).1 (a : Int)).1.con.video =
        m.con.video ∧
      (switch_displaying_term (switch_displaying_term m (b : Int)).1 (a : Int)).1.con.screen_x =
        m.con.screen_x ∧
      (switch_displaying_term (switch_displaying_term m (b : Int)).1 (a : Int)).1.con.screen_y =
        m.con.screen_y ∧
      (switch_displaying_term (switch_displaying_term m (b : Int)).1 (a : Int)).1.con.key_buff =
        m.con.key_buff ∧
      (switch_displaying_term (switch_displaying_term m (b : Int)).1 (a : Int)).1.con.buff_index =
        m.con.buff_index ∧
      (switch_displaying_term (switch_displaying_term m (b : Int)).1 (a : Int)).1.con.num_enters =
        m.con.num_enters ∧
      (b ≠ a →
        (switch_displaying_term (switch_displaying_term m (b : Int)).1 (a : Int)).1.con.terms b =
          m.con.terms b)) ∧
    ((switch_displaying_term m (a : Int)).1.k = m.k ∧
      (switch_displaying_term m (a : Int)).2 = none ∧
      (switch_displaying_term m (a : Int)).1.con.video = m.con.video ∧
      (switch_displaying_term m (a : Int)).1.con.screen_x = m.con.screen_x ∧
      (switch_displaying_term m (a : Int)).1.con.screen_y = m.con.screen_y ∧
      (switch_displaying_term m (a : Int)).1.con.key_buff = m.con.key_buff ∧
      (switch_displaying_term m (a : Int)).1.con.buff_index = m.con.buff_index ∧
      (switch_displaying_term m (a : Int)).1.con.num_enters = m.con.num_enters ∧
      (∀ j, j ≠ a → (switch_displaying_term m (a : Int)).1.con.terms j = m.con.terms j) ∧
      (switch_displaying_term m (a : Int)).1.con.terms a =
        { buff_save := memcpy (m.con.terms a).buff_save m.con.key_buff KEY_BUFF_SIZE
          vid_save := memcpy (m.con.terms a).vid_save m.con.video VID_SIZE
          x_save := m.con.screen_x
          y_save := m.con.screen_y
          enters_save := m.con.num_enters
          buff_index_save := m.con.buff_index } ∧
      (∀ i, i < 128 →
        ((switch_displaying_term m (a : Int)).1.con.terms a).buff_save i = m.con.key_buff i) ∧
      (∀ i, i < 4000 →
        ((switch_displaying_term m (a : Int)).1.con.terms a).vid_save i = m.con.video i)) := by
  have hca : m.k.curr_term_id.toNat = a := by rw [hcur]; rfl
  have hkk : ({ m.k with curr_term_id := (a : Int) } : kernel_t) = m.k := by
    rw [← hcur]
  constructor
  · rw [switch_displaying_term_live m b hlb]
    dsimp only
    rw [switch_displaying_term_live
      { k := { m.k with curr_term_id := (b : Int) }
        con := load_terminal m.con (save_terminal m.con m.k.curr_term_id.toNat) b } a hla]
    simp only [Int.toNat_ofNat, hca]
    refine ⟨trivial, trivial, trivial, hkk, ?_, ?_, ?_, ?_, ?_, ?_, ?_⟩
    · by_cases hab : b = a
      · subst hab
        simp only [load_terminal, save_terminal, set_at_same]
        funext i; unfold memcpy; split_ifs <;> rfl
      · simp only [load_terminal, save_terminal, set_at_same, set_at_other _ _ _ _ hab,
          set_at_other _ _ _ _ (Ne.symm hab)]
        funext i; unfold memcpy; split_ifs <;> rfl
    · by_cases hab : b = a
      · subst hab
        simp only [load_terminal, save_terminal, set_at_same]
      · simp only [load_terminal, save_terminal, set_at_same, set_at_other _ _ _ _ hab,
          set_at_other _ _ _ _ (Ne.symm hab)]
    · by_cases hab : b = a
      · subst hab
        simp only [load_terminal, save_terminal, set_at_same]
      · simp only [load_terminal, save_terminal, set_at_same, set_at_other _ _ _ _ hab,
          set_at_other _ _ _ _ (Ne.symm hab)]
    · by_cases hab : b = a
      · subst hab
        simp only [load_terminal, save_terminal, set_at_same]
        funext i; unfold memcpy; split_ifs <;> rfl
      · simp only [load_terminal, save_terminal, set_at_same, set_at_other _ _ _ _ hab,
          set_at_other _ _ _ _ (Ne.symm hab)]
        funext i; unfold memcpy; split_ifs <;> rfl
    · by_cases hab : b = a
      · subst hab
        simp only [load_terminal, save_terminal, set_at_same]
      · simp only [load_terminal, save_terminal, set_at_same, set_at_other _ _ _ _ hab,
          set_at_other _ _ _ _ (Ne.symm hab)]
    · by_cases hab : b = a
      · subst hab
        simp only [load_terminal, save_terminal, set_at_same]
      · simp only [load_terminal, save_terminal, set_at_same, set_at_other _ _ _ _ hab,
          set_at_other _ _ _ _ (Ne.symm hab)]
    · intro hab
      simp only [load_terminal, save_terminal, set_at_same, set_at_other _ _ _ _ hab,
        set_at_other _ _ _ _ (Ne.symm hab)]
      rcases hb : m.con.terms b with ⟨x, y, bs, vs, en, bi⟩
      congr 1
      · funext i; unfold memcpy; split_ifs <;> rfl
      · funext i; unfold memcpy; split_ifs <;> rfl
  · rw [switch_displaying_term_live m a hla]
    simp only [hca]
    refine ⟨hkk, trivial, ?_, ?_, ?_, ?_, ?_, ?_, ?_, ?_, ?_, ?_⟩
    · simp only [load_terminal, save_terminal, set_at_same]
      funext i; unfold memcpy; split_ifs <;> rfl
    · simp only [load_terminal, save_terminal, set_at_same]
    · simp only [load_terminal, save_terminal, set_at_same]
    · simp only [load_terminal, save_terminal, set_at_same]
      funext i; unfold memcpy; split_ifs <;> rfl
    · simp only [load_terminal, save_terminal, set_at_same]
    · simp only [load_terminal, save_terminal, set_at_same]
    · intro j hj
      simp only [load_terminal, save_terminal, set_at_other _ _ _ _ hj]
    · simp only [load_terminal, save_terminal, set_at_same]
    · intro i hi
      simp only [load_terminal, save_terminal, set_at_same]
      unfold memcpy KEY_BUFF_SIZE
      rw [if_pos hi]
    · intro i hi
      simp only [load_terminal, save_terminal, set_at_same]
      unfold memcpy VID_SIZE
      rw [if_pos hi]

/-- C30 (witness): terminals 0 and 1 of the sample machine; after the switch to
1 and back the cursor column is 7 again and the record of terminal 1 is the
one it had. -/
theorem switch_displaying_term_round_trip_witness :
    (switch_displaying_term (switch_displaying_term sample_machine 1).1 0).1.con.screen_x = 7 ∧
    (switch_displaying_term (switch_displaying_term sample_machine 1).1 0).1.con.terms 1 =
      sample_machine.con.terms 1 :=
  have h := (switch_displaying_term_round_trip sample_machine 0 1 rfl (by decide) (by decide)).1
  ⟨h.2.2.2.2.2.1, h.2.2.2.2.2.2.2.2.2.2 (by decide)⟩

/-! ## execute -/

/-- The search of `execute` for a free PID finds the first index among
`i .. i + n - 1` whose liveness entry is 0. -/
theorem find_pid_spec (processes : Nat → Nat) :
    ∀ n i,
      (find_pid processes n i = none ↔ ∀ j, i ≤ j → j < i + n → processes j ≠ 0) ∧
      ∀ q, find_pid processes n i = some q ↔
        (i ≤ q ∧ q < i + n ∧ processes q = 0 ∧ ∀ j, i ≤ j → j < q → processes j ≠ 0) := by
  intro n
  induction n with
  | zero =>
    intro i
    refine ⟨⟨fun _ j h1 h2 => absurd h2 (by omega), fun _ => rfl⟩, fun q => ⟨?_, ?_⟩⟩
    · intro h
      exact absurd h (by simp [find_pid])
    · rintro ⟨h1, h2, _⟩
      omega
  | succ n ih =>
    intro i
    rw [find_pid]
    by_cases h0 : processes i = 0
    · rw [if_pos h0]
      refine ⟨⟨fun h => absurd h (by simp), fun h => absurd h0 (h i (le_refl _) (by omega))⟩,
        fun q => ⟨?_, ?_⟩⟩
      · intro h
        obtain rfl : i = q := Option.some.inj h
        exact ⟨le_refl _, by omega, h0, fun j h1 h2 => absurd h2 (by omega)⟩
      · rintro ⟨h1, _, _, h4⟩
        by_cases hq : i = q
        · rw [hq]
        · exact absurd h0 (h4 i (le_refl _) (by omega))
    · rw [if_neg h0]
      refine ⟨?_, fun q => ?_⟩
      · rw [(ih (i + 1)).1]
        constructor
        · intro h j h1 h2
          by_cases hj : j = i
          · rw [hj]; exact h0
          · exact h j (by omega) (by omega)
        · intro h j h1 h2
          exact h j (by omega) (by omega)
      · rw [(ih (i + 1)).2 q]
        constructor
        · rintro ⟨h1, h2, h3, h4⟩
          refine ⟨by omega, by omega, h3, ?_⟩
          intro j hj1 hj2
          by_cases hj : j = i
          · rw [hj]; exact h0
          · exact h4 j (by omega) hj2
        · rintro ⟨h1, h2, h3, h4⟩
          have hne : q ≠ i := fun h => h0 (h ▸ h3)
          exact ⟨by omega, by omega, h3, fun j hj1 hj2 => h4 j (by omega) hj2⟩

/-- The ELF check of `execute` passes exactly when the four bytes are the
magic number. -/
theorem elf_check_iff (b : buffer) :
    strncmp b (cstr elf_magic) ELF_SIZE = 0 ↔ ∀ j, j < 4 → b j = cstr elf_magic j := by
  unfold strncmp ELF_SIZE
  rw [strncmp_from_eq_zero_iff]
  constructor
  · intro h
    have h0 : b 0 = cstr elf_magic 0 := h 0 (le_refl _) (by omega) (fun m _ hm => absurd hm (by omega))
    have h1 : b 1 = cstr elf_magic 1 := by
      refine h 1 (by omega) (by omega) ?_
      intro m _ hm
      obtain rfl : m = 0 := by omega
      rw [h0]; decide
    have h2 : b 2 = cstr elf_magic 2 := by
      refine h 2 (by omega) (by omega) ?_
      intro m _ hm
      have hm2 : m = 0 ∨ m = 1 := by omega
      rcases hm2 with rfl | rfl
      · rw [h0]; decide
      · rw [h1]; decide
    have h3 : b 3 = cstr elf_magic 3 := by
      refine h 3 (by omega) (by omega) ?_
      intro m _ hm
      have hm2 : m = 0 ∨ m = 1 ∨ m = 2 := by omega
      rcases hm2 with rfl | rfl | rfl
      · rw [h0]; decide
      · rw [h1]; decide
      · rw [h2]; decide
    intro j hj
    have hj2 : j = 0 ∨ j = 1 ∨ j = 2 ∨ j = 3 := by omega
    rcases hj2 with rfl | rfl | rfl | rfl
    · exact h0
    · exact h1
    · exact h2
    · exact h3
  · intro h j _ hj _
    exact h j (by omega)

/-- Once the four header bytes of a file could be read, the read of the whole
file returns `bytes_to_read`. -/
theorem read_data_whole (fs : fs_t) (inode : Nat) (buf buf2 : buffer)
    (h : (read_data fs inode 0 buf ELF_SIZE).1 ≠ -1) :
    (read_data fs inode 0 buf2 (toUInt32 (toInt32 (fs.inodes inode).length))).1 =
      toInt32 (fs.inodes inode).length := by
  obtain ⟨h1, _, h3⟩ := read_valid_of_ne fs inode 0 buf ELF_SIZE h
  have e : toUInt32 (toInt32 (fs.inodes inode).length) = (fs.inodes inode).length % WORD := by
    unfold toUInt32 toInt32 WORD
    split_ifs <;> omega
  have hv : read_valid fs inode 0 ((fs.inodes inode).length % WORD) := by
    refine ⟨h1, ?_, h3⟩
    rw [Nat.zero_add, Nat.mod_mod]
    exact Nat.mod_le _ _
  rw [e, (read_data_of_valid fs inode 0 buf2 _ hv).1]
  unfold toInt32
  rw [Nat.mod_mod]

/-- The `NULL` command is refused. -/
theorem execute_null (parse_command : List Nat → List Nat × List Nat) (fs : fs_t)
    (k : kernel_t) (fuel esp ebp : Nat) (stack : buffer) :
    execute parse_command fs k fuel esp ebp stack none = some (execute_result.ret (-1) k) :=
  rfl

/-- A command whose program is not a readable ELF file is refused. -/
theorem execute_invalid (parse_command : List Nat → List Nat × List Nat) (fs : fs_t)
    (k : kernel_t) (fuel esp ebp : Nat) (stack : buffer) (c : List Nat)
    (h : (read_dentry_by_name fs (parse_command c).1 local_dentry).1 = -1 ∨
      (read_data fs (read_dentry_by_name fs (parse_command c).1 local_dentry).2.inode_index 0
        zero_buf ELF_SIZE).1 = -1 ∨
      ∃ j, j < 4 ∧
        (read_data fs (read_dentry_by_name fs (parse_command c).1 local_dentry).2.inode_index 0
          zero_buf ELF_SIZE).2 j ≠ cstr elf_magic j) :
    execute parse_command fs k fuel esp ebp stack (some c) =
      some (execute_result.ret (-1) k) := by
  unfold execute
  simp only []
  by_cases h1 : (read_dentry_by_name fs (parse_command c).1 local_dentry).1 = -1
  · rw [if_pos h1]
  · rw [if_neg h1]
    by_cases h2 : (read_data fs
        (read_dentry_by_name fs (parse_command c).1 local_dentry).2.inode_index 0
        zero_buf ELF_SIZE).1 = -1
    · rw [if_pos h2]
    · rw [if_neg h2]
      rcases h with h | h | ⟨j, hj, hne⟩
      · exact absurd h h1
      · exact absurd h h2
      · rw [if_pos]
        intro h0
        exact hne ((elf_check_iff _).mp h0 j hj)

/-- A command naming a readable ELF file: what `execute` does in terms of the
PID search and the walk to the leaf PCB. -/
theorem execute_valid (parse_command : List Nat → List Nat × List Nat) (fs : fs_t)
    (k : kernel_t) (fuel esp ebp : Nat) (stack : buffer) (c : List Nat)
    (h1 : (read_dentry_by_name fs (parse_command c).1 local_dentry).1 ≠ -1)
    (h2 : (read_data fs (read_dentry_by_name fs (parse_command c).1 local_dentry).2.inode_index
      0 zero_buf ELF_SIZE).1 ≠ -1)
    (h3 : ∀ j, j < 4 →
      (read_data fs (read_dentry_by_name fs (parse_command c).1 local_dentry).2.inode_index 0
        zero_buf ELF_SIZE).2 j = cstr elf_magic j) :
    (find_pid k.processes (MAX_NUM_PROCESSES - 3) 3 = none →
      execute parse_command fs k fuel esp ebp stack (some c) =
        some (execute_result.ret 0 k)) ∧
    (∀ q, find_pid k.processes (MAX_NUM_PROCESSES - 3) 3 = some q →
      (get_current_executing_pcb k fuel = none →
        execute parse_command fs k fuel esp ebp stack (some c) = none) ∧
      ∀ prev, get_current_executing_pcb k fuel = some prev →
        execute parse_command fs k fuel esp ebp stack (some c) =
          some (execute_result.launch
            { k with
              processes := set_at k.processes q 1
              page_directory := (create_user_4mb_page k.page_directory ((q : Int) + 2) 32).2
              pcbs := new_task_pcbs k.pcbs q prev (parse_command c).2
                (le32 (read_data fs
                  (read_dentry_by_name fs (parse_command c).1 local_dentry).2.inode_index
                  ENTRY_POINT_OFFSET stack 4).2) esp ebp
              tss_esp0 := esp0_for (q : Int) }
            (le32 (read_data fs
              (read_dentry_by_name fs (parse_command c).1 local_dentry).2.inode_index
              ENTRY_POINT_OFFSET stack 4).2)
            ((33 <<< 22) - 4))) := by
  have h4 : ¬ strncmp (read_data fs
      (read_dentry_by_name fs (parse_command c).1 local_dentry).2.inode_index 0
      zero_buf ELF_SIZE).2 (cstr elf_magic) ELF_SIZE ≠ 0 :=
    not_not.mpr ((elf_check_iff _).mpr h3)
  have h5 := read_data_whole fs
    (read_dentry_by_name fs (parse_command c).1 local_dentry).2.inode_index zero_buf zero_buf h2
  constructor
  · intro hf
    unfold execute
    simp only []
    rw [if_neg h1, if_neg h2, if_neg h4, hf]
  · intro q hq
    have hr := ((find_pid_spec k.processes (MAX_NUM_PROCESSES - 3) 3).2 q).mp hq
    have hq1 : 3 ≤ q := hr.1
    have hq2 : q ≤ 6 := by have := hr.2.1; unfold MAX_NUM_PROCESSES at this; omega
    have hpage : (create_user_4mb_page k.page_directory ((q : Int) + 2) 32).1 = 0 := by
      unfold create_user_4mb_page PAGE_TABLE_SIZE
      rw [if_neg (by omega)]
    constructor
    · intro hn
      unfold execute
      simp only []
      rw [if_neg h1, if_neg h2, if_neg h4, hq]
      simp only []
      rw [if_neg (not_not.mpr hpage), if_neg (not_not.mpr h5)]
      show (match get_current_executing_pcb k fuel with
        | none => none
        | some prev_pcb => _) = _
      rw [hn]
    · intro prev hp
      unfold execute
      simp only []
      rw [if_neg h1, if_neg h2, if_neg h4, hq]
      simp only []
      rw [if_neg (not_not.mpr hpage), if_neg (not_not.mpr h5)]
      show (match get_current_executing_pcb k fuel with
        | none => none
        | some prev_pcb => _) = _
      rw [hp]

/-- The PCB of the new task after the PCB creation of `execute`. -/
theorem new_task_pcbs_new (pcbs : Nat → pcb_t) (q prev : Nat) (args : List Nat)
    (entry_point esp ebp : Nat) (hq : 3 ≤ q) :
    (new_task_pcbs pcbs q prev args entry_point esp ebp (get_pcb_by_PID (q : Int))).process_id =
      q % 256 ∧
    (new_task_pcbs pcbs q prev args entry_point esp ebp (get_pcb_by_PID (q : Int))).parent_pcb =
      prev ∧
    (new_task_pcbs pcbs q prev args entry_point esp ebp (get_pcb_by_PID (q : Int))).child_pcb =
      0 ∧
    (new_task_pcbs pcbs q prev args entry_point esp ebp (get_pcb_by_PID (q : Int))).parent_esp =
      esp ∧
    (new_task_pcbs pcbs q prev args entry_point esp ebp (get_pcb_by_PID (q : Int))).parent_ebp =
      ebp := by
  have h3 : ¬ q < 3 := by omega
  unfold new_task_pcbs
  simp only []
  generalize get_pcb_by_PID (q : Int) = a
  rw [if_neg h3, set_at_same]
  by_cases hp : a = prev
  · subst hp
    rw [set_at_same, set_at_same, set_at_same]
    exact ⟨rfl, rfl, rfl, rfl, rfl⟩
  · rw [set_at_other _ _ _ _ hp, set_at_same, set_at_same]
    exact ⟨rfl, rfl, rfl, rfl, rfl⟩

/-- The PCB of the parent after the PCB creation of `execute`: only its child
link changed. -/
theorem new_task_pcbs_prev (pcbs : Nat → pcb_t) (q prev : Nat) (args : List Nat)
    (entry_point esp ebp : Nat) (hq : 3 ≤ q) (hp : prev ≠ get_pcb_by_PID (q : Int)) :
    new_task_pcbs pcbs q prev args entry_point esp ebp prev =
      { pcbs prev with child_pcb := get_pcb_by_PID (q : Int) } := by
  have h3 : ¬ q < 3 := by omega
  unfold new_task_pcbs
  simp only []
  rw [if_neg h3, set_at_other _ _ _ _ hp, set_at_same, set_at_other _ _ _ _ hp,
    set_at_other _ _ _ _ hp]

/-- The other PCBs are as they were. -/
theorem new_task_pcbs_other (pcbs : Nat → pcb_t) (q prev : Nat) (args : List Nat)
    (entry_point esp ebp : Nat) (hq : 3 ≤ q) (a : Nat) (ha : a ≠ get_pcb_by_PID (q : Int))
    (hp : a ≠ prev) :
    new_task_pcbs pcbs q prev args entry_point esp ebp a = pcbs a := by
  have h3 : ¬ q < 3 := by omega
  unfold new_task_pcbs
  simp only []
  rw [if_neg h3, set_at_other _ _ _ _ ha, set_at_other _ _ _ _ hp,
    set_at_other _ _ _ _ ha, set_at_other _ _ _ _ ha]

/-- C21: for a command whose program name resolves, whose first four bytes
can be read and are 7F 45 4C 46: when PIDs 3..6 are all live `execute` returns
0 and the state is the one it was given; when `q` is the smallest PID in 3..6
whose liveness entry is 0 (and the walk to the leaf PCB ends), `execute`
enters the new program with entry `q` of the liveness table set to 1, the
other entries unchanged, and `q` stored as the PID of the PCB of `q`. -/
theorem execute_assigns_pid (parse_command : List Nat → List Nat × List Nat) (fs : fs_t)
    (k : kernel_t) (fuel esp ebp : Nat) (stack : buffer) (c : List Nat)
    (h1 : (read_dentry_by_name fs (parse_command c).1 local_dentry).1 ≠ -1)
    (h2 : (read_data fs (read_dentry_by_name fs (parse_command c).1 local_dentry).2.inode_index
      0 zero_buf ELF_SIZE).1 ≠ -1)
    (h3 : ∀ j, j < 4 →
      (read_data fs (read_dentry_by_name fs (parse_command c).1 local_dentry).2.inode_index 0
        zero_buf ELF_SIZE).2 j = cstr elf_magic j) :
    ((∀ i, 3 ≤ i → i ≤ 6 → k.processes i ≠ 0) →
      execute parse_command fs k fuel esp ebp stack (some c) =
        some (execute_result.ret 0 k)) ∧
    (∀ q, 3 ≤ q → q ≤ 6 → k.processes q = 0 →
      (∀ i, 3 ≤ i → i < q → k.processes i ≠ 0) →
      ∀ prev, get_current_executing_pcb k fuel = some prev →
        ∃ k1 eip sp,
          execute parse_command fs k fuel esp ebp stack (some c) =
            some (execute_result.launch k1 eip sp) ∧
          k1.processes = set_at k.processes q 1 ∧
          (k1.pcbs (get_pcb_by_PID (q : Int))).process_id = q) := by
  have hv := execute_valid parse_command fs k fuel esp ebp stack c h1 h2 h3
  constructor
  · intro hall
    refine hv.1 ((find_pid_spec k.processes (MAX_NUM_PROCESSES - 3) 3).1.mpr ?_)
    intro j hj1 hj2
    exact hall j hj1 (by unfold MAX_NUM_PROCESSES at hj2; omega)
  · intro q hq1 hq2 hq0 hmin prev hprev
    have hf : find_pid k.processes (MAX_NUM_PROCESSES - 3) 3 = some q :=
      ((find_pid_spec k.processes (MAX_NUM_PROCESSES - 3) 3).2 q).mpr
        ⟨hq1, by unfold MAX_NUM_PROCESSES; omega, hq0, hmin⟩
    refine ⟨_, _, _, (hv.2 q hf).2 prev hprev, rfl, ?_⟩
    dsimp only
    rw [(new_task_pcbs_new k.pcbs q prev (parse_command c).2 _ esp ebp hq1).1]
    exact Nat.mod_eq_of_lt (by omega)

/-- C21 (witness): `shell` on the sample image; with PIDs 0 and 3 live the new
task gets PID 4, and with PIDs 3..6 all live the call returns 0. -/
theorem execute_assigns_pid_witness :
    (∃ k1 eip sp,
      execute split_at_space elf_fs sample_kernel 8 0x7FBF00 0x7FBF40 zero_buf
          (some (bytes "shell")) = some (execute_result.launch k1 eip sp) ∧
        k1.processes = set_at sample_kernel.processes 4 1 ∧
        (k1.pcbs (get_pcb_by_PID ((4 : Nat) : Int))).process_id = 4) ∧
    execute split_at_space elf_fs { sample_kernel with processes := fun _ => 1 } 8
        0x7FBF00 0x7FBF40 zero_buf (some (bytes "shell")) =
      some (execute_result.ret 0 { sample_kernel with processes := fun _ => 1 }) :=
  ⟨(execute_assigns_pid split_at_space elf_fs sample_kernel 8 0x7FBF00 0x7FBF40 zero_buf
      (bytes "shell") (by decide) (by decide) (by decide)).2 4 (by decide) (by decide)
      (by decide) (by decide) 0x7FC000 (by decide),
    (execute_assigns_pid split_at_space elf_fs { sample_kernel with processes := fun _ => 1 }
      8 0x7FBF00 0x7FBF40 zero_buf (bytes "shell") (by decide) (by decide) (by decide)).1
      (fun _ _ _ => Nat.one_ne_zero)⟩

/-- C22: `execute` returns -1 and hands back the state it was given (liveness
table, PCBs and page directory included) when the command is `NULL`, when the
program name resolves to no directory entry, when the first four bytes of the
file cannot be read, and when one of those bytes differs from 7F 45 4C 46. -/
theorem execute_rejects (parse_command : List Nat → List Nat × List Nat) (fs : fs_t)
    (k : kernel_t) (fuel esp ebp : Nat) (stack : buffer) (command : Option (List Nat))
    (h : command = none ∨
      ∃ c, command = some c ∧
        ((read_dentry_by_name fs (parse_command c).1 local_dentry).1 = -1 ∨
          (read_data fs (read_dentry_by_name fs (parse_command c).1 local_dentry).2.inode_index
            0 zero_buf ELF_SIZE).1 = -1 ∨
          ∃ j, j < 4 ∧
            (read_data fs
              (read_dentry_by_name fs (parse_command c).1 local_dentry).2.inode_index 0
              zero_buf ELF_SIZE).2 j ≠ cstr elf_magic j)) :
    execute parse_command fs k fuel esp ebp stack command =
      some (execute_result.ret (-1) k) := by
  rcases h with rfl | ⟨c, rfl, h⟩
  · exact execute_null parse_command fs k fuel esp ebp stack
  · exact execute_invalid parse_command fs k fuel esp ebp stack c h

/-- C22 (witness): the text file `frame0.txt` of the sample image starts with
0x2E, not 0x7F. -/
theorem execute_rejects_witness :
    execute split_at_space elf_fs sample_kernel 8 0x7FBF00 0x7FBF40 zero_buf
        (some (bytes "frame0.txt")) = some (execute_result.ret (-1) sample_kernel) :=
  execute_rejects split_at_space elf_fs sample_kernel 8 0x7FBF00 0x7FBF40 zero_buf
    (some (bytes "frame0.txt"))
    (Or.inr ⟨bytes "frame0.txt", rfl, Or.inr (Or.inr ⟨0, by decide, by decide⟩)⟩)

/-! ## The task tree -/

/-- One step of the walk to the leaf. -/
theorem leaf_from_succ (pcbs : Nat → pcb_t) (fuel a : Nat) :
    leaf_from pcbs (fuel + 1) a =
      if (pcbs a).child_pcb ≠ 0 then leaf_from pcbs fuel (pcbs a).child_pcb else some a :=
  rfl

/-- The walk to the leaf gives the same PCB for every bound that lets it end. -/
theorem leaf_from_det (pcbs : Nat → pcb_t) :
    ∀ f f' a l l', leaf_from pcbs f a = some l → leaf_from pcbs f' a = some l' → l = l' := by
  intro f
  induction f with
  | zero => intro f' a l l' h; exact absurd h (by simp [leaf_from])
  | succ f ih =>
    intro f' a l l' h h'
    cases f' with
    | zero => exact absurd h' (by simp [leaf_from])
    | succ f' =>
      rw [leaf_from_succ] at h h'
      by_cases hc : (pcbs a).child_pcb ≠ 0
      · rw [if_pos hc] at h h'
        exact ih _ _ _ _ h h'
      · rw [if_neg hc] at h h'
        exact Option.some.inj (h.symm.trans h')

/-- A larger bound gives the same leaf. -/
theorem leaf_from_mono (pcbs : Nat → pcb_t) :
    ∀ f a l, leaf_from pcbs f a = some l → ∀ f', f ≤ f' → leaf_from pcbs f' a = some l := by
  intro f
  induction f with
  | zero => intro a l h; exact absurd h (by simp [leaf_from])
  | succ f ih =>
    intro a l h f' hf
    obtain ⟨g, rfl⟩ : ∃ g, f' = g + 1 := ⟨f' - 1, by omega⟩
    rw [leaf_from_succ] at h ⊢
    by_cases hc : (pcbs a).child_pcb ≠ 0
    · rw [if_pos hc] at h ⊢
      exact ih _ _ h g (by omega)
    · rw [if_neg hc] at h ⊢
      exact h

/-- The leaf has no child. -/
theorem leaf_from_child (pcbs : Nat → pcb_t) :
    ∀ f a l, leaf_from pcbs f a = some l → (pcbs l).child_pcb = 0 := by
  intro f
  induction f with
  | zero => intro a l h; exact absurd h (by simp [leaf_from])
  | succ f ih =>
    intro a l h
    rw [leaf_from_succ] at h
    by_cases hc : (pcbs a).child_pcb ≠ 0
    · rw [if_pos hc] at h
      exact ih _ _ h
    · rw [if_neg hc] at h
      obtain rfl : a = l := Option.some.inj h
      exact not_not.mp hc

/-- The walk reads the child links only. -/
theorem leaf_from_congr (pcbs pcbs' : Nat → pcb_t)
    (h : ∀ a, (pcbs' a).child_pcb = (pcbs a).child_pcb) :
    ∀ f a, leaf_from pcbs' f a = leaf_from pcbs f a := by
  intro f
  induction f with
  | zero => intro a; rfl
  | succ f ih =>
    intro a
    rw [leaf_from_succ, leaf_from_succ, h a, ih]

/-- In a well-formed tree the walk from a live PID ends at a live PID. -/
theorem leaf_from_live (A : Nat → Nat) (pcbs : Nat → pcb_t) (processes d : Nat → Nat)
    (hw : links_wf A pcbs processes d) :
    ∀ f p, p ≤ 6 → processes p ≠ 0 → ∀ l, leaf_from pcbs f (A p) = some l →
      ∃ x, x ≤ 6 ∧ processes x ≠ 0 ∧ l = A x := by
  intro f
  induction f with
  | zero => intro p _ _ l h; exact absurd h (by simp [leaf_from])
  | succ f ih =>
    intro p hp hl l h
    rw [leaf_from_succ] at h
    by_cases hc : (pcbs (A p)).child_pcb ≠ 0
    · rw [if_pos hc] at h
      obtain ⟨q, _, hq2, hq3, hq4, _⟩ := hw.2.2 p hp hl hc
      rw [hq4] at h
      exact ih q hq2 hq3 l h
    · rw [if_neg hc] at h
      exact ⟨p, hp, hl, (Option.some.inj h).symm⟩

/-- The walk after `execute` has linked a new PID `q` under the leaf `x`: it
ends at `q`, one step later. -/
theorem leaf_from_extend (A : Nat → Nat) (pcbs pcbs' : Nat → pcb_t) (processes d : Nat → Nat)
    (hinj : ∀ p q, p ≤ 6 → q ≤ 6 → A p = A q → p = q) (hnz : ∀ p, p ≤ 6 → A p ≠ 0)
    (hw : links_wf A pcbs processes d) (x q : Nat) (hq : q ≤ 6)
    (hq0 : processes q = 0)
    (h1 : (pcbs' (A x)).child_pcb = A q) (h2 : (pcbs' (A q)).child_pcb = 0)
    (h3 : ∀ a, a ≠ A x → a ≠ A q → (pcbs' a).child_pcb = (pcbs a).child_pcb) :
    ∀ f p, p ≤ 6 → processes p ≠ 0 → leaf_from pcbs f (A p) = some (A x) →
      leaf_from pcbs' (f + 1) (A p) = some (A q) := by
  intro f
  induction f with
  | zero => intro p _ _ h; exact absurd h (by simp [leaf_from])
  | succ f ih =>
    intro p hp hl h
    have hleaf := leaf_from_child pcbs _ _ _ h
    rw [leaf_from_succ] at h
    by_cases hc : (pcbs (A p)).child_pcb ≠ 0
    · rw [if_pos hc] at h
      obtain ⟨q', _, hq2, hq3, hq4, _⟩ := hw.2.2 p hp hl hc
      have hpx : A p ≠ A x := fun e => hc (by rw [e]; exact hleaf)
      have hpq : A p ≠ A q := fun e => hl (by rw [hinj p q hp hq e]; exact hq0)
      rw [leaf_from_succ, h3 _ hpx hpq, if_pos hc, hq4]
      rw [hq4] at h
      exact ih q' hq2 hq3 h
    · rw [if_neg hc] at h
      have e : A p = A x := Option.some.inj h
      rw [leaf_from_succ, e, h1, if_pos (hnz q hq), leaf_from_succ, h2]
      rfl

/-- The walk after `halt` has unlinked the leaf `x` from its parent `p0`: it
ends at `p0`. -/
theorem leaf_from_shrink (A : Nat → Nat) (pcbs pcbs' : Nat → pcb_t) (processes d : Nat → Nat)
    (hinj : ∀ p q, p ≤ 6 → q ≤ 6 → A p = A q → p = q)
    (hw : links_wf A pcbs processes d) (x p0 : Nat) (hx : x ≤ 6) (hp0 : p0 ≤ 6)
    (hpar : (pcbs (A x)).parent_pcb = A p0)
    (h1 : (pcbs' (A p0)).child_pcb = 0)
    (h3 : ∀ a, a ≠ A p0 → (pcbs' a).child_pcb = (pcbs a).child_pcb) :
    ∀ f p, p ≤ 6 → processes p ≠ 0 → p ≠ x → leaf_from pcbs f (A p) = some (A x) →
      leaf_from pcbs' f (A p) = some (A p0) := by
  intro f
  induction f with
  | zero => intro p _ _ _ h; exact absurd h (by simp [leaf_from])
  | succ f ih =>
    intro p hp hl hpx h
    rw [leaf_from_succ] at h ⊢
    by_cases hpp : p = p0
    · subst hpp
      rw [h1]
      rfl
    · have hne : A p ≠ A p0 := fun e => hpp (hinj p p0 hp hp0 e)
      rw [h3 _ hne]
      by_cases hc : (pcbs (A p)).child_pcb ≠ 0
      · rw [if_pos hc] at h ⊢
        obtain ⟨q', _, hq2, hq3, hq4, hq5⟩ := hw.2.2 p hp hl hc
        rw [hq4] at h ⊢
        have hqx : q' ≠ x := by
          intro e
          rw [e, hpar] at hq5
          exact hpp (hinj p p0 hp hp0 hq5.symm)
        exact ih q' hq2 hq3 hqx h
      · rw [if_neg hc] at h
        exact absurd (hinj p x hp hx (Option.some.inj h)) hpx

/-- The shape of the tree depends on the PID and the two links of each PCB
only. -/
theorem links_wf_congr (A : Nat → Nat) (pcbs pcbs' : Nat → pcb_t) (processes d : Nat → Nat)
    (h : ∀ a, (pcbs' a).process_id = (pcbs a).process_id ∧
      (pcbs' a).parent_pcb = (pcbs a).parent_pcb ∧ (pcbs' a).child_pcb = (pcbs a).child_pcb)
    (hw : links_wf A pcbs processes d) : links_wf A pcbs' processes d := by
  refine ⟨?_, ?_, ?_⟩
  · intro t ht
    rw [(h (A t)).1, (h (A t)).2.1, (h (A t)).2.2]
    exact hw.1 t ht
  · intro q h1 h2 h3
    obtain ⟨e1, p, hp, hl, e2, e3, e4⟩ := hw.2.1 q h1 h2 h3
    refine ⟨by rw [(h (A q)).1]; exact e1, p, hp, hl, ?_, ?_, e4⟩
    · rw [(h (A q)).2.1]; exact e2
    · rw [(h (A p)).2.2]; exact e3
  · intro p hp hl hc
    rw [(h (A p)).2.2] at hc ⊢
    obtain ⟨q, h1, h2, h3, e1, e2⟩ := hw.2.2 p hp hl hc
    exact ⟨q, h1, h2, h3, e1, by rw [(h (A q)).2.1]; exact e2⟩

/-- Starting the shell of a terminal that was not live keeps the shape. -/
theorem links_wf_start (A : Nat → Nat) (pcbs : Nat → pcb_t) (processes d : Nat → Nat)
    (hw : links_wf A pcbs processes d) (t : Nat) (ht : t ≤ 2) (h0 : processes t = 0) :
    links_wf A pcbs (set_at processes t 1) d := by
  have live : ∀ p, processes p ≠ 0 → set_at processes t 1 p ≠ 0 := by
    intro p hp
    by_cases e : p = t
    · rw [e, set_at_same]; decide
    · rw [set_at_other _ _ _ _ e]; exact hp
  refine ⟨?_, ?_, ?_⟩
  · intro s hs
    refine ⟨(hw.1 s hs).1, (hw.1 s hs).2.1, ?_⟩
    intro hz
    by_cases e : s = t
    · rw [e]; exact (hw.1 t ht).2.2 h0
    · rw [set_at_other _ _ _ _ e] at hz
      exact (hw.1 s hs).2.2 hz
  · intro q h1 h2 h3
    rw [set_at_other _ _ _ _ (by omega)] at h3
    obtain ⟨e1, p, hp, hl, e2, e3, e4⟩ := hw.2.1 q h1 h2 h3
    exact ⟨e1, p, hp, live p hl, e2, e3, e4⟩
  · intro p hp hl hc
    by_cases e : p = t
    · rw [e] at hc
      exact absurd ((hw.1 t ht).2.2 h0) hc
    · rw [set_at_other _ _ _ _ e] at hl
      obtain ⟨q, h1, h2, h3, e1, e2⟩ := hw.2.2 p hp hl hc
      exact ⟨q, h1, h2, live q h3, e1, e2⟩

/-- Linking a new PID `q` under a live leaf `x` keeps the shape. -/
theorem links_wf_execute (A : Nat → Nat) (pcbs pcbs' : Nat → pcb_t) (processes d : Nat → Nat)
    (hinj : ∀ p q, p ≤ 6 → q ≤ 6 → A p = A q → p = q) (hnz : ∀ p, p ≤ 6 → A p ≠ 0)
    (hw : links_wf A pcbs processes d) (x q : Nat) (hx : x ≤ 6) (hlx : processes x ≠ 0)
    (hcx : (pcbs (A x)).child_pcb = 0) (hq1 : 3 ≤ q) (hq2 : q ≤ 6) (hq0 : processes q = 0)
    (hnew : (pcbs' (A q)).process_id = q ∧ (pcbs' (A q)).parent_pcb = A x ∧
      (pcbs' (A q)).child_pcb = 0)
    (hpar : (pcbs' (A x)).process_id = (pcbs (A x)).process_id ∧
      (pcbs' (A x)).parent_pcb = (pcbs (A x)).parent_pcb ∧ (pcbs' (A x)).child_pcb = A q)
    (ho : ∀ a, a ≠ A x → a ≠ A q → pcbs' a = pcbs a) :
    links_wf A pcbs' (set_at processes q 1) (set_at d q (d x + 1)) := by
  have hxq : x ≠ q := fun e => hlx (e ▸ hq0)
  have live : ∀ p, processes p ≠ 0 → set_at processes q 1 p ≠ 0 := by
    intro p hp
    by_cases e : p = q
    · rw [e, set_at_same]; decide
    · rw [set_at_other _ _ _ _ e]; exact hp
  have hAq : ∀ p, p ≤ 6 → processes p ≠ 0 → A p ≠ A q := by
    intro p hp hl e
    exact hl (hinj p q hp hq2 e ▸ hq0)
  refine ⟨?_, ?_, ?_⟩
  · intro t ht
    have htq : t ≠ q := by omega
    have hAtq : A t ≠ A q := fun e => htq (hinj t q (by omega) hq2 e)
    by_cases e : t = x
    · rw [e, hpar.1, hpar.2.1, ← e]
      refine ⟨(hw.1 t ht).1, (hw.1 t ht).2.1, ?_⟩
      intro hz
      rw [set_at_other _ _ _ _ htq, e] at hz
      exact absurd hz hlx
    · have hAtx : A t ≠ A x := fun e2 => e (hinj t x (by omega) hx e2)
      rw [ho _ hAtx hAtq, set_at_other _ _ _ _ htq]
      exact hw.1 t ht
  · intro r h1 h2 h3
    by_cases e : r = q
    · subst e
      refine ⟨hnew.1, x, hx, live x hlx, hnew.2.1, hpar.2.2, ?_⟩
      rw [set_at_same, set_at_other _ _ _ _ hxq]
      omega
    · rw [set_at_other _ _ _ _ e] at h3
      obtain ⟨e1, p, hp, hl, e2, e3, e4⟩ := hw.2.1 r h1 h2 h3
      have hArq : A r ≠ A q := hAq r h2 h3
      have hpq : p ≠ q := fun e5 => hl (e5 ▸ hq0)
      have hpx : p ≠ x := by
        intro e5
        rw [e5, hcx] at e3
        exact hnz r h2 e3.symm
      have hApx : A p ≠ A x := fun e5 => hpx (hinj p x hp hx e5)
      have hpid : (pcbs' (A r)).process_id = r ∧ (pcbs' (A r)).parent_pcb = A p := by
        by_cases e6 : r = x
        · rw [e6, hpar.1, hpar.2.1, ← e6]; exact ⟨e1, e2⟩
        · rw [ho _ (fun e7 => e6 (hinj r x h2 hx e7)) hArq]; exact ⟨e1, e2⟩
      refine ⟨hpid.1, p, hp, live p hl, hpid.2, ?_, ?_⟩
      · rw [ho _ hApx (hAq p hp hl)]; exact e3
      · rw [set_at_other _ _ _ _ hpq, set_at_other _ _ _ _ e]; exact e4
  · intro p hp hl hc
    by_cases e : p = q
    · rw [e, hnew.2.2] at hc
      exact absurd rfl hc
    · rw [set_at_other _ _ _ _ e] at hl
      by_cases e2 : p = x
      · rw [e2, hpar.2.2]
        exact ⟨q, hq1, hq2, by rw [set_at_same]; decide, rfl, hnew.2.1⟩
      · have hApx : A p ≠ A x := fun e5 => e2 (hinj p x hp hx e5)
        rw [ho _ hApx (hAq p hp hl)] at hc ⊢
        obtain ⟨r, h1, h2, h3, e3, e4⟩ := hw.2.2 p hp hl hc
        refine ⟨r, h1, h2, live r h3, e3, ?_⟩
        by_cases hrx : r = x
        · rw [hrx, hpar.2.1, ← hrx]
          exact e4
        · rw [ho _ (fun e5 => hrx (hinj r x h2 hx e5)) (hAq r h2 h3)]
          exact e4

/-- Unlinking the live leaf `x` from its parent `p0` and clearing its liveness
entry keeps the shape. -/
theorem links_wf_halt (A : Nat → Nat) (pcbs pcbs' : Nat → pcb_t) (processes d : Nat → Nat)
    (hinj : ∀ p q, p ≤ 6 → q ≤ 6 → A p = A q → p = q) (hnz : ∀ p, p ≤ 6 → A p ≠ 0)
    (hw : links_wf A pcbs processes d) (x p0 : Nat) (hx1 : 3 ≤ x) (hx2 : x ≤ 6)
    (hlx : processes x ≠ 0) (hcx : (pcbs (A x)).child_pcb = 0) (hp0 : p0 ≤ 6)
    (hpar : (pcbs (A x)).parent_pcb = A p0)
    (hsame : ∀ a, (pcbs' a).process_id = (pcbs a).process_id ∧
      (pcbs' a).parent_pcb = (pcbs a).parent_pcb)
    (hchild : ∀ a, a ≠ A p0 → (pcbs' a).child_pcb = (pcbs a).child_pcb)
    (hzero : (pcbs' (A p0)).child_pcb = 0) :
    links_wf A pcbs' (set_at processes x 0) d := by
  obtain ⟨_, p, hp, hlp, e2, e3, e4⟩ := hw.2.1 x hx1 hx2 hlx
  obtain rfl : p = p0 := hinj p p0 hp hp0 (e2.symm.trans hpar)
  have hpx : p ≠ x := fun e => by rw [e] at e4; omega
  have live : ∀ r, r ≠ x → processes r ≠ 0 → set_at processes x 0 r ≠ 0 := by
    intro r hr hl
    rw [set_at_other _ _ _ _ hr]; exact hl
  have was : ∀ r, set_at processes x 0 r ≠ 0 → r ≠ x ∧ processes r ≠ 0 := by
    intro r hl
    by_cases e : r = x
    · rw [e, set_at_same] at hl; exact absurd rfl hl
    · rw [set_at_other _ _ _ _ e] at hl; exact ⟨e, hl⟩
  refine ⟨?_, ?_, ?_⟩
  · intro t ht
    rw [(hsame (A t)).1, (hsame (A t)).2]
    refine ⟨(hw.1 t ht).1, (hw.1 t ht).2.1, ?_⟩
    intro hz
    rw [set_at_other _ _ _ _ (by omega)] at hz
    by_cases e : t = p
    · rw [e]; exact hzero
    · rw [hchild _ (fun e5 => e (hinj t p (by omega) hp e5))]
      exact (hw.1 t ht).2.2 hz
  · intro r h1 h2 h3
    obtain ⟨hrx, hlr⟩ := was r h3
    obtain ⟨f1, s, hs, hls, f2, f3, f4⟩ := hw.2.1 r h1 h2 hlr
    have hsx : s ≠ x := by
      intro e
      rw [e, hcx] at f3
      exact hnz r h2 f3.symm
    have hsp : s ≠ p := by
      intro e
      rw [e, e3] at f3
      exact hrx (hinj x r hx2 h2 f3).symm
    rw [(hsame (A r)).1, (hsame (A r)).2]
    refine ⟨f1, s, hs, live s hsx hls, f2, ?_, f4⟩
    rw [hchild _ (fun e5 => hsp (hinj s p hs hp e5))]
    exact f3
  · intro r hr hl hc
    obtain ⟨hrx, hlr⟩ := was r hl
    have hrp : r ≠ p := fun e => hc (by rw [e]; exact hzero)
    rw [hchild _ (fun e5 => hrp (hinj r p hr hp e5))] at hc ⊢
    obtain ⟨q, h1, h2, h3, f1, f2⟩ := hw.2.2 r hr hlr hc
    have hqx : q ≠ x := by
      intro e
      rw [e, hpar] at f2
      exact hrp (hinj r p hr hp f2.symm)
    exact ⟨q, h1, h2, live q hqx h3, f1, by rw [(hsame (A q)).2]; exact f2⟩

/-- In a well-formed tree the walk along the parent links from a live PID ends
at the PCB of one of the PIDs 0..2, which has no parent. -/
theorem root_from_live (A : Nat → Nat) (pcbs : Nat → pcb_t) (processes d : Nat → Nat)
    (hnz : ∀ p, p ≤ 6 → A p ≠ 0) (hw : links_wf A pcbs processes d) :
    ∀ n p, d p < n → p ≤ 6 → processes p ≠ 0 →
      ∃ t, t ≤ 2 ∧ ∀ fuel, n ≤ fuel → root_from pcbs fuel (A p) = some (A t) := by
  intro n
  induction n with
  | zero => intro p h; exact absurd h (by omega)
  | succ n ih =>
    intro p hd hp hl
    by_cases h3 : p ≤ 2
    · refine ⟨p, h3, ?_⟩
      intro fuel hf
      obtain ⟨g, rfl⟩ : ∃ g, fuel = g + 1 := ⟨fuel - 1, by omega⟩
      rw [root_from, if_neg (not_not.mpr (hw.1 p h3).2.1)]
    · obtain ⟨_, s, hs, hls, f2, _, f4⟩ := hw.2.1 p (by omega) hp hl
      obtain ⟨t, ht, hroot⟩ := ih s (by omega) hs hls
      refine ⟨t, ht, ?_⟩
      intro fuel hf
      obtain ⟨g, rfl⟩ : ∃ g, fuel = g + 1 := ⟨fuel - 1, by omega⟩
      rw [root_from, f2, if_pos (hnz s hs)]
      exact hroot g (by omega)

/-! ## Reachable states are well formed -/

/-- The address of the PCB of a PID in 0..6. -/
theorem get_pcb_by_PID_nat (p : Nat) (hp : p ≤ 6) :
    get_pcb_by_PID (p : Int) = 0x800000 - (p + 1) * 4096 := by
  unfold get_pcb_by_PID toUInt32 WORD
  omega

/-- Different PIDs in 0..6 have different PCB addresses. -/
theorem get_pcb_by_PID_inj (p q : Nat) (hp : p ≤ 6) (hq : q ≤ 6)
    (h : get_pcb_by_PID (p : Int) = get_pcb_by_PID (q : Int)) : p = q := by
  rw [get_pcb_by_PID_nat p hp, get_pcb_by_PID_nat q hq] at h
  omega

/-- No PCB address of a PID in 0..6 is `NULL`. -/
theorem get_pcb_by_PID_ne_zero (p : Nat) (hp : p ≤ 6) : get_pcb_by_PID (p : Int) ≠ 0 := by
  rw [get_pcb_by_PID_nat p hp]
  omega

/-- Entry 32 as `create_user_4mb_page` writes it does not depend on the
directory it is written into. -/
theorem create_user_4mb_page_entry (pd pd' : Nat → pde_t) (r : Int) :
    2 ≤ r → r < 1024 →
    (create_user_4mb_page pd r 32).2 32 = (create_user_4mb_page pd' r 32).2 32 := by
  intro h1 h2
  have hc : ¬ (r < 2 ∨ (32 : Int) < 2 ∨ r ≥ ((1024 : Nat) : Int) ∨
      (32 : Int) ≥ ((1024 : Nat) : Int)) := by omega
  unfold create_user_4mb_page PAGE_TABLE_SIZE
  rw [if_neg hc, if_neg hc]
  simp [set_at]

/-- The directory after a successful `create_user_4mb_page(r, 32)` holds at
32 the entry it wrote and elsewhere what was there. -/
theorem create_user_4mb_page_other (pd : Nat → pde_t) (r : Int) (j : Nat) (hj : j ≠ 32) :
    (create_user_4mb_page pd r 32).2 j = pd j := by
  unfold create_user_4mb_page
  split_ifs
  · rfl
  · exact set_at_other _ _ _ _ hj

/-- When `execute` returns, the state is the one it was given. -/
theorem execute_ret_inv (parse_command : List Nat → List Nat × List Nat) (fs : fs_t)
    (k : kernel_t) (fuel esp ebp : Nat) (stack : buffer) (command : Option (List Nat))
    (v : Int) (k1 : kernel_t)
    (h : execute parse_command fs k fuel esp ebp stack command =
      some (execute_result.ret v k1)) : k1 = k := by
  cases command with
  | none =>
    rw [execute_null] at h
    injection h with h
    injection h with _ h
    exact h.symm
  | some c =>
    by_cases hi : (read_dentry_by_name fs (parse_command c).1 local_dentry).1 = -1 ∨
      (read_data fs (read_dentry_by_name fs (parse_command c).1 local_dentry).2.inode_index 0
        zero_buf ELF_SIZE).1 = -1 ∨
      ∃ j, j < 4 ∧
        (read_data fs (read_dentry_by_name fs (parse_command c).1 local_dentry).2.inode_index 0
          zero_buf ELF_SIZE).2 j ≠ cstr elf_magic j
    · rw [execute_invalid parse_command fs k fuel esp ebp stack c hi] at h
      injection h with h
      injection h with _ h
      exact h.symm
    · have h1 : (read_dentry_by_name fs (parse_command c).1 local_dentry).1 ≠ -1 :=
        fun e => hi (Or.inl e)
      have h2 : (read_data fs
          (read_dentry_by_name fs (parse_command c).1 local_dentry).2.inode_index 0
          zero_buf ELF_SIZE).1 ≠ -1 := fun e => hi (Or.inr (Or.inl e))
      have h3 : ∀ j, j < 4 →
          (read_data fs (read_dentry_by_name fs (parse_command c).1 local_dentry).2.inode_index
            0 zero_buf ELF_SIZE).2 j = cstr elf_magic j := by
        intro j hj
        by_contra hne
        exact hi (Or.inr (Or.inr ⟨j, hj, hne⟩))
      have hv := execute_valid parse_command fs k fuel esp ebp stack c h1 h2 h3
      cases hf : find_pid k.processes (MAX_NUM_PROCESSES - 3) 3 with
      | none =>
        rw [hv.1 hf] at h
        injection h with h
        injection h with _ h
        exact h.symm
      | some q =>
        cases hl : get_current_executing_pcb k fuel with
        | none =>
          rw [(hv.2 q hf).1 hl] at h
          exact absurd h (by simp)
        | some prev =>
          rw [(hv.2 q hf).2 prev hl] at h
          injection h with h
          exact absurd h (by simp)

/-- When `execute` enters a new program, it has taken the smallest free PID
`q` in 3..6 and linked its PCB under the leaf PCB `prev` of the executing
terminal. -/
theorem execute_launch_inv (parse_command : List Nat → List Nat × List Nat) (fs : fs_t)
    (k : kernel_t) (fuel esp ebp : Nat) (stack : buffer) (command : Option (List Nat))
    (k1 : kernel_t) (eip sp : Nat)
    (h : execute parse_command fs k fuel esp ebp stack command =
      some (execute_result.launch k1 eip sp)) :
    ∃ q prev args entry_point, 3 ≤ q ∧ q ≤ 6 ∧ k.processes q = 0 ∧
      (∀ i, 3 ≤ i → i < q → k.processes i ≠ 0) ∧
      get_current_executing_pcb k fuel = some prev ∧
      k1 = { k with
              processes := set_at k.processes q 1
              page_directory := (create_user_4mb_page k.page_directory ((q : Int) + 2) 32).2
              pcbs := new_task_pcbs k.pcbs q prev args entry_point esp ebp
              tss_esp0 := esp0_for (q : Int) } := by
  cases command with
  | none =>
    rw [execute_null] at h
    injection h with h
    exact absurd h (by simp)
  | some c =>
    by_cases hi : (read_dentry_by_name fs (parse_command c).1 local_dentry).1 = -1 ∨
      (read_data fs (read_dentry_by_name fs (parse_command c).1 local_dentry).2.inode_index 0
        zero_buf ELF_SIZE).1 = -1 ∨
      ∃ j, j < 4 ∧
        (read_data fs (read_dentry_by_name fs (parse_command c).1 local_dentry).2.inode_index 0
          zero_buf ELF_SIZE).2 j ≠ cstr elf_magic j
    · rw [execute_invalid parse_command fs k fuel esp ebp stack c hi] at h
      injection h with h
      exact absurd h (by simp)
    · have h1 : (read_dentry_by_name fs (parse_command c).1 local_dentry).1 ≠ -1 :=
        fun e => hi (Or.inl e)
      have h2 : (read_data fs
          (read_dentry_by_name fs (parse_command c).1 local_dentry).2.inode_index 0
          zero_buf ELF_SIZE).1 ≠ -1 := fun e => hi (Or.inr (Or.inl e))
      have h3 : ∀ j, j < 4 →
          (read_data fs (read_dentry_by_name fs (parse_command c).1 local_dentry).2.inode_index
            0 zero_buf ELF_SIZE).2 j = cstr elf_magic j := by
        intro j hj
        by_contra hne
        exact hi (Or.inr (Or.inr ⟨j, hj, hne⟩))
      have hv := execute_valid parse_command fs k fuel esp ebp stack c h1 h2 h3
      cases hf : find_pid k.processes (MAX_NUM_PROCESSES - 3) 3 with
      | none =>
        rw [hv.1 hf] at h
        injection h with h
        exact absurd h (by simp)
      | some q =>
        have hr := ((find_pid_spec k.processes (MAX_NUM_PROCESSES - 3) 3).2 q).mp hf
        cases hl : get_current_executing_pcb k fuel with
        | none =>
          rw [(hv.2 q hf).1 hl] at h
          exact absurd h (by simp)
        | some prev =>
          rw [(hv.2 q hf).2 prev hl] at h
          injection h with h
          injection h with h _ _
          refine ⟨q, prev, _, _, hr.1, ?_, hr.2.2.1, hr.2.2.2, rfl, h.symm⟩
          have := hr.2.1
          unfold MAX_NUM_PROCESSES at this
          omega

/-- The descriptor loop of `halt` leaves the child link as it was. -/
theorem halt_close_loop_child :
    ∀ (n i : Nat) (pcb : pcb_t), (halt_close_loop n i pcb).child_pcb = pcb.child_pcb := by
  intro n
  induction n with
  | zero => intro i pcb; rfl
  | succ n ih =>
    intro i pcb
    rw [halt_close_loop]
    simp only []
    rw [ih]
    show (if (pcb.fd_array i).flags = 1 then (close pcb (i : Int)).2 else pcb).child_pcb = _
    split_ifs
    · unfold close
      split_ifs <;> rfl
    · rfl

/-- The state `halt` hands to the parent `P` of the leaf task `current`: the
liveness entry of the halted PID is cleared, entry 32 maps the frame of the
parent, the child link of the parent is `NULL`, and no PID, parent link or
saved register of any PCB has changed. -/
theorem halt_resume_state (k : kernel_t) (fuel status current : Nat)
    (hleaf : get_current_executing_pcb k fuel = some current)
    (hparent : (k.pcbs current).parent_pcb ≠ 0)
    (hne : (k.pcbs current).parent_pcb ≠ current) :
    ∃ (k1 : kernel_t) (esp ebp : Nat),
      halt k fuel status = some (halt_result.resume k1
        (if status % 256 = 255 then 256 else status % 256) esp ebp) ∧
      esp = (k.pcbs current).parent_esp ∧ ebp = (k.pcbs current).parent_ebp ∧
      k1.exec_term_id = k.exec_term_id ∧ k1.curr_term_id = k.curr_term_id ∧
      k1.processes = set_at k.processes (k.pcbs current).process_id 0 ∧
      k1.page_directory =
        (create_user_4mb_page k.page_directory
          (((k.pcbs (k.pcbs current).parent_pcb).process_id : Int) + 2) 32).2 ∧
      k1.vid_page_table_0 = k.vid_page_table_0 ∧
      (∀ a, (k1.pcbs a).process_id = (k.pcbs a).process_id ∧
        (k1.pcbs a).parent_pcb = (k.pcbs a).parent_pcb ∧
        (k1.pcbs a).parent_esp = (k.pcbs a).parent_esp ∧
        (k1.pcbs a).parent_ebp = (k.pcbs a).parent_ebp) ∧
      (∀ a, a ≠ (k.pcbs current).parent_pcb → (k1.pcbs a).child_pcb = (k.pcbs a).child_pcb) ∧
      (k1.pcbs (k.pcbs current).parent_pcb).child_pcb = 0 := by
  have hl := halt_close_loop_spec FD_ARRAY_LEN 0
    { k.pcbs current with args := set_at (k.pcbs current).args 0 0 }
  have hchild : (halt_close_loop FD_ARRAY_LEN 0
      { k.pcbs current with args := set_at (k.pcbs current).args 0 0 }).child_pcb =
      (k.pcbs current).child_pcb := halt_close_loop_child FD_ARRAY_LEN 0 _
  unfold halt
  simp only [hleaf]
  rw [if_neg hparent]
  generalize halt_close_loop FD_ARRAY_LEN 0
    { k.pcbs current with args := set_at (k.pcbs current).args 0 0 } = pcb2 at hl hchild ⊢
  obtain ⟨l1, l2, l3, l4, _, _⟩ := hl
  have e2 : pcb2.parent_pcb = (k.pcbs current).parent_pcb := l2
  have e1 : pcb2.process_id = (k.pcbs current).process_id := l1
  have e3 : pcb2.parent_esp = (k.pcbs current).parent_esp := l3
  have e4 : pcb2.parent_ebp = (k.pcbs current).parent_ebp := l4
  generalize hP : (k.pcbs current).parent_pcb = P at *
  have hpp : set_at k.pcbs current pcb2 P = k.pcbs P := set_at_other _ _ _ _ hne
  refine ⟨_, _, _, rfl, ?_, ?_, rfl, rfl, ?_, ?_, rfl, ?_, ?_, ?_⟩
  · simp only [set_at_same, e2, hpp]
    exact e3
  · simp only [set_at_same, e2, hpp]
    exact e4
  · simp only [set_at_same, e2, e1, hpp]
  · simp only [set_at_same, e2, hpp]
    rfl
  · intro a
    simp only [set_at_same, e2, hpp]
    by_cases ha : a = P
    · subst ha
      rw [set_at_same]
      exact ⟨rfl, rfl, rfl, rfl⟩
    · rw [set_at_other _ _ _ _ ha]
      by_cases hc : a = current
      · subst hc
        rw [set_at_same]
        exact ⟨e1, e2.trans hP.symm, e3, e4⟩
      · rw [set_at_other _ _ _ _ hc]
        exact ⟨rfl, rfl, rfl, rfl⟩
  · intro a ha
    simp only [set_at_same, e2, hpp]
    rw [set_at_other _ _ _ _ ha]
    by_cases hc : a = current
    · subst hc
      rw [set_at_same]
      exact hchild
    · rw [set_at_other _ _ _ _ hc]
  · simp only [set_at_same, e2, hpp]

/-- A live PID in 0..6 of a well-formed tree is the PID stored in its PCB. -/
theorem links_wf_pid (A : Nat → Nat) (pcbs : Nat → pcb_t) (processes d : Nat → Nat)
    (hw : links_wf A pcbs processes d) (x : Nat) (hx : x ≤ 6) (hl : processes x ≠ 0) :
    (pcbs (A x)).process_id = x := by
  by_cases h : x ≤ 2
  · exact (hw.1 x h).1
  · exact (hw.2.1 x (by omega) hx hl).1

/-- In a well-formed state the leaf PCB of the executing terminal is the PCB
of a live PID, which it stores, and has no child. -/
theorem kernel_wf_leaf (k : kernel_t) (hw : kernel_wf k) (fuel l : Nat)
    (hl : get_current_executing_pcb k fuel = some l) :
    ∃ x, x ≤ 6 ∧ k.processes x ≠ 0 ∧ l = get_pcb_by_PID (x : Int) ∧
      (k.pcbs l).child_pcb = 0 ∧ (k.pcbs l).process_id = x := by
  obtain ⟨⟨e, he, hexec, hlive⟩, ⟨d, hlinks⟩, _⟩ := hw
  unfold get_current_executing_pcb at hl
  rw [hexec] at hl
  obtain ⟨x, hx, hlx, hA⟩ := leaf_from_live _ k.pcbs k.processes d hlinks fuel e (by omega)
    hlive l hl
  refine ⟨x, hx, hlx, hA, leaf_from_child _ _ _ _ hl, ?_⟩
  rw [hA]
  exact links_wf_pid _ _ _ _ hlinks x hx hlx

/-- A step that keeps the executing terminal, the liveness table, directory
entry 32 and the PID and links of every PCB keeps the state well formed. -/
theorem kernel_wf_congr (k k1 : kernel_t) (hw : kernel_wf k)
    (hexec : k1.exec_term_id = k.exec_term_id) (hproc : k1.processes = k.processes)
    (hpd : k1.page_directory 32 = k.page_directory 32)
    (hp : ∀ a, (k1.pcbs a).process_id = (k.pcbs a).process_id ∧
      (k1.pcbs a).parent_pcb = (k.pcbs a).parent_pcb ∧
      (k1.pcbs a).child_pcb = (k.pcbs a).child_pcb) :
    kernel_wf k1 := by
  have hw0 := hw
  obtain ⟨⟨e, he, hexec0, hlive⟩, ⟨d, hlinks⟩, hpde⟩ := hw
  refine ⟨⟨e, he, by rw [hexec, hexec0], by rw [hproc]; exact hlive⟩, ⟨d, ?_⟩, ?_⟩
  · rw [hproc]
    exact links_wf_congr _ _ _ _ _ hp hlinks
  · intro fuel l hl
    have hl0 : get_current_executing_pcb k fuel = some l := by
      unfold get_current_executing_pcb at hl ⊢
      rw [hexec, leaf_from_congr k.pcbs k1.pcbs (fun a => (hp a).2.2)] at hl
      exact hl
    obtain ⟨x, hx, _, _, _, hpid⟩ := kernel_wf_leaf k hw0 fuel l hl0
    rw [hpd, hpde fuel l hl0, (hp l).1, hpid]
    exact create_user_4mb_page_entry _ _ _ (by omega) (by omega)

/-- What a successful `execute` does to a well-formed state: it takes the
smallest free PID `q` in 3..6, links its PCB under the leaf PCB (of the live
PID `x`) of the executing terminal, stores the registers `esp`, `ebp` in it,
maps its frame, and leaves a well-formed state whose leaf task is `q`. -/
theorem execute_launch_wf (parse_command : List Nat → List Nat × List Nat) (fs : fs_t)
    (k : kernel_t) (fuel esp ebp : Nat) (stack : buffer) (command : Option (List Nat))
    (k1 : kernel_t) (eip sp : Nat) (hw : kernel_wf k)
    (h : execute parse_command fs k fuel esp ebp stack command =
      some (execute_result.launch k1 eip sp)) :
    ∃ q x, 3 ≤ q ∧ q ≤ 6 ∧ x ≤ 6 ∧ k.processes q = 0 ∧ k.processes x ≠ 0 ∧
      get_current_executing_pcb k fuel = some (get_pcb_by_PID (x : Int)) ∧
      (k.pcbs (get_pcb_by_PID (x : Int))).process_id = x ∧
      (k.pcbs (get_pcb_by_PID (x : Int))).child_pcb = 0 ∧
      k1.processes = set_at k.processes q 1 ∧
      k1.exec_term_id = k.exec_term_id ∧
      k1.page_directory = (create_user_4mb_page k.page_directory ((q : Int) + 2) 32).2 ∧
      (k1.pcbs (get_pcb_by_PID (q : Int))).process_id = q ∧
      (k1.pcbs (get_pcb_by_PID (q : Int))).parent_pcb = get_pcb_by_PID (x : Int) ∧
      (k1.pcbs (get_pcb_by_PID (q : Int))).child_pcb = 0 ∧
      (k1.pcbs (get_pcb_by_PID (q : Int))).parent_esp = esp ∧
      (k1.pcbs (get_pcb_by_PID (q : Int))).parent_ebp = ebp ∧
      k1.pcbs (get_pcb_by_PID (x : Int)) =
        { k.pcbs (get_pcb_by_PID (x : Int)) with child_pcb := get_pcb_by_PID (q : Int) } ∧
      (∀ a, a ≠ get_pcb_by_PID (x : Int) → a ≠ get_pcb_by_PID (q : Int) →
        k1.pcbs a = k.pcbs a) ∧
      get_current_executing_pcb k1 (fuel + 1) = some (get_pcb_by_PID (q : Int)) ∧
      kernel_wf k1 := by
  obtain ⟨q, prev, args, ep, hq1, hq2, hq0, _, hleaf, hk1⟩ :=
    execute_launch_inv parse_command fs k fuel esp ebp stack command k1 eip sp h
  obtain ⟨x, hx, hlx, hprev, hchild, hpid⟩ := kernel_wf_leaf k hw fuel prev hleaf
  obtain ⟨⟨e, he, hexec, hlive⟩, ⟨d, hlinks⟩, _⟩ := hw
  have hxq : x ≠ q := fun e1 => hlx (e1 ▸ hq0)
  have hne : prev ≠ get_pcb_by_PID (q : Int) := by
    rw [hprev]
    exact fun e1 => hxq (get_pcb_by_PID_inj x q hx hq2 e1)
  have n1 := new_task_pcbs_new k.pcbs q prev args ep esp ebp hq1
  have n2 := new_task_pcbs_prev k.pcbs q prev args ep esp ebp hq1 hne
  have n3 := new_task_pcbs_other k.pcbs q prev args ep esp ebp hq1
  rw [Nat.mod_eq_of_lt (show q < 256 by omega)] at n1
  generalize new_task_pcbs k.pcbs q prev args ep esp ebp = pcbs1 at n1 n2 n3 hk1
  rw [hprev] at hleaf hchild hpid n1 n2 n3
  have hk_pcbs : k1.pcbs = pcbs1 := by rw [hk1]
  have hk_proc : k1.processes = set_at k.processes q 1 := by rw [hk1]
  have hk_exec : k1.exec_term_id = k.exec_term_id := by rw [hk1]
  have hk_pd : k1.page_directory =
      (create_user_4mb_page k.page_directory ((q : Int) + 2) 32).2 := by rw [hk1]
  have hlinks1 : links_wf (fun p : Nat => get_pcb_by_PID (p : Int)) pcbs1
      (set_at k.processes q 1) (set_at d q (d x + 1)) := by
    refine links_wf_execute _ k.pcbs pcbs1 k.processes d get_pcb_by_PID_inj
      get_pcb_by_PID_ne_zero hlinks x q hx hlx hchild hq1 hq2 hq0
      ⟨n1.1, n1.2.1, n1.2.2.1⟩ ?_ ?_
    · beta_reduce
      rw [n2]
      dsimp only
      exact ⟨rfl, rfl, rfl⟩
    · intro a ha1 ha2
      exact n3 a ha2 ha1
  have hleaf1 : leaf_from pcbs1 (fuel + 1) (get_pcb_by_PID (e : Int)) =
      some (get_pcb_by_PID (q : Int)) := by
    unfold get_current_executing_pcb at hleaf
    rw [hexec] at hleaf
    refine leaf_from_extend (fun p : Nat => get_pcb_by_PID (p : Int)) k.pcbs pcbs1 k.processes d
      get_pcb_by_PID_inj get_pcb_by_PID_ne_zero hlinks x q hq2 hq0 ?_ n1.2.2.1 ?_ fuel e
      (by omega) hlive hleaf
    · beta_reduce
      rw [n2]
    · intro a ha1 ha2
      rw [n3 a ha2 ha1]
  have hcur1 : get_current_executing_pcb k1 (fuel + 1) = some (get_pcb_by_PID (q : Int)) := by
    unfold get_current_executing_pcb
    rw [hk_pcbs, hk_exec, hexec]
    exact hleaf1
  refine ⟨q, x, hq1, hq2, hx, hq0, hlx, hleaf, hpid, hchild, hk_proc, hk_exec, hk_pd, ?_, ?_,
    ?_, ?_, ?_, ?_, ?_, hcur1, ?_⟩
  · rw [hk_pcbs]; exact n1.1
  · rw [hk_pcbs]; exact n1.2.1
  · rw [hk_pcbs]; exact n1.2.2.1
  · rw [hk_pcbs]; exact n1.2.2.2.1
  · rw [hk_pcbs]; exact n1.2.2.2.2
  · rw [hk_pcbs]; exact n2
  · intro a ha1 ha2
    rw [hk_pcbs]
    exact n3 a ha2 ha1
  · refine ⟨⟨e, he, by rw [hk_exec, hexec], ?_⟩, ⟨_, by rw [hk_pcbs, hk_proc]; exact hlinks1⟩, ?_⟩
    · rw [hk_proc, set_at_other _ _ _ _ (by omega)]
      exact hlive
    · intro fuel' l hl
      have e1 := leaf_from_det _ _ _ _ _ _ hl hcur1
      rw [e1, hk_pcbs, n1.1, hk_pd]
      exact create_user_4mb_page_entry _ _ _ (by omega) (by omega)

/-- What `halt` does to a well-formed state whose leaf task `current` has a
parent: `current` is the PCB of a live PID `x` in 3..6, its parent that of a
live PID `p0`; the liveness entry of `x` is cleared, entry 32 maps the frame of
`p0`, the child link of `p0` is `NULL`, the registers handed over are those
stored in the PCB of `x`, and the state left is well formed with `p0` as the
leaf task. -/
theorem halt_resume_wf (k : kernel_t) (fuel status current : Nat) (hw : kernel_wf k)
    (hleaf : get_current_executing_pcb k fuel = some current)
    (hparent : (k.pcbs current).parent_pcb ≠ 0) :
    ∃ (x p0 : Nat) (k1 : kernel_t) (esp ebp : Nat),
      3 ≤ x ∧ x ≤ 6 ∧ p0 ≤ 6 ∧ k.processes x ≠ 0 ∧ k.processes p0 ≠ 0 ∧
      current = get_pcb_by_PID (x : Int) ∧
      (k.pcbs current).parent_pcb = get_pcb_by_PID (p0 : Int) ∧
      (k.pcbs (get_pcb_by_PID (p0 : Int))).process_id = p0 ∧
      halt k fuel status = some (halt_result.resume k1
        (if status % 256 = 255 then 256 else status % 256) esp ebp) ∧
      esp = (k.pcbs current).parent_esp ∧ ebp = (k.pcbs current).parent_ebp ∧
      k1.processes = set_at k.processes x 0 ∧
      k1.exec_term_id = k.exec_term_id ∧
      k1.page_directory =
        (create_user_4mb_page k.page_directory ((p0 : Int) + 2) 32).2 ∧
      (∀ a, (k1.pcbs a).process_id = (k.pcbs a).process_id ∧
        (k1.pcbs a).parent_pcb = (k.pcbs a).parent_pcb ∧
        (k1.pcbs a).parent_esp = (k.pcbs a).parent_esp ∧
        (k1.pcbs a).parent_ebp = (k.pcbs a).parent_ebp) ∧
      (∀ a, a ≠ get_pcb_by_PID (p0 : Int) → (k1.pcbs a).child_pcb = (k.pcbs a).child_pcb) ∧
      (k1.pcbs (get_pcb_by_PID (p0 : Int))).child_pcb = 0 ∧
      get_current_executing_pcb k1 fuel = some (get_pcb_by_PID (p0 : Int)) ∧
      kernel_wf k1 := by
  obtain ⟨x, hx, hlx, hcur, hchild, hpid⟩ := kernel_wf_leaf k hw fuel current hleaf
  obtain ⟨⟨e, he, hexec, hlive⟩, ⟨d, hlinks⟩, _⟩ := hw
  rw [hcur] at hparent hchild hpid hleaf
  have hx3 : 3 ≤ x := by
    by_contra hlt
    exact hparent (hlinks.1 x (by omega)).2.1
  obtain ⟨_, p0, hp0, hlp0, hpar, hpch, hd⟩ := hlinks.2.1 x hx3 hx hlx
  beta_reduce at hpar hpch
  have hp0x : p0 ≠ x := fun e1 => by rw [e1] at hd; omega
  have hAne : get_pcb_by_PID (p0 : Int) ≠ get_pcb_by_PID (x : Int) :=
    fun e1 => hp0x (get_pcb_by_PID_inj p0 x hp0 hx e1)
  have hpid0 : (k.pcbs (get_pcb_by_PID (p0 : Int))).process_id = p0 :=
    links_wf_pid _ _ _ _ hlinks p0 hp0 hlp0
  obtain ⟨k1, esp, ebp, hhalt, hesp, hebp, hk_exec, _, hk_proc, hk_pd, _, hsame, hch, hzero⟩ :=
    halt_resume_state k fuel status (get_pcb_by_PID (x : Int)) hleaf hparent
      (by rw [hpar]; exact hAne)
  rw [hpar] at hch hzero hk_pd
  rw [hpid] at hk_proc
  rw [hpid0] at hk_pd
  have hlinks1 : links_wf (fun p : Nat => get_pcb_by_PID (p : Int)) k1.pcbs
      (set_at k.processes x 0) d :=
    links_wf_halt _ k.pcbs k1.pcbs k.processes d get_pcb_by_PID_inj get_pcb_by_PID_ne_zero
      hlinks x p0 hx3 hx hlx hchild hp0 hpar (fun a => ⟨(hsame a).1, (hsame a).2.1⟩) hch hzero
  have hleaf1 : get_current_executing_pcb k1 fuel = some (get_pcb_by_PID (p0 : Int)) := by
    unfold get_current_executing_pcb at hleaf ⊢
    rw [hk_exec, hexec]
    rw [hexec] at hleaf
    exact leaf_from_shrink (fun p : Nat => get_pcb_by_PID (p : Int)) k.pcbs k1.pcbs k.processes d
      get_pcb_by_PID_inj hlinks x p0 hx hp0 hpar hzero hch fuel e (by omega) hlive (by omega)
      hleaf
  refine ⟨x, p0, k1, esp, ebp, hx3, hx, hp0, hlx, hlp0, hcur, by rw [hcur]; exact hpar, hpid0,
    hhalt, by rw [hcur]; exact hesp, by rw [hcur]; exact hebp, hk_proc, hk_exec, hk_pd, hsame,
    hch, hzero, hleaf1, ?_⟩
  refine ⟨⟨e, he, by rw [hk_exec, hexec], ?_⟩, ⟨d, by rw [hk_proc]; exact hlinks1⟩, ?_⟩
  · rw [hk_proc, set_at_other _ _ _ _ (by omega)]
    exact hlive
  · intro fuel' l hl
    have e1 := leaf_from_det _ _ _ _ _ _ hl hleaf1
    rw [e1, (hsame _).1, hpid0, hk_pd]
    exact create_user_4mb_page_entry _ _ _ (by omega) (by omega)

/-- When the walk to the leaf PCB does not end, neither does `halt`. -/
theorem halt_none (k : kernel_t) (fuel status : Nat)
    (h : get_current_executing_pcb k fuel = none) : halt k fuel status = none := by
  unfold halt
  simp only [h]

/-- Every hand-over of `halt` from a well-formed state leaves a well-formed
state. -/
theorem halt_wf (k : kernel_t) (fuel status : Nat) (hw : kernel_wf k) :
    (∀ k1 eip sp, halt k fuel status = some (halt_result.relaunch k1 eip sp) → kernel_wf k1) ∧
    (∀ k1 eax sp bp, halt k fuel status = some (halt_result.resume k1 eax sp bp) →
      kernel_wf k1) := by
  cases hl : get_current_executing_pcb k fuel with
  | none =>
    rw [halt_none k fuel status hl]
    exact ⟨fun _ _ _ h => absurd h (by simp), fun _ _ _ _ h => absurd h (by simp)⟩
  | some current =>
    by_cases hp : (k.pcbs current).parent_pcb = 0
    · rw [halt_relaunch k fuel status current hl hp]
      refine ⟨?_, fun _ _ _ _ h => absurd h (by simp)⟩
      intro k1 eip sp h
      injection h with h
      injection h with h _ _
      rw [← h]
      exact kernel_wf_congr k _ hw rfl rfl rfl (fun _ => ⟨rfl, rfl, rfl⟩)
    · obtain ⟨x, p0, k1, esp, ebp, _, _, _, _, _, _, _, _, hh, _, _, _, _, _, _, _, _, _, hwf⟩ :=
        halt_resume_wf k fuel status current hw hl hp
      rw [hh]
      refine ⟨fun _ _ _ h => absurd h (by simp), ?_⟩
      intro k2 eax sp bp h
      injection h with h
      injection h with h _ _ _
      rw [← h]
      exact hwf

/-- When `next_executing_term` stops, it has changed `exec_term_id` only, to
a live terminal among 0..2. -/
theorem next_executing_term_some :
    ∀ (fuel : Nat) (k k2 : kernel_t), 0 ≤ k.exec_term_id →
      next_executing_term fuel k = some k2 →
      ∃ e : Nat, e ≤ 2 ∧ k2 = { k with exec_term_id := (e : Int) } ∧ k.processes e ≠ 0 := by
  intro fuel
  induction fuel with
  | zero => intro k k2 _ h; exact absurd h (by simp [next_executing_term])
  | succ f ih =>
    intro k k2 h0 h
    rw [next_executing_term_succ] at h
    have hr : 0 ≤ (if k.exec_term_id + 1 > 2 then 0 else k.exec_term_id + 1) ∧
        (if k.exec_term_id + 1 > 2 then 0 else k.exec_term_id + 1) ≤ 2 := by
      split_ifs <;> omega
    generalize (if k.exec_term_id + 1 > 2 then 0 else k.exec_term_id + 1) = e2 at h hr
    have hcast : ((e2.toNat : Nat) : Int) = e2 := Int.toNat_of_nonneg hr.1
    by_cases hl : k.processes e2.toNat ≠ 0
    · rw [if_pos hl] at h
      refine ⟨e2.toNat, by omega, ?_, hl⟩
      rw [hcast]
      exact (Option.some.inj h).symm
    · rw [if_neg hl] at h
      obtain ⟨e, he, hk2, hle⟩ := ih { k with exec_term_id := e2 } k2 hr.1 h
      exact ⟨e, he, hk2, hle⟩

/-- The paging and terminal fields `remap_vid` leaves alone. -/
theorem remap_vid_frame (vid_save_addr : Nat → Nat) (k : kernel_t) (e : Int) :
    (remap_vid vid_save_addr k e).pcbs = k.pcbs ∧
    (remap_vid vid_save_addr k e).processes = k.processes ∧
    (remap_vid vid_save_addr k e).exec_term_id = k.exec_term_id ∧
    (remap_vid vid_save_addr k e).curr_term_id = k.curr_term_id ∧
    (remap_vid vid_save_addr k e).page_directory = k.page_directory := by
  unfold remap_vid
  split_ifs
  · exact ⟨rfl, rfl, rfl, rfl, rfl⟩
  · exact ⟨rfl, rfl, rfl, rfl, rfl⟩


/-- A store into a PCB that keeps its PID and links keeps the state well
formed. -/
theorem kernel_wf_set_pcb (k : kernel_t) (hw : kernel_wf k) (a : Nat) (p : pcb_t)
    (h : p.process_id = (k.pcbs a).process_id ∧ p.parent_pcb = (k.pcbs a).parent_pcb ∧
      p.child_pcb = (k.pcbs a).child_pcb) :
    kernel_wf { k with pcbs := set_at k.pcbs a p } := by
  refine kernel_wf_congr k _ hw rfl rfl rfl ?_
  intro b
  show (set_at k.pcbs a p b).process_id = _ ∧ (set_at k.pcbs a p b).parent_pcb = _ ∧
    (set_at k.pcbs a p b).child_pcb = _
  by_cases hb : b = a
  · rw [hb, set_at_same]
    exact h
  · rw [set_at_other _ _ _ _ hb]
    exact ⟨rfl, rfl, rfl⟩

/-- A timer tick leaves a well-formed state well formed. -/
theorem pit_handler_wf (vid_save_addr : Nat → Nat) (k : kernel_t) (fuel ebp esp : Nat)
    (k1 : kernel_t) (bp sp : Nat) (hw : kernel_wf k)
    (h : pit_handler vid_save_addr k fuel ebp esp = some (k1, bp, sp)) : kernel_wf k1 := by
  unfold pit_handler at h
  cases hl : get_current_executing_pcb k fuel with
  | none =>
    rw [hl] at h
    exact absurd h (by simp)
  | some cur =>
    rw [hl] at h
    dsimp only at h
    have hwa : kernel_wf (save_context k cur ebp esp) :=
      kernel_wf_set_pcb k hw cur _ ⟨rfl, rfl, rfl⟩
    generalize save_context k cur ebp esp = ka at h hwa
    obtain ⟨⟨e, he, hexec, _⟩, ⟨d, hlinks⟩, _⟩ := hwa
    cases hn : next_executing_term fuel ka with
    | none =>
      rw [hn] at h
      exact absurd h (by simp)
    | some k2 =>
      rw [hn] at h
      dsimp only at h
      obtain ⟨e1, he1, hk2, hlive1⟩ := next_executing_term_some fuel ka k2
        (by rw [hexec]; omega) hn
      cases hl2 : get_current_executing_pcb k2 fuel with
      | none =>
        rw [hl2] at h
        exact absurd h (by simp)
      | some nxt =>
        rw [hl2] at h
        dsimp only at h
        have hk1 := (Prod.mk.inj (Option.some.inj h)).1
        have hk2p : k2.pcbs = ka.pcbs := by rw [hk2]
        have hk2r : k2.processes = ka.processes := by rw [hk2]
        have hk2e : k2.exec_term_id = (e1 : Int) := by rw [hk2]
        have hl2a : leaf_from ka.pcbs fuel (get_pcb_by_PID (e1 : Int)) = some nxt := by
          unfold get_current_executing_pcb at hl2
          rw [hk2p, hk2e] at hl2
          exact hl2
        obtain ⟨x, hx, hlx, hA⟩ := leaf_from_live _ ka.pcbs ka.processes d hlinks fuel e1
          (by omega) hlive1 nxt hl2a
        have hpid : (ka.pcbs nxt).process_id = x := by
          rw [hA]
          exact links_wf_pid _ _ _ _ hlinks x hx hlx
        have f := remap_vid_frame vid_save_addr
          { k2 with
            page_directory := (create_user_4mb_page k2.page_directory
              (((k2.pcbs nxt).process_id : Int) + 2) 32).2 } k2.exec_term_id
        have hp1 : k1.pcbs = ka.pcbs := by
          rw [← hk1]; exact f.1.trans hk2p
        have hr1 : k1.processes = ka.processes := by
          rw [← hk1]; exact f.2.1.trans hk2r
        have he1x : k1.exec_term_id = (e1 : Int) := by
          rw [← hk1]; exact f.2.2.1.trans hk2e
        have hd1 : k1.page_directory =
            (create_user_4mb_page k2.page_directory ((x : Int) + 2) 32).2 := by
          rw [← hk1, ← hpid, ← hk2p]; exact f.2.2.2.2
        refine ⟨⟨e1, he1, he1x, by rw [hr1]; exact hlive1⟩, ⟨d, by rw [hp1, hr1]; exact hlinks⟩, ?_⟩
        intro fuel' l hl'
        have hl1 : get_current_executing_pcb k1 fuel = some nxt := by
          unfold get_current_executing_pcb
          rw [hp1, he1x]
          exact hl2a
        have e2 := leaf_from_det _ _ _ _ _ _ hl' hl1
        rw [e2, hp1, hpid, hd1]
        exact create_user_4mb_page_entry _ _ _ (by omega) (by omega)

/-- A switch of the displayed terminal to one of 0..2 leaves a well-formed
state well formed. -/
theorem switch_displaying_term_wf (m : machine_t) (t : Nat) (ht : t ≤ 2)
    (hw : kernel_wf m.k) : kernel_wf (switch_displaying_term m (t : Int)).1.k := by
  by_cases hl : m.k.processes t = 0
  · rw [switch_displaying_term_start m t hl]
    obtain ⟨_, ⟨d, hlinks⟩, _⟩ := hw
    have hchild := (hlinks.1 t ht).2.2 hl
    have hpid := (hlinks.1 t ht).1
    beta_reduce at hchild hpid
    refine ⟨⟨t, ht, rfl, ?_⟩, ⟨d, links_wf_start _ _ _ _ hlinks t ht hl⟩, ?_⟩
    · show set_at m.k.processes t 1 t ≠ 0
      rw [set_at_same]
      decide
    · intro fuel l hleaf
      have hleaf2 : leaf_from m.k.pcbs fuel (get_pcb_by_PID (t : Int)) = some l := hleaf
      cases fuel with
      | zero => exact absurd hleaf2 (by simp [leaf_from])
      | succ f =>
        rw [leaf_from_succ, hchild] at hleaf2
        have hl2 : get_pcb_by_PID (t : Int) = l := Option.some.inj hleaf2
        show (create_user_4mb_page m.k.page_directory ((t : Int) + 2) 32).2 32 =
          (create_user_4mb_page _ (((m.k.pcbs l).process_id : Int) + 2) 32).2 32
        rw [← hl2, hpid]
        exact create_user_4mb_page_entry _ _ _ (by omega) (by omega)
  · rw [switch_displaying_term_live m t hl]
    exact kernel_wf_congr m.k _ hw rfl rfl rfl (fun _ => ⟨rfl, rfl, rfl⟩)

/-- The call `vidmap` leaves a well-formed state well formed. -/
theorem vidmap_wf (vid_pt : Nat) (k : kernel_t) (mem : memory) (screen_start : Nat)
    (hw : kernel_wf k) : kernel_wf (vidmap vid_pt k mem screen_start).2.1 := by
  unfold vidmap
  split_ifs
  · refine kernel_wf_congr k _ hw rfl rfl ?_ (fun _ => ⟨rfl, rfl, rfl⟩)
    simp [create_vid_4kb_page, set_at, VID_MAP_VIRTUAL_INDEX]
  · exact hw

/-- One pass of the loop of `boot` fills the PCB of PID `i` and touches no
other PCB and no liveness entry. -/
theorem boot_shell_spec (fs : fs_t) (dentry : dentry_t) (esp ebp i : Nat)
    (s : kernel_t × buffer) :
    (boot_shell fs dentry esp ebp i s).1.processes = s.1.processes ∧
    (∀ a, a ≠ get_pcb_by_PID (i : Int) →
      (boot_shell fs dentry esp ebp i s).1.pcbs a = s.1.pcbs a) ∧
    ((boot_shell fs dentry esp ebp i s).1.pcbs (get_pcb_by_PID (i : Int))).process_id =
      i % 256 ∧
    ((boot_shell fs dentry esp ebp i s).1.pcbs (get_pcb_by_PID (i : Int))).parent_pcb = 0 ∧
    ((boot_shell fs dentry esp ebp i s).1.pcbs (get_pcb_by_PID (i : Int))).child_pcb = 0 := by
  unfold boot_shell
  dsimp only
  generalize get_pcb_by_PID (i : Int) = a
  refine ⟨rfl, fun b hb => set_at_other _ _ _ _ hb, ?_, ?_, ?_⟩
  · rw [set_at_same]; rfl
  · rw [set_at_same]
  · rw [set_at_same]

/-- The loop of `boot` over the PIDs `i .. i + n - 1` (all at most 6) leaves
their PCBs with their PID, no parent and no child, and touches no other PCB
and no liveness entry. -/
theorem boot_loop_spec (fs : fs_t) (dentry : dentry_t) (esp ebp : Nat) :
    ∀ (n i : Nat) (s : kernel_t × buffer), i + n ≤ 7 →
      (boot_loop fs dentry esp ebp n i s).1.processes = s.1.processes ∧
      (∀ a, (∀ j, i ≤ j → j < i + n → a ≠ get_pcb_by_PID (j : Int)) →
        (boot_loop fs dentry esp ebp n i s).1.pcbs a = s.1.pcbs a) ∧
      ∀ t, i ≤ t → t < i + n →
        ((boot_loop fs dentry esp ebp n i s).1.pcbs (get_pcb_by_PID (t : Int))).process_id =
          t ∧
        ((boot_loop fs dentry esp ebp n i s).1.pcbs (get_pcb_by_PID (t : Int))).parent_pcb =
          0 ∧
        ((boot_loop fs dentry esp ebp n i s).1.pcbs (get_pcb_by_PID (t : Int))).child_pcb =
          0 := by
  intro n
  induction n with
  | zero =>
    intro i s _
    exact ⟨rfl, fun _ _ => rfl, fun t h1 h2 => absurd h2 (by omega)⟩
  | succ n ih =>
    intro i s hin
    rw [boot_loop]
    obtain ⟨b1, b2, b3, b4, b5⟩ := boot_shell_spec fs dentry esp ebp i s
    obtain ⟨l1, l2, l3⟩ := ih (i + 1) (boot_shell fs dentry esp ebp i s) (by omega)
    refine ⟨l1.trans b1, ?_, ?_⟩
    · intro a ha
      rw [l2 a (fun j h1 h2 => ha j (by omega) (by omega))]
      exact b2 a (ha i (le_refl _) (by omega))
    · intro t ht1 ht2
      by_cases hti : t = i
      · rw [hti]
        have hfr := l2 (get_pcb_by_PID (i : Int)) (fun j h1 h2 e =>
          absurd (get_pcb_by_PID_inj i j (by omega) (by omega) e) (by omega))
        rw [hfr, b3, b4, b5]
        exact ⟨Nat.mod_eq_of_lt (by omega), rfl, rfl⟩
      · exact l3 t (by omega) (by omega)

/-- The state `boot` enters the first shell with is well formed. -/
theorem boot_wf (fs : fs_t) (stack : dentry_t) (stack_entry : buffer) (esp ebp : Nat)
    (m : machine_t) : kernel_wf (boot fs stack stack_entry esp ebp m).1.k := by
  unfold boot
  dsimp only
  obtain ⟨l1, _, l3⟩ := boot_loop_spec fs (read_dentry_by_name fs (bytes "shell") stack).2
    esp ebp 3 0
    ({ (init_terminal m).k with
        processes := fun i => if i < MAX_NUM_PROCESSES then 0 else (init_terminal m).k.processes i },
      stack_entry) (by omega)
  generalize boot_loop fs (read_dentry_by_name fs (bytes "shell") stack).2 esp ebp 3 0
    ({ (init_terminal m).k with
        processes := fun i => if i < MAX_NUM_PROCESSES then 0 else (init_terminal m).k.processes i },
      stack_entry) = s at l1 l3
  have hproc : ∀ i, i ≤ 6 → s.1.processes i = 0 := by
    intro i hi
    rw [l1]
    show (if i < MAX_NUM_PROCESSES then 0 else _) = 0
    rw [if_pos (by unfold MAX_NUM_PROCESSES; omega)]
  have hlive : ∀ p, p ≤ 6 → set_at s.1.processes 0 1 p ≠ 0 → p = 0 := by
    intro p hp hl
    by_contra hne
    rw [set_at_other _ _ _ _ hne] at hl
    exact hl (hproc p hp)
  have h0 := l3 0 (le_refl _) (by omega)
  refine ⟨⟨0, by omega, rfl, ?_⟩, ⟨fun _ => 0, ?_, ?_, ?_⟩, ?_⟩
  · show set_at s.1.processes 0 1 0 ≠ 0
    rw [set_at_same]
    decide
  · intro t ht
    have h := l3 t (Nat.zero_le _) (by omega)
    exact ⟨h.1, h.2.1, fun _ => h.2.2⟩
  · intro q hq1 hq2 hl
    exact absurd (hlive q hq2 hl) (by omega)
  · intro p hp hl hc
    have hp0 := hlive p hp hl
    rw [hp0] at hc
    exact absurd h0.2.2 hc
  · intro fuel l hleaf
    have hleaf2 : leaf_from s.1.pcbs fuel (get_pcb_by_PID ((0 : Nat) : Int)) = some l := hleaf
    cases fuel with
    | zero => exact absurd hleaf2 (by simp [leaf_from])
    | succ f =>
      rw [leaf_from_succ, h0.2.2] at hleaf2
      have hl2 : get_pcb_by_PID ((0 : Nat) : Int) = l := Option.some.inj hleaf2
      show (create_user_4mb_page s.1.page_directory ((0 : Int) + 2) 32).2 32 =
        (create_user_4mb_page _ (((s.1.pcbs l).process_id : Int) + 2) 32).2 32
      rw [← hl2, h0.1]
      exact create_user_4mb_page_entry _ _ _ (by omega) (by omega)

/-- Every reachable state is well formed. -/
theorem reachable_wf (parse_command : List Nat → List Nat × List Nat) (fs : fs_t)
    (vid_save_addr : Nat → Nat) (vid_pt : Nat) (m : machine_t)
    (h : reachable parse_command fs vid_save_addr vid_pt m) : kernel_wf m.k := by
  induction h with
  | boot m0 stack stack_entry esp ebp => exact boot_wf fs stack stack_entry esp ebp m0
  | execute_ret m fuel esp ebp stack command v k1 _ he ih =>
    rw [execute_ret_inv parse_command fs m.k fuel esp ebp stack command v k1 he]
    exact ih
  | execute_launch m fuel esp ebp stack command k1 eip sp _ he ih =>
    obtain ⟨_, _, _, _, _, _, _, _, _, _, _, _, _, _, _, _, _, _, _, _, _, hwf⟩ :=
      execute_launch_wf parse_command fs m.k fuel esp ebp stack command k1 eip sp ih he
    exact hwf
  | halt_relaunch m fuel status k1 eip sp _ hh ih => exact (halt_wf m.k fuel status ih).1 _ _ _ hh
  | halt_resume m fuel status k1 eax sp bp _ hh ih =>
    exact (halt_wf m.k fuel status ih).2 _ _ _ _ hh
  | tick m fuel ebp esp k1 bp sp _ ht ih =>
    exact pit_handler_wf vid_save_addr m.k fuel ebp esp k1 bp sp ih ht
  | switch m t _ ht ih => exact switch_displaying_term_wf m t ht ih
  | vidmap m mem screen_start _ ih => exact vidmap_wf vid_pt m.k mem screen_start ih
  | io m fuel cur fd_array filenames con _ _ ih =>
    exact kernel_wf_set_pcb m.k ih cur _ ⟨rfl, rfl, rfl⟩

/-- In a well-formed tree the walk to the leaf from a live PID reads the child
links of live PIDs only. -/
theorem leaf_from_agree (A : Nat → Nat) (pcbs pcbs' : Nat → pcb_t) (processes d : Nat → Nat)
    (hw : links_wf A pcbs processes d)
    (h : ∀ p, p ≤ 6 → processes p ≠ 0 → (pcbs' (A p)).child_pcb = (pcbs (A p)).child_pcb) :
    ∀ f p, p ≤ 6 → processes p ≠ 0 → leaf_from pcbs' f (A p) = leaf_from pcbs f (A p) := by
  intro f
  induction f with
  | zero => intro p _ _; rfl
  | succ f ih =>
    intro p hp hl
    rw [leaf_from_succ, leaf_from_succ, h p hp hl]
    by_cases hc : (pcbs (A p)).child_pcb ≠ 0
    · rw [if_pos hc, if_pos hc]
      obtain ⟨q, _, hq2, hq3, hq4, _⟩ := hw.2.2 p hp hl hc
      rw [hq4]
      exact ih q hq2 hq3
    · rw [if_neg hc, if_neg hc]

/-- A state has its own tasks. -/
theorem same_tasks_refl (k : kernel_t) : same_tasks k k :=
  ⟨rfl, rfl, rfl, fun _ _ _ => ⟨rfl, rfl, rfl, rfl, rfl⟩⟩

/-- One level of unwinding: `k` is well formed, a successful `execute` entered
with `esp`, `ebp` takes it to `k1`, and `h1` has the tasks of `k1`; then
`halt` in `h1` hands the expanded status and `esp`, `ebp` to the execute that
is resumed, in a state that has the tasks of `k`. -/
theorem halt_unwinds (parse_command : List Nat → List Nat × List Nat) (fs : fs_t)
    (k : kernel_t) (fuel esp ebp : Nat) (stack : buffer) (command : Option (List Nat))
    (k1 : kernel_t) (eip sp : Nat) (hw : kernel_wf k)
    (he : execute parse_command fs k fuel esp ebp stack command =
      some (execute_result.launch k1 eip sp))
    (h1 : kernel_t) (hs : same_tasks k1 h1) (status F : Nat) (hF : fuel + 1 ≤ F) :
    ∃ h0 : kernel_t,
      halt h1 F status = some (halt_result.resume h0
        (if status % 256 = 255 then 256 else status % 256) esp ebp) ∧
      same_tasks k h0 := by
  obtain ⟨q, x, hq1, hq2, hx, hq0, hlx, hleaf, hpidx, hchildx, hk_proc, hk_exec, hk_pd, n1, n2,
    n3, n4, n5, n6, n7, hcur1, hwf1⟩ :=
    execute_launch_wf parse_command fs k fuel esp ebp stack command k1 eip sp hw he
  obtain ⟨hs_exec, hs_proc, hs_pd, hs_f⟩ := hs
  have hxq : x ≠ q := fun e1 => hlx (e1 ▸ hq0)
  have hAxq : get_pcb_by_PID (x : Int) ≠ get_pcb_by_PID (q : Int) :=
    fun e1 => hxq (get_pcb_by_PID_inj x q hx hq2 e1)
  have hlq1 : k1.processes q ≠ 0 := by rw [hk_proc, set_at_same]; decide
  have hlx1 : k1.processes x ≠ 0 := by rw [hk_proc, set_at_other _ _ _ _ hxq]; exact hlx
  have fq := hs_f q hq2 (Or.inr hlq1)
  have fx := hs_f x hx (Or.inr hlx1)
  obtain ⟨⟨e, hele, hexec1, hlive1⟩, ⟨d1, hlinks1⟩, _⟩ := hwf1
  have hleafh : get_current_executing_pcb h1 F = some (get_pcb_by_PID (q : Int)) := by
    have hc := leaf_from_mono _ _ _ _ hcur1 F hF
    unfold get_current_executing_pcb at hc ⊢
    rw [hexec1] at hc
    rw [hs_exec, hexec1]
    rw [leaf_from_agree (fun p : Nat => get_pcb_by_PID (p : Int)) k1.pcbs h1.pcbs k1.processes d1
      hlinks1 (fun p hp hl => (hs_f p hp (Or.inr hl)).2.2.1) F e (by omega) hlive1]
    exact hc
  have hpar : (h1.pcbs (get_pcb_by_PID (q : Int))).parent_pcb = get_pcb_by_PID (x : Int) :=
    fq.2.1.trans n2
  obtain ⟨h0, esp', ebp', hhalt, hesp, hebp, h0_exec, _, h0_proc, h0_pd, _, h0_same, h0_ch,
    h0_zero⟩ := halt_resume_state h1 F status (get_pcb_by_PID (q : Int)) hleafh
      (by rw [hpar]; exact get_pcb_by_PID_ne_zero x hx) (by rw [hpar]; exact hAxq)
  rw [hpar] at h0_pd h0_ch h0_zero
  rw [fq.2.2.2.1, n4] at hesp
  rw [fq.2.2.2.2, n5] at hebp
  rw [fq.1, n1, hs_proc, hk_proc] at h0_proc
  have hpx1 : (k1.pcbs (get_pcb_by_PID (x : Int))).process_id = x := by
    rw [n6]; exact hpidx
  rw [fx.1, hpx1] at h0_pd
  refine ⟨h0, by rw [hhalt, hesp, hebp], ?_, ?_, ?_, ?_⟩
  · rw [h0_exec, hs_exec, hk_exec]
  · rw [h0_proc]
    funext i
    by_cases hi : i = q
    · rw [hi, set_at_same, hq0]
    · rw [set_at_other _ _ _ _ hi, set_at_other _ _ _ _ hi]
  · rw [h0_pd, hw.2.2 fuel _ hleaf, hpidx]
    exact create_user_4mb_page_entry _ _ _ (by omega) (by omega)
  · intro p hp hpl
    have hpq : p ≠ q := by
      rcases hpl with h2 | hl
      · omega
      · exact fun e1 => hl (e1 ▸ hq0)
    have hApq : get_pcb_by_PID (p : Int) ≠ get_pcb_by_PID (q : Int) :=
      fun e1 => hpq (get_pcb_by_PID_inj p q hp hq2 e1)
    have hpl1 : p ≤ 2 ∨ k1.processes p ≠ 0 := by
      rcases hpl with h2 | hl
      · exact Or.inl h2
      · exact Or.inr (by rw [hk_proc, set_at_other _ _ _ _ hpq]; exact hl)
    have fp := hs_f p hp hpl1
    have g := h0_same (get_pcb_by_PID (p : Int))
    by_cases hpx : p = x
    · rw [hpx] at fp g ⊢
      rw [n6] at fp
      exact ⟨g.1.trans fp.1, g.2.1.trans fp.2.1, h0_zero.trans hchildx.symm,
        g.2.2.1.trans fp.2.2.2.1, g.2.2.2.trans fp.2.2.2.2⟩
    · have hApx : get_pcb_by_PID (p : Int) ≠ get_pcb_by_PID (x : Int) :=
        fun e1 => hpx (get_pcb_by_PID_inj p x hp hx e1)
      rw [n7 _ hApx hApq] at fp
      exact ⟨g.1.trans fp.1, g.2.1.trans fp.2.1, (h0_ch _ hApx).trans fp.2.2.1,
        g.2.2.1.trans fp.2.2.2.1, g.2.2.2.trans fp.2.2.2.2⟩

/-- The frame of the entry `create_user_4mb_page` writes at 32. -/
theorem frame_base_user (pd : Nat → pde_t) (r : Nat) (h1 : 2 ≤ r) (h2 : r < 1024) :
    frame_base ((create_user_4mb_page pd (r : Int) 32).2 32) = r * 4194304 := by
  have hc : ¬ ((r : Int) < 2 ∨ (32 : Int) < 2 ∨ (r : Int) ≥ ((1024 : Nat) : Int) ∨
      (32 : Int) ≥ ((1024 : Nat) : Int)) := by omega
  unfold create_user_4mb_page PAGE_TABLE_SIZE frame_base
  rw [if_neg hc]
  simp only [set_at, Int.toNat_ofNat]
  rw [Nat.shiftLeft_eq]
  simp
  omega

/-- C25: in every state reachable from boot by `execute`, `halt`, timer
ticks and switches of the displayed terminal (and by `vidmap` and the
descriptor calls), for every PID `p` in 0..6 whose liveness entry is set: the
PCB at `get_pcb_by_PID(p)` stores `p`; following `parent_pcb` from it ends,
for every bound from some `n` on, at the PCB of a PID `t` in 0..2 that has no
parent and stores `t`; and its `child_pcb` is `NULL` or the address of the PCB
of a live PID whose `parent_pcb` leads back. -/
theorem task_tree_invariant (parse_command : List Nat → List Nat × List Nat) (fs : fs_t)
    (vid_save_addr : Nat → Nat) (vid_pt : Nat) (m : machine_t)
    (h : reachable parse_command fs vid_save_addr vid_pt m) (p : Nat) (hp : p ≤ 6)
    (hl : m.k.processes p ≠ 0) :
    (m.k.pcbs (get_pcb_by_PID (p : Int))).process_id = p ∧
    (∃ t n : Nat, t ≤ 2 ∧
      (∀ fuel, n ≤ fuel →
        root_from m.k.pcbs fuel (get_pcb_by_PID (p : Int)) = some (get_pcb_by_PID (t : Int))) ∧
      (m.k.pcbs (get_pcb_by_PID (t : Int))).parent_pcb = 0 ∧
      (m.k.pcbs (get_pcb_by_PID (t : Int))).process_id = t) ∧
    ((m.k.pcbs (get_pcb_by_PID (p : Int))).child_pcb = 0 ∨
      ∃ q, q ≤ 6 ∧ m.k.processes q ≠ 0 ∧
        (m.k.pcbs (get_pcb_by_PID (p : Int))).child_pcb = get_pcb_by_PID (q : Int) ∧
        (m.k.pcbs (get_pcb_by_PID (q : Int))).parent_pcb = get_pcb_by_PID (p : Int)) := by
  obtain ⟨_, ⟨d, hlinks⟩, _⟩ := reachable_wf parse_command fs vid_save_addr vid_pt m h
  refine ⟨links_wf_pid _ _ _ _ hlinks p hp hl, ?_, ?_⟩
  · obtain ⟨t, ht, hroot⟩ := root_from_live _ m.k.pcbs m.k.processes d get_pcb_by_PID_ne_zero
      hlinks (d p + 1) p (by omega) hp hl
    exact ⟨t, d p + 1, ht, hroot, (hlinks.1 t ht).2.1, (hlinks.1 t ht).1⟩
  · by_cases hc : (m.k.pcbs (get_pcb_by_PID (p : Int))).child_pcb = 0
    · exact Or.inl hc
    · obtain ⟨q, _, hq2, hq3, hq4, hq5⟩ := hlinks.2.2 p hp hl hc
      exact Or.inr ⟨q, hq2, hq3, hq4, hq5⟩

/-- C25 (witness): PID 0 is live in the booted machine, and its PCB stores 0. -/
theorem task_tree_invariant_witness :
    booted.k.processes 0 ≠ 0 ∧
    (booted.k.pcbs (get_pcb_by_PID ((0 : Nat) : Int))).process_id = 0 :=
  ⟨by decide,
    (task_tree_invariant split_at_space elf_fs (fun _ => 0x410000) 0x500000 booted
      (reachable.boot sample_machine local_dentry zero_buf 0x7FFF00 0x7FFF40) 0 (by decide)
      (by decide)).1⟩

/-- C26 (evaluation): boot, ALT+F2, a `vidmap` by the shell of terminal 1 and
ALT+F1 give a reachable state in which terminal 0 is displayed, terminal 1
executes, and slot 0 of the vidmap page table still points at physical
0xB8000: `switch_displaying_term` does not remap it. -/
theorem vidmap_slot_stale_after_switch :
    reachable split_at_space elf_fs (fun i => 0x410000 + i * 0x3000) 0x500000 switched_back ∧
    switched_back.k.curr_term_id = 0 ∧ switched_back.k.exec_term_id = 1 ∧
    (switched_back.k.page_directory 31).present = 1 ∧
    (switched_back.k.vid_page_table_0 0).present = 1 ∧
    (switched_back.k.vid_page_table_0 0).addr = 0xB8 :=
  ⟨reachable.switch _ 0
    (reachable.vidmap _ ff_mem 134217728
      (reachable.switch _ 1
        (reachable.boot sample_machine local_dentry zero_buf 0x7FFF00 0x7FFF40) (by decide)))
    (by decide),
    by decide, by decide, by decide, by decide, by decide⟩

/-- C23: from a state reachable from boot, a successful `execute` entered
with `esp`, `ebp` from the leaf task `P` of the executing terminal, followed by
`halt(status)` in the new child, hands the status (256 for 255) and `esp`,
`ebp` to that execute in a state with the liveness table and directory entry
32 (the frame of `P`) of before the execute, `P` having no child as before;
and after three nested executes, three halts unwind one level each, every one
restoring the liveness table and entry 32 of before the execute it resumes and
handing over its status and saved registers. -/
theorem execute_halt_round_trip (parse_command : List Nat → List Nat × List Nat) (fs : fs_t)
    (vid_save_addr : Nat → Nat) (vid_pt : Nat) (m : machine_t)
    (hr : reachable parse_command fs vid_save_addr vid_pt m)
    (fuel esp ebp : Nat) (stack : buffer) (command : Option (List Nat)) (k1 : kernel_t)
    (eip sp : Nat)
    (he : execute parse_command fs m.k fuel esp ebp stack command =
      some (execute_result.launch k1 eip sp)) :
    (∃ P, get_current_executing_pcb m.k fuel = some P ∧ (m.k.pcbs P).child_pcb = 0 ∧
      frame_base (m.k.page_directory 32) = ((m.k.pcbs P).process_id + 2) * 4194304 ∧
      ∀ status F, fuel + 1 ≤ F →
        ∃ h0 : kernel_t,
          halt k1 F status = some (halt_result.resume h0
            (if status % 256 = 255 then 256 else status % 256) esp ebp) ∧
          h0.processes = m.k.processes ∧ (h0.pcbs P).child_pcb = 0 ∧
          h0.page_directory 32 = m.k.page_directory 32) ∧
    (∀ (f2 esp2 ebp2 : Nat) (stack2 : buffer) (command2 : Option (List Nat)) (k2 : kernel_t)
        (eip2 sp2 f3 esp3 ebp3 : Nat) (stack3 : buffer) (command3 : Option (List Nat))
        (k3 : kernel_t) (eip3 sp3 : Nat),
      execute parse_command fs k1 f2 esp2 ebp2 stack2 command2 =
        some (execute_result.launch k2 eip2 sp2) →
      execute parse_command fs k2 f3 esp3 ebp3 stack3 command3 =
        some (execute_result.launch k3 eip3 sp3) →
      ∀ s3 s2 s1 F, fuel + 1 ≤ F → f2 + 1 ≤ F → f3 + 1 ≤ F →
        ∃ h2 h1 h0 : kernel_t,
          halt k3 F s3 = some (halt_result.resume h2
            (if s3 % 256 = 255 then 256 else s3 % 256) esp3 ebp3) ∧
          h2.processes = k2.processes ∧ h2.page_directory 32 = k2.page_directory 32 ∧
          halt h2 F s2 = some (halt_result.resume h1
            (if s2 % 256 = 255 then 256 else s2 % 256) esp2 ebp2) ∧
          h1.processes = k1.processes ∧ h1.page_directory 32 = k1.page_directory 32 ∧
          halt h1 F s1 = some (halt_result.resume h0
            (if s1 % 256 = 255 then 256 else s1 % 256) esp ebp) ∧
          h0.processes = m.k.processes ∧
          h0.page_directory 32 = m.k.page_directory 32) := by
  have hw := reachable_wf parse_command fs vid_save_addr vid_pt m hr
  obtain ⟨q, x, _, _, hx, _, hlx, hleaf, hpidx, hchildx, _, _, _, _, _, _, _, _, _, _, _, hwf1⟩ :=
    execute_launch_wf parse_command fs m.k fuel esp ebp stack command k1 eip sp hw he
  constructor
  · refine ⟨get_pcb_by_PID (x : Int), hleaf, hchildx, ?_, ?_⟩
    · rw [hw.2.2 fuel _ hleaf, hpidx]
      exact frame_base_user _ (x + 2) (by omega) (by omega)
    · intro status F hF
      obtain ⟨h0, hh, hs⟩ := halt_unwinds parse_command fs m.k fuel esp ebp stack command k1
        eip sp hw he k1 (same_tasks_refl k1) status F hF
      exact ⟨h0, hh, hs.2.1, ((hs.2.2.2 x hx (Or.inr hlx)).2.2.1).trans hchildx, hs.2.2.1⟩
  · intro f2 esp2 ebp2 stack2 command2 k2 eip2 sp2 f3 esp3 ebp3 stack3 command3 k3 eip3 sp3
      he2 he3 s3 s2 s1 F hF1 hF2 hF3
    obtain ⟨_, _, _, _, _, _, _, _, _, _, _, _, _, _, _, _, _, _, _, _, _, hwf2⟩ :=
      execute_launch_wf parse_command fs k1 f2 esp2 ebp2 stack2 command2 k2 eip2 sp2 hwf1 he2
    obtain ⟨h2, hh2, hs2⟩ := halt_unwinds parse_command fs k2 f3 esp3 ebp3 stack3 command3 k3
      eip3 sp3 hwf2 he3 k3 (same_tasks_refl k3) s3 F hF3
    obtain ⟨h1, hh1, hs1⟩ := halt_unwinds parse_command fs k1 f2 esp2 ebp2 stack2 command2 k2
      eip2 sp2 hwf1 he2 h2 hs2 s2 F hF2
    obtain ⟨h0, hh0, hs0⟩ := halt_unwinds parse_command fs m.k fuel esp ebp stack command k1
      eip sp hw he h1 hs1 s1 F hF1
    exact ⟨h2, h1, h0, hh2, hs2.2.1, hs2.2.2.1, hh1, hs1.2.1, hs1.2.2.1, hh0, hs0.2.1,
      hs0.2.2.1⟩

/-- C23 (witness): `shell` run from the booted machine gets PID 3, and `halt(7)`
in it hands 7 and the saved registers back with the liveness table of the
booted machine. -/
theorem execute_halt_round_trip_witness :
    ∃ k1 eip sp,
      execute split_at_space elf_fs booted.k 8 0x7FEF00 0x7FEF40 zero_buf (some (bytes "shell")) =
        some (execute_result.launch k1 eip sp) ∧
      ∃ h0 : kernel_t,
        halt k1 9 7 = some (halt_result.resume h0 7 0x7FEF00 0x7FEF40) ∧
        h0.processes = booted.k.processes := by
  have he := ((execute_valid split_at_space elf_fs booted.k 8 0x7FEF00 0x7FEF40 zero_buf
    (bytes "shell") (by decide) (by decide) (by decide)).2 3 (by decide)).2 0x7FF000 (by decide)
  refine ⟨_, _, _, he, ?_⟩
  obtain ⟨_, _, _, _, hh⟩ := (execute_halt_round_trip split_at_space elf_fs (fun _ => 0x410000)
    0x500000 booted (reachable.boot sample_machine local_dentry zero_buf 0x7FFF00 0x7FFF40)
    8 0x7FEF00 0x7FEF40 zero_buf (some (bytes "shell")) _ _ _ he).1
  obtain ⟨h0, h1, h2, _, _⟩ := hh 7 9 (by decide)
  exact ⟨h0, h1, h2⟩

/-! ## The wrapped length check, dir_read on a full name, tss.esp0 -/

/-- C37: the length check of `read_data` is bypassed by a wrapping sum.  On a
10-byte file all of whose index slots name the one data block, the offset
`2^32 - 4` and the length 8 have the sum `2^32 + 4 > 10`, the `uint32_t` sum
is 4, the checks pass and `read_data` returns 8, not -1, having written 8
bytes of the buffer. -/
theorem read_data_length_check_bypassed :
    4294967292 < 2 ^ 32 ∧ 8 < 2 ^ 32 ∧
    4294967292 + 8 > ((sample_fs 10 0 1).inodes 0).length ∧
    (4294967292 + 8) % WORD = 4 ∧
    data_index_check (sample_fs 10 0 1) 0 = true ∧
    (read_data (sample_fs 10 0 1) 0 4294967292 zero_buf 8).1 = 8 ∧
    (List.range 8).map (read_data (sample_fs 10 0 1) 0 4294967292 zero_buf 8).2 =
      [253, 254, 255, 0, 1, 2, 3, 4] := by
  decide

/-- C34: `dir_read` on the entry whose name fills all 32 bytes.  `file_name`
holds no NUL, `strlen` runs on into `file_type` (2, stored as the bytes
2, 0, 0, 0) and yields 33, so with `nbytes = 40` the value returned is 33,
above 32; with `nbytes = 33` it is 33 as well. -/
theorem dir_read_full_name_returns_33 :
    (List.range 32).all (fun i => decide ((sample_dir.dentries 2).file_name i ≠ 0)) = true ∧
    strlen_mem (dentry_mem (sample_dir.dentries 2)) 64 = some 33 ∧
    (dir_read sample_dir (dir_pcb 2) local_dentry 2 zero_buf 40).map (fun r => r.1) =
      some 33 ∧
    (dir_read sample_dir (dir_pcb 2) local_dentry 2 zero_buf 33).map (fun r => r.1) =
      some 33 ∧
    (dir_read sample_dir (dir_pcb 2) local_dentry 2 zero_buf 32).map (fun r => r.1) =
      some 32 := by
  decide

/-- C38: the two values of `tss.esp0` for a task with PID `p` in 0..6.
`execute`, `halt`, `boot` and the terminal switch store `esp0_for p`, which is
`4 * 544` bytes below `get_pcb_by_PID(p - 1)`; the timer tick (`load_context`)
stores the address 4 bytes below `get_pcb_by_PID(p - 1)`, which is 2172 bytes
higher.  Both lie above the PCB of `p` and below `get_pcb_by_PID(p - 1)`. -/
theorem tss_esp0_tick_differs (vid_save_addr : Nat → Nat) (k : kernel_t) (curr_pcb : Nat)
    (p : Fin 7) :
    (load_context vid_save_addr
      { k with pcbs := set_at k.pcbs curr_pcb { k.pcbs curr_pcb with process_id := p.val } }
      curr_pcb).tss_esp0 = esp0_for (p.val : Int) + 2172 ∧
    (load_context vid_save_addr
      { k with pcbs := set_at k.pcbs curr_pcb { k.pcbs curr_pcb with process_id := p.val } }
      curr_pcb).tss_esp0 + 4 = get_pcb_by_PID ((p.val : Int) - 1) ∧
    esp0_for (p.val : Int) + 2176 = get_pcb_by_PID ((p.val : Int) - 1) ∧
    get_pcb_by_PID (p.val : Int) + 1920 = esp0_for (p.val : Int) := by
  have h : (load_context vid_save_addr
      { k with pcbs := set_at k.pcbs curr_pcb { k.pcbs curr_pcb with process_id := p.val } }
      curr_pcb).tss_esp0 = toUInt32 ((get_pcb_by_PID ((p.val : Int) - 1) : Int) - 4) := by
    simp [load_context, set_at]
  rw [h]
  fin_cases p <;> decide

/-! ## The image read of execute -/

/-- C39: in `execute`, once the 4-byte header read of the file succeeded, the
read of the whole image (offset 0, length `bytes_to_read`, the inode length)
returns `bytes_to_read`, which is the inode length `L` itself for `L < 2^31`;
so the test of syscall.c:234 never fails, and whenever `execute` returns
rather than launching, the state is the one it was given (no PID stays
allocated or is freed again) and a return value of -1 comes from the directory
lookup or the ELF magic, not from the rollback branch. -/
theorem execute_image_read_complete (parse_command : List Nat → List Nat × List Nat)
    (fs : fs_t) (k : kernel_t) (fuel esp ebp : Nat) (stack : buffer) (c : List Nat)
    (h : (read_data fs (read_dentry_by_name fs (parse_command c).1 local_dentry).2.inode_index
      0 zero_buf ELF_SIZE).1 ≠ -1) :
    (read_data fs (read_dentry_by_name fs (parse_command c).1 local_dentry).2.inode_index 0
        zero_buf
        (toUInt32 (toInt32 (fs.inodes
          (read_dentry_by_name fs (parse_command c).1 local_dentry).2.inode_index).length))).1 =
      toInt32 (fs.inodes
        (read_dentry_by_name fs (parse_command c).1 local_dentry).2.inode_index).length ∧
    ((fs.inodes (read_dentry_by_name fs (parse_command c).1 local_dentry).2.inode_index).length
        < 2 ^ 31 →
      (read_data fs (read_dentry_by_name fs (parse_command c).1 local_dentry).2.inode_index 0
          zero_buf
          (fs.inodes
            (read_dentry_by_name fs (parse_command c).1 local_dentry).2.inode_index).length).1 =
        ((fs.inodes
          (read_dentry_by_name fs (parse_command c).1 local_dentry).2.inode_index).length :
            Int)) ∧
    ∀ v k1, execute parse_command fs k fuel esp ebp stack (some c) =
        some (execute_result.ret v k1) →
      k1 = k ∧
      (v = -1 →
        (read_dentry_by_name fs (parse_command c).1 local_dentry).1 = -1 ∨
        ∃ j, j < 4 ∧
          (read_data fs
            (read_dentry_by_name fs (parse_command c).1 local_dentry).2.inode_index 0
            zero_buf ELF_SIZE).2 j ≠ cstr elf_magic j) := by
  have hw := read_data_whole fs
    (read_dentry_by_name fs (parse_command c).1 local_dentry).2.inode_index zero_buf zero_buf h
  refine ⟨hw, ?_, ?_⟩
  · intro hL
    rw [toUInt32_toInt32 _ (by omega), toInt32_of_lt _ hL] at hw
    exact hw
  · intro v k1 he
    refine ⟨execute_ret_inv parse_command fs k fuel esp ebp stack (some c) v k1 he, ?_⟩
    intro hv
    by_contra hn
    have h1 : (read_dentry_by_name fs (parse_command c).1 local_dentry).1 ≠ -1 :=
      fun e => hn (Or.inl e)
    have h3 : ∀ j, j < 4 →
        (read_data fs (read_dentry_by_name fs (parse_command c).1 local_dentry).2.inode_index
          0 zero_buf ELF_SIZE).2 j = cstr elf_magic j := by
      intro j hj
      by_contra hne
      exact hn (Or.inr ⟨j, hj, hne⟩)
    have hx := execute_valid parse_command fs k fuel esp ebp stack c h1 h h3
    cases hf : find_pid k.processes (MAX_NUM_PROCESSES - 3) 3 with
    | none =>
      rw [hx.1 hf] at he
      injection he with he
      injection he with he _
      rw [hv] at he
      exact absurd he (by decide)
    | some q =>
      cases hg : get_current_executing_pcb k fuel with
      | none =>
        rw [(hx.2 q hf).1 hg] at he
        exact Option.noConfusion he
      | some prev =>
        rw [(hx.2 q hf).2 prev hg] at he
        injection he with he
        exact execute_result.noConfusion he

/-- C39 (witness): the program "shell" of the sample image, 32 bytes long. -/
theorem execute_image_read_complete_witness :
    (read_data elf_fs
        (read_dentry_by_name elf_fs (split_at_space (bytes "shell")).1
          local_dentry).2.inode_index 0 zero_buf ELF_SIZE).1 ≠ -1 ∧
    (read_data elf_fs
        (read_dentry_by_name elf_fs (split_at_space (bytes "shell")).1
          local_dentry).2.inode_index 0 zero_buf 32).1 = 32 :=
  ⟨by decide,
    (execute_image_read_complete split_at_space elf_fs sample_kernel 8 0x7FBF00 0x7FBF40
      zero_buf (bytes "shell") (by decide)).2.1 (by decide)⟩

/-! ## Directory entry 32 in reachable states -/

/-- While the walk to the leaf has not ended after `f` PCBs, `f` distinct PIDs
of 3..6 lie below its start. -/
theorem leaf_from_none_chain (A : Nat → Nat) (pcbs : Nat → pcb_t) (processes d : Nat → Nat)
    (hinj : ∀ p q, p ≤ 6 → q ≤ 6 → A p = A q → p = q)
    (hw : links_wf A pcbs processes d) :
    ∀ f p, p ≤ 6 → processes p ≠ 0 → leaf_from pcbs f (A p) = none →
      ∃ S : Finset Nat, S ⊆ Finset.Icc 3 6 ∧ S.card = f ∧ ∀ q ∈ S, d p < d q := by
  intro f
  induction f with
  | zero => intro p _ _ _; exact ⟨∅, Finset.empty_subset _, rfl, fun q hq => by simp at hq⟩
  | succ f ih =>
    intro p hp hl h
    rw [leaf_from_succ] at h
    by_cases hc : (pcbs (A p)).child_pcb ≠ 0
    · rw [if_pos hc] at h
      obtain ⟨q, hq1, hq2, hq3, hq4, hq5⟩ := hw.2.2 p hp hl hc
      rw [hq4] at h
      obtain ⟨S, hS, hcard, hd⟩ := ih q hq2 hq3 h
      obtain ⟨_, p', hp1, _, hp3, _, hp5⟩ := hw.2.1 q hq1 hq2 hq3
      have e : p' = p := hinj p' p hp1 hp (hp3.symm.trans hq5)
      rw [e] at hp5
      have hq : q ∉ S := fun hm => absurd (hd q hm) (by omega)
      refine ⟨insert q S, ?_, ?_, ?_⟩
      · intro x hx
        rcases Finset.mem_insert.mp hx with rfl | hx
        · exact Finset.mem_Icc.mpr ⟨hq1, hq2⟩
        · exact hS hx
      · rw [Finset.card_insert_of_not_mem hq, hcard]
      · intro x hx
        rcases Finset.mem_insert.mp hx with rfl | hx
        · exact hp5
        · exact lt_trans hp5 (hd x hx)
    · rw [if_neg hc] at h
      exact Option.noConfusion h

/-- In a well-formed state the walk to the leaf PCB of the executing terminal
ends within five PCBs. -/
theorem kernel_wf_leaf_exists (k : kernel_t) (hw : kernel_wf k) :
    ∃ l, ∀ fuel, 5 ≤ fuel → get_current_executing_pcb k fuel = some l := by
  obtain ⟨⟨e, he, hexec, hlive⟩, ⟨d, hlinks⟩, _⟩ := hw
  cases h5 : get_current_executing_pcb k 5 with
  | none =>
    unfold get_current_executing_pcb at h5
    rw [hexec] at h5
    obtain ⟨S, hS, hcard, _⟩ := leaf_from_none_chain _ k.pcbs k.processes d
      get_pcb_by_PID_inj hlinks 5 e (by omega) hlive h5
    have h4 := Finset.card_le_card hS
    rw [hcard] at h4
    simp at h4
  | some l =>
    refine ⟨l, fun fuel hf => ?_⟩
    exact leaf_from_mono k.pcbs 5 _ l h5 fuel hf

/-- C36: in every state reachable from boot by completed `execute`, `halt`,
timer ticks and switches of the displayed terminal (and by `vidmap` and the
descriptor calls), `get_current_executing_pcb` finds the leaf PCB of the
executing terminal (within five PCBs); it is the PCB of a live PID `p` in
0..6, and page-directory entry 32 is a present 4 MiB user entry whose frame
starts at physical `(p + 2) · 4 MiB`. -/
theorem user_page_maps_leaf_task (parse_command : List Nat → List Nat × List Nat)
    (fs : fs_t) (vid_save_addr : Nat → Nat) (vid_pt : Nat) (m : machine_t)
    (h : reachable parse_command fs vid_save_addr vid_pt m) :
    ∃ l p : Nat, p ≤ 6 ∧ m.k.processes p ≠ 0 ∧ l = get_pcb_by_PID (p : Int) ∧
      (∀ fuel, 5 ≤ fuel → get_current_executing_pcb m.k fuel = some l) ∧
      (m.k.pcbs l).process_id = p ∧
      frame_base (m.k.page_directory 32) = (p + 2) * 4194304 ∧
      (m.k.page_directory 32).present = 1 ∧ (m.k.page_directory 32).size = 1 ∧
      (m.k.page_directory 32).privilege_level = 1 := by
  have hw := reachable_wf parse_command fs vid_save_addr vid_pt m h
  obtain ⟨l, hl⟩ := kernel_wf_leaf_exists m.k hw
  obtain ⟨p, hp, hlive, hA, _, hpid⟩ := kernel_wf_leaf m.k hw 5 l (hl 5 (le_refl 5))
  have hpd := hw.2.2 5 l (hl 5 (le_refl 5))
  rw [hpid] at hpd
  have hc : ¬ ((((p : Int) + 2) < 2) ∨ (32 : Int) < 2 ∨
      ((p : Int) + 2) ≥ ((1024 : Nat) : Int) ∨ (32 : Int) ≥ ((1024 : Nat) : Int)) := by omega
  refine ⟨l, p, hp, hlive, hA, hl, hpid, ?_, ?_, ?_, ?_⟩
  · rw [hpd]
    have e : ((p : Int) + 2) = ((p + 2 : Nat) : Int) := by push_cast; rfl
    rw [e]
    exact frame_base_user _ (p + 2) (by omega) (by omega)
  · rw [hpd]
    unfold create_user_4mb_page PAGE_TABLE_SIZE
    rw [if_neg hc]
    simp [set_at]
  · rw [hpd]
    unfold create_user_4mb_page PAGE_TABLE_SIZE
    rw [if_neg hc]
    simp [set_at]
  · rw [hpd]
    unfold create_user_4mb_page PAGE_TABLE_SIZE
    rw [if_neg hc]
    simp [set_at]

/-- C36 (witness): in the booted machine the shell of terminal 0, PID 0, is
the leaf task and entry 32 maps the frame at 8 MiB. -/
theorem user_page_maps_leaf_task_witness :
    ∃ l p : Nat, p ≤ 6 ∧ booted.k.processes p ≠ 0 ∧ l = get_pcb_by_PID (p : Int) ∧
      (∀ fuel, 5 ≤ fuel → get_current_executing_pcb booted.k fuel = some l) ∧
      (booted.k.pcbs l).process_id = p ∧
      frame_base (booted.k.page_directory 32) = (p + 2) * 4194304 ∧
      (booted.k.page_directory 32).present = 1 ∧ (booted.k.page_directory 32).size = 1 ∧
      (booted.k.page_directory 32).privilege_level = 1 :=
  user_page_maps_leaf_task split_at_space elf_fs (fun _ => 0x410000) 0x500000 booted
    (reachable.boot sample_machine local_dentry zero_buf 0x7FFF00 0x7FFF40)

/-! ## The keyboard handler and the line buffer -/

/-- What a printable key does to the line buffer. -/
theorem keyboard_handler_printable (ops : lib_ops) (m : machine_t) (f : key_flags_t)
    (key : Nat) (h : printable f key) :
    (keyboard_handler ops m f key).2.1 = f ∧
    (keyboard_handler ops m f key).1.k = m.k ∧
    (keyboard_handler ops m f key).1.con.num_enters = m.con.num_enters ∧
    (keyboard_handler ops m f key).1.con.terms = m.con.terms ∧
    (keyboard_handler ops m f key).1.con.buff_index =
      (if m.con.buff_index < 127 then m.con.buff_index + 1 else m.con.buff_index) ∧
    (keyboard_handler ops m f key).1.con.key_buff =
      (if m.con.buff_index < 127 then store_key m.con.key_buff m.con.buff_index (key_char f key)
       else m.con.key_buff) := by
  obtain ⟨h1, h2, h3, h4, h5, h6, h7, h8, h9, h10, h11, h12⟩ := h
  have g1 : key ≠ 0xAA := by unfold KNOWN_CODES at h1; omega
  have g2 : key ≠ 0xB6 := by unfold KNOWN_CODES at h1; omega
  have g3 : key ≠ 0x9D := by unfold KNOWN_CODES at h1; omega
  have g4 : key ≠ 0xE0 := by unfold KNOWN_CODES at h1; omega
  have g5 : key ≠ 0xB8 := by unfold KNOWN_CODES at h1; omega
  have g6 : ¬ (key ≥ 0x3B ∧ key ≤ 0x3D) := by unfold KNOWN_CODES at h1; omega
  have g7 : ¬ (key = 0x0F ∨ key = 0x01 ∨ key = 0x2A ∨ key = 0x37) := by omega
  unfold keyboard_handler set_buffer
  rw [if_neg h2, if_neg h3, if_neg g1, if_neg g2, if_neg h4, if_neg h5, if_neg g3, if_neg h6,
    if_neg h7, if_neg h8, if_neg g4, if_neg g5, if_neg h9, if_neg g6, if_neg g7, if_pos h1]
  by_cases hi : m.con.buff_index < 127
  · have hi' : m.con.buff_index < (BUFF_SIZE : Int) - 1 := by unfold BUFF_SIZE; omega
    rw [if_pos hi', if_pos hi, if_pos hi]
    exact ⟨rfl, rfl, rfl, rfl, rfl, rfl⟩
  · have hi' : ¬ m.con.buff_index < (BUFF_SIZE : Int) - 1 := by unfold BUFF_SIZE; omega
    rw [if_neg hi', if_neg hi, if_neg hi]
    exact ⟨rfl, rfl, rfl, rfl, rfl, rfl⟩

/-- What ENTER does to the line buffer. -/
theorem keyboard_handler_enter (ops : lib_ops) (m : machine_t) (f : key_flags_t) :
    (keyboard_handler ops m f 0x1C).2.1 = f ∧
    (keyboard_handler ops m f 0x1C).1.k = m.k ∧
    (keyboard_handler ops m f 0x1C).1.con.terms = m.con.terms ∧
    (keyboard_handler ops m f 0x1C).1.con.num_enters =
      (if m.con.buff_index < 128 then m.con.num_enters + 1 else m.con.num_enters) ∧
    (keyboard_handler ops m f 0x1C).1.con.buff_index =
      (if m.con.buff_index < 128 then m.con.buff_index + 1 else m.con.buff_index) ∧
    (keyboard_handler ops m f 0x1C).1.con.key_buff =
      (if m.con.buff_index < 128 then store_key m.con.key_buff m.con.buff_index 10
       else m.con.key_buff) := by
  unfold keyboard_handler
  rw [if_neg (by decide), if_neg (by decide), if_neg (by decide), if_neg (by decide),
    if_pos rfl]
  by_cases hi : m.con.buff_index < 128
  · have hi' : m.con.buff_index < (BUFF_SIZE : Int) := by unfold BUFF_SIZE; omega
    rw [if_pos hi', if_pos hi, if_pos hi, if_pos hi]
    exact ⟨rfl, rfl, rfl, rfl, rfl, rfl⟩
  · have hi' : ¬ m.con.buff_index < (BUFF_SIZE : Int) := by unfold BUFF_SIZE; omega
    rw [if_neg hi', if_neg hi, if_neg hi, if_neg hi]
    exact ⟨rfl, rfl, rfl, rfl, rfl, rfl⟩

/-- A store at an index that is not negative. -/
theorem store_key_nat (kb : Nat → Nat) (i v : Nat) :
    store_key kb (i : Int) v = set_byte kb i v := by
  unfold store_key
  rw [if_pos (Int.natCast_nonneg i), Int.toNat_natCast]

/-- One key of a list of keys. -/
theorem type_keys_cons (ops : lib_ops) (m : machine_t) (f : key_flags_t) (key : Nat)
    (keys : List Nat) :
    type_keys ops (m, f) (key :: keys) =
      type_keys ops ((keyboard_handler ops m f key).1, (keyboard_handler ops m f key).2.1)
        keys := rfl

/-- Printable keys typed from the write index `i0 <= 127` on: the flags, the
kernel state, the saved terminals and the line-ready count stay, the index
grows by one per key up to 127, and the characters lie at `i0`, `i0 + 1`, ...
below 127. -/
theorem type_keys_printable (ops : lib_ops) (f : key_flags_t) :
    ∀ (keys : List Nat) (m : machine_t) (i0 : Nat), (∀ key ∈ keys, printable f key) →
      m.con.buff_index = (i0 : Int) → i0 ≤ 127 →
      (type_keys ops (m, f) keys).2 = f ∧
      (type_keys ops (m, f) keys).1.k = m.k ∧
      (type_keys ops (m, f) keys).1.con.num_enters = m.con.num_enters ∧
      (type_keys ops (m, f) keys).1.con.terms = m.con.terms ∧
      (type_keys ops (m, f) keys).1.con.buff_index = ((min (i0 + keys.length) 127 : Nat) : Int) ∧
      ∀ j, (type_keys ops (m, f) keys).1.con.key_buff j =
        if i0 ≤ j ∧ j < min (i0 + keys.length) 127 then key_char f (keys.getD (j - i0) 0)
        else m.con.key_buff j := by
  intro keys
  induction keys with
  | nil =>
    intro m i0 _ hi h127
    refine ⟨rfl, rfl, rfl, rfl, ?_, ?_⟩
    · show m.con.buff_index = _
      rw [hi]
      simp [h127]
    · intro j
      have : ¬ (i0 ≤ j ∧ j < min (i0 + ([] : List Nat).length) 127) := by
        simp only [List.length_nil]; omega
      rw [if_neg this]
      rfl
  | cons key keys ih =>
    intro m i0 hp hi h127
    obtain ⟨e1, e2, e3, e4, e5, e6⟩ :=
      keyboard_handler_printable ops m f key (hp key (List.mem_cons_self _ _))
    have hp' : ∀ k ∈ keys, printable f k := fun k hk => hp k (List.mem_cons_of_mem _ hk)
    rw [type_keys_cons, e1]
    by_cases hlt : i0 < 127
    · have hlt' : m.con.buff_index < 127 := by rw [hi]; omega
      rw [if_pos hlt'] at e5 e6
      have hi1 : (keyboard_handler ops m f key).1.con.buff_index = ((i0 + 1 : Nat) : Int) := by
        rw [e5, hi]; push_cast; rfl
      obtain ⟨r1, r2, r3, r4, r5, r6⟩ := ih (keyboard_handler ops m f key).1 (i0 + 1) hp' hi1
        (by omega)
      refine ⟨r1, r2.trans e2, r3.trans e3, r4.trans e4, ?_, ?_⟩
      · rw [r5]
        simp only [List.length_cons]
        congr 2
        omega
      · intro j
        rw [r6 j, e6, hi, store_key_nat, set_byte_apply]
        simp only [List.length_cons]
        by_cases hj : j = i0
        · subst hj
          rw [if_neg (by omega), if_pos rfl, if_pos (by omega)]
          simp
        · rw [if_neg hj]
          by_cases hc : i0 + 1 ≤ j ∧ j < min (i0 + 1 + keys.length) 127
          · rw [if_pos hc, if_pos (by omega)]
            have : j - i0 = (j - (i0 + 1)) + 1 := by omega
            rw [this, List.getD_cons_succ]
          · rw [if_neg hc, if_neg (by omega)]
    · have hge : ¬ m.con.buff_index < 127 := by rw [hi]; omega
      rw [if_neg hge] at e5 e6
      obtain ⟨r1, r2, r3, r4, r5, r6⟩ := ih (keyboard_handler ops m f key).1 i0 hp'
        (e5.trans hi) h127
      refine ⟨r1, r2.trans e2, r3.trans e3, r4.trans e4, ?_, ?_⟩
      · rw [r5]
        simp only [List.length_cons]
        congr 1
        omega
      · intro j
        rw [r6 j, e6]
        simp only [List.length_cons]
        rw [if_neg (by omega), if_neg (by omega)]
/-- C31: the line buffer under key presses.  A printable key (a scancode that
reaches the stores of `set_buffer`) changes index, buffer and line-ready count
only when the index is below 127: it then stores its character at the index
and adds one to the index.  ENTER, when the index is below 128, stores `'\n'`
at the index and adds one to the index and to the line-ready count, and
changes nothing otherwise.  So after `init_keyboard()` and any printable keys
the characters of the first 127 keys lie in bytes 0..126, byte 127 is still 0,
and an ENTER pressed then is stored right behind them, at byte 127 after 127
or more keys. -/
theorem keyboard_line_buffer (ops : lib_ops) (m : machine_t) (f : key_flags_t) (key : Nat)
    (keys : List Nat) :
    (printable f key →
      (m.con.buff_index < 127 →
        (keyboard_handler ops m f key).1.con.buff_index = m.con.buff_index + 1 ∧
        (keyboard_handler ops m f key).1.con.num_enters = m.con.num_enters ∧
        (0 ≤ m.con.buff_index →
          (keyboard_handler ops m f key).1.con.key_buff =
            set_byte m.con.key_buff m.con.buff_index.toNat (key_char f key))) ∧
      (127 ≤ m.con.buff_index →
        (keyboard_handler ops m f key).1.con.buff_index = m.con.buff_index ∧
        (keyboard_handler ops m f key).1.con.num_enters = m.con.num_enters ∧
        (keyboard_handler ops m f key).1.con.key_buff = m.con.key_buff)) ∧
    ((m.con.buff_index < 128 →
        (keyboard_handler ops m f 0x1C).1.con.buff_index = m.con.buff_index + 1 ∧
        (keyboard_handler ops m f 0x1C).1.con.num_enters = m.con.num_enters + 1 ∧
        (0 ≤ m.con.buff_index →
          (keyboard_handler ops m f 0x1C).1.con.key_buff =
            set_byte m.con.key_buff m.con.buff_index.toNat 10)) ∧
      (128 ≤ m.con.buff_index →
        (keyboard_handler ops m f 0x1C).1.con.buff_index = m.con.buff_index ∧
        (keyboard_handler ops m f 0x1C).1.con.num_enters = m.con.num_enters ∧
        (keyboard_handler ops m f 0x1C).1.con.key_buff = m.con.key_buff)) ∧
    ((∀ k ∈ keys, printable f k) →
      (type_keys ops ({ m with con := init_keyboard m.con }, f) keys).1.con.key_buff 127 = 0 ∧
      (type_keys ops ({ m with con := init_keyboard m.con }, f) keys).1.con.buff_index =
        ((min keys.length 127 : Nat) : Int) ∧
      (∀ j, j < min keys.length 127 →
        (type_keys ops ({ m with con := init_keyboard m.con }, f) keys).1.con.key_buff j =
          key_char f (keys.getD j 0)) ∧
      (keyboard_handler ops
        (type_keys ops ({ m with con := init_keyboard m.con }, f) keys).1
        (type_keys ops ({ m with con := init_keyboard m.con }, f) keys).2
        0x1C).1.con.key_buff (min keys.length 127) = 10 ∧
      (keyboard_handler ops
        (type_keys ops ({ m with con := init_keyboard m.con }, f) keys).1
        (type_keys ops ({ m with con := init_keyboard m.con }, f) keys).2
        0x1C).1.con.buff_index = ((min keys.length 127 + 1 : Nat) : Int) ∧
      (keyboard_handler ops
        (type_keys ops ({ m with con := init_keyboard m.con }, f) keys).1
        (type_keys ops ({ m with con := init_keyboard m.con }, f) keys).2
        0x1C).1.con.num_enters = 1) := by
  refine ⟨?_, ?_, ?_⟩
  · intro hp
    obtain ⟨_, _, e3, _, e5, e6⟩ := keyboard_handler_printable ops m f key hp
    refine ⟨fun hi => ?_, fun hi => ?_⟩
    · rw [if_pos hi] at e5 e6
      refine ⟨e5, e3, fun h0 => ?_⟩
      rw [e6]
      unfold store_key
      rw [if_pos h0]
    · have hn : ¬ m.con.buff_index < 127 := by omega
      rw [if_neg hn] at e5 e6
      exact ⟨e5, e3, e6⟩
  · obtain ⟨_, _, _, e4, e5, e6⟩ := keyboard_handler_enter ops m f
    refine ⟨fun hi => ?_, fun hi => ?_⟩
    · rw [if_pos hi] at e4 e5 e6
      refine ⟨e5, e4, fun h0 => ?_⟩
      rw [e6]
      unfold store_key
      rw [if_pos h0]
    · have hn : ¬ m.con.buff_index < 128 := by omega
      rw [if_neg hn] at e4 e5 e6
      exact ⟨e5, e4, e6⟩
  · intro hp
    obtain ⟨r1, _, r3, _, r5, r6⟩ := type_keys_printable ops f keys
      { m with con := init_keyboard m.con } 0 hp rfl (by omega)
    rw [Nat.zero_add] at r5 r6
    obtain ⟨_, _, _, e4, e5, e6⟩ := keyboard_handler_enter ops
      (type_keys ops ({ m with con := init_keyboard m.con }, f) keys).1
      (type_keys ops ({ m with con := init_keyboard m.con }, f) keys).2
    have hlt : (type_keys ops ({ m with con := init_keyboard m.con }, f) keys).1.con.buff_index
        < 128 := by rw [r5]; omega
    rw [if_pos hlt] at e4 e5 e6
    refine ⟨?_, r5, ?_, ?_, ?_, ?_⟩
    · rw [r6 127, if_neg (by omega)]
      rfl
    · intro j hj
      rw [r6 j, if_pos ⟨Nat.zero_le j, hj⟩, Nat.sub_zero]
    · rw [e6, r5, store_key_nat, set_byte_apply, if_pos rfl]
    · rw [e5, r5]
      push_cast
      rfl
    · rw [e4, r3]
      rfl

/-- C31 (witness): the key `a` pressed 130 times after `init_keyboard()`, then
ENTER: byte 127 stays 0 under the keys, the write index stops at 127, and the
ENTER is stored at byte 127. -/
theorem keyboard_line_buffer_witness :
    (∀ k ∈ many_a, printable no_flags k) ∧
    (type_keys sample_ops ({ sample_machine with con := init_keyboard sample_machine.con },
      no_flags) many_a).1.con.key_buff 127 = 0 ∧
    (type_keys sample_ops ({ sample_machine with con := init_keyboard sample_machine.con },
      no_flags) many_a).1.con.buff_index = ((127 : Nat) : Int) ∧
    (keyboard_handler sample_ops
      (type_keys sample_ops ({ sample_machine with con := init_keyboard sample_machine.con },
        no_flags) many_a).1
      (type_keys sample_ops ({ sample_machine with con := init_keyboard sample_machine.con },
        no_flags) many_a).2
      0x1C).1.con.key_buff 127 = 10 := by
  have hp : ∀ k ∈ many_a, printable no_flags k := by
    intro k hk
    rw [List.eq_of_mem_replicate hk]
    decide
  have h := (keyboard_line_buffer sample_ops sample_machine no_flags 0x1E many_a).2.2 hp
  have hl : min many_a.length 127 = 127 := by
    unfold many_a
    rw [List.length_replicate]
    rfl
  rw [hl] at h
  dsimp only
  exact ⟨hp, h.1, h.2.1, h.2.2.2.1⟩

/-! ## terminal_read -/

/-- The copy loop of `terminal_read` on a buffer whose first `'\n'` is at
index `N`: it stops at `min N nbytes`, having copied the bytes before. -/
theorem terminal_read_loop_spec (kb : Nat → Nat) (nbytes : Int) (N : Nat)
    (hline : ∀ j, j < N → kb j ≠ 10) (hnl : kb N = 10) :
    ∀ (d i fuel : Nat) (temp : buffer), i + d = min N nbytes.toNat → d < fuel →
      (terminal_read_loop kb nbytes fuel i temp).1 = i + d ∧
      ∀ j, (terminal_read_loop kb nbytes fuel i temp).2 j =
        if i ≤ j ∧ j < i + d then kb j else temp j := by
  intro d
  induction d with
  | zero =>
    intro i fuel temp hi hf
    obtain ⟨g, rfl⟩ : ∃ g, fuel = g + 1 := ⟨fuel - 1, by omega⟩
    have hc : ¬ (kb i ≠ 10 ∧ (i : Int) < nbytes) := by
      intro hc
      by_cases hN : i = N
      · rw [hN] at hc
        exact hc.1 hnl
      · omega
    unfold terminal_read_loop
    rw [if_neg hc]
    refine ⟨rfl, fun j => ?_⟩
    rw [if_neg (by omega)]
  | succ d ih =>
    intro i fuel temp hi hf
    obtain ⟨g, rfl⟩ : ∃ g, fuel = g + 1 := ⟨fuel - 1, by omega⟩
    have hc : kb i ≠ 10 ∧ (i : Int) < nbytes := ⟨hline i (by omega), by omega⟩
    unfold terminal_read_loop
    rw [if_pos hc]
    obtain ⟨r1, r2⟩ := ih (i + 1) g (set_byte temp i (kb i)) (by omega) (by omega)
    refine ⟨by rw [r1]; omega, fun j => ?_⟩
    rw [r2 j, set_byte_apply]
    by_cases hj : j = i
    · subst hj
      rw [if_neg (by omega), if_pos rfl, if_pos (by omega)]
    · rw [if_neg hj]
      by_cases hc2 : i + 1 ≤ j ∧ j < i + 1 + d
      · rw [if_pos hc2, if_pos (by omega)]
      · rw [if_neg hc2, if_neg (by omega)]

/-- What `shift_buffer(index, key_buff)` does when the executing terminal is the
displayed one and `0 <= index <= 127`. -/
theorem shift_buffer_spec (m : machine_t) (index : Nat)
    (he : m.k.exec_term_id = m.k.curr_term_id) (hi : index ≤ 127) :
    (shift_buffer m (index : Int)).k = m.k ∧
    (shift_buffer m (index : Int)).con.terms = m.con.terms ∧
    (shift_buffer m (index : Int)).con.num_enters = m.con.num_enters ∧
    (shift_buffer m (index : Int)).con.buff_index = m.con.buff_index - ((index : Int) + 1) ∧
    ∀ j, (shift_buffer m (index : Int)).con.key_buff j =
      if j < 127 - index then m.con.key_buff (j + index + 2)
      else if j ≤ index then 0 else m.con.key_buff j := by
  unfold shift_buffer
  rw [if_pos he]
  refine ⟨rfl, rfl, rfl, rfl, fun j => ?_⟩
  have hn : toUInt32 ((BUFF_SIZE : Int) - (index : Int) - 1) = 127 - index := by
    unfold toUInt32 WORD BUFF_SIZE
    omega
  have h0 : (0 : Int) ≤ (index : Int) := Int.natCast_nonneg index
  have e : ((index : Int) + 1 + 1).toNat = index + 2 := by omega
  dsimp only
  rw [hn, if_pos h0, e]
  unfold memcpy
  by_cases hj : j < 127 - index
  · rw [if_pos hj, if_pos hj]
    have : ¬ (((j + (index + 2) : Nat) : Int) ≤ (index : Int)) := by omega
    beta_reduce
    rw [if_neg this, Nat.add_assoc]
  · rw [if_neg hj, if_neg hj]
    beta_reduce
    by_cases hj2 : j ≤ index
    · rw [if_pos hj2, if_pos (by omega)]
    · rw [if_neg hj2, if_neg (by omega)]

/-- The call `terminal_read(fd, buf, nbytes)` on a line buffer whose first
`'\n'` is at index `N <= 127`: with `c = min(N, nbytes)` it returns `c`, copies
bytes `0 .. c - 1` to `buf`, takes one off the line-ready count and `c + 1`
off the write index, and moves the bytes from `c + 2` on to the front. -/
theorem terminal_read_spec (m : machine_t) (stack buf : buffer) (nbytes : Int) (N : Nat)
    (he : m.k.exec_term_id = m.k.curr_term_id) (hen : 0 < m.con.num_enters)
    (hN : N ≤ 127) (hline : ∀ j, j < N → m.con.key_buff j ≠ 10)
    (hnl : m.con.key_buff N = 10) :
    ∃ (buf1 : buffer) (s1 : machine_t),
      terminal_read m stack buf nbytes =
        some (((min N nbytes.toNat : Nat) : Int), buf1, s1) ∧
      (∀ j, buf1 j = if j < min N nbytes.toNat then m.con.key_buff j else buf j) ∧
      s1.k = m.k ∧ s1.con.terms = m.con.terms ∧
      s1.con.num_enters = m.con.num_enters - 1 ∧
      s1.con.buff_index = m.con.buff_index - (((min N nbytes.toNat : Nat) : Int) + 1) ∧
      ∀ j, s1.con.key_buff j =
        if j < 127 - min N nbytes.toNat then m.con.key_buff (j + min N nbytes.toNat + 2)
        else if j ≤ min N nbytes.toNat then 0 else m.con.key_buff j := by
  obtain ⟨r1, r2⟩ := terminal_read_loop_spec m.con.key_buff nbytes N hline hnl
    (min N nbytes.toNat) 0 (nbytes.toNat + 1) stack (by omega) (by omega)
  rw [Nat.zero_add] at r1 r2
  obtain ⟨s1, s2, s3, s4, s5⟩ := shift_buffer_spec
    { k := m.k, con := { m.con with num_enters := m.con.num_enters - 1 } }
    (min N nbytes.toNat) he (by omega)
  refine ⟨memcpy buf (terminal_read_loop m.con.key_buff nbytes (nbytes.toNat + 1) 0 stack).2
    (min N nbytes.toNat), _, ?_, ?_, s1, s2, s3, s4, s5⟩
  · unfold terminal_read
    rw [if_pos ⟨he, hen⟩]
    dsimp only
    rw [r1, toInt32_of_lt _ (by omega)]
  · intro j
    unfold memcpy
    by_cases hj : j < min N nbytes.toNat
    · rw [if_pos hj, if_pos hj, r2 j, if_pos ⟨Nat.zero_le j, hj⟩]
    · rw [if_neg hj, if_neg hj]
/-- No entry of the four scancode tables is `'\n'`. -/
theorem key_char_ne_newline (f : key_flags_t) (key : Nat) : key_char f key ≠ 10 := by
  have h1 : ∀ x ∈ caps_shift_pressed, x ≠ 10 := by decide
  have h2 : ∀ x ∈ shift_pressed, x ≠ 10 := by decide
  have h3 : ∀ x ∈ caps_pressed, x ≠ 10 := by decide
  have h4 : ∀ x ∈ no_modifier, x ≠ 10 := by decide
  have g : ∀ l : List Nat, (∀ x ∈ l, x ≠ 10) → l.getD key 0 ≠ 10 := by
    intro l hl
    by_cases hk : key < l.length
    · rw [List.getD_eq_getElem l 0 hk]
      exact hl _ (List.getElem_mem hk)
    · rw [List.getD_eq_default l 0 (by omega)]
      decide
  unfold key_char
  split_ifs
  · exact g _ h1
  · exact g _ h2
  · exact g _ h3
  · exact g _ h4

/-- The line buffer after `init_keyboard()`, at most 127 printable keys and
ENTER. -/
theorem typed_line_spec (ops : lib_ops) (m : machine_t) (f : key_flags_t) (keys : List Nat)
    (hp : ∀ k ∈ keys, printable f k) (hN : keys.length ≤ 127) :
    (typed_line ops m f keys).k = m.k ∧
    (typed_line ops m f keys).con.num_enters = 1 ∧
    (typed_line ops m f keys).con.buff_index = (keys.length : Int) + 1 ∧
    ∀ j, (typed_line ops m f keys).con.key_buff j =
      if j < keys.length then key_char f (keys.getD j 0)
      else if j = keys.length then 10
      else if j < 128 then 0 else m.con.key_buff j := by
  obtain ⟨r1, r2, r3, _, r5, r6⟩ := type_keys_printable ops f keys
    { m with con := init_keyboard m.con } 0 hp rfl (by omega)
  rw [Nat.zero_add] at r5 r6
  have hmin : min keys.length 127 = keys.length := by omega
  rw [hmin] at r5 r6
  obtain ⟨_, e2, _, e4, e5, e6⟩ := keyboard_handler_enter ops
    (type_keys ops ({ m with con := init_keyboard m.con }, f) keys).1
    (type_keys ops ({ m with con := init_keyboard m.con }, f) keys).2
  have hlt : (type_keys ops ({ m with con := init_keyboard m.con }, f) keys).1.con.buff_index
      < 128 := by rw [r5]; omega
  rw [if_pos hlt] at e4 e5 e6
  unfold typed_line
  refine ⟨e2.trans r2, ?_, ?_, fun j => ?_⟩
  · rw [e4, r3]
    rfl
  · rw [e5, r5]
  · rw [e6, r5, store_key_nat, set_byte_apply, r6 j]
    by_cases h1 : j < keys.length
    · rw [if_neg (by omega), if_pos ⟨Nat.zero_le j, h1⟩, if_pos h1, Nat.sub_zero]
    · rw [if_neg h1]
      by_cases h2 : j = keys.length
      · rw [if_pos h2, if_pos h2]
      · rw [if_neg h2, if_neg h2, if_neg (by omega)]
        unfold init_keyboard BUFF_SIZE
        rfl

/-- C33 (amended): `terminal_read` returns exactly when the executing terminal
is the displayed one and its line-ready count is positive.  After
`init_keyboard()`, `N <= 127` printable keys and one ENTER (write index
`N + 1`, one line ready), `terminal_read(fd, buf, nbytes)` returns
`min(N, nbytes)` (0 for a negative `nbytes`): the first so many typed
characters are copied to `buf`, none of them is `'\n'`, and the rest of `buf`
is left as it was; the kernel state is unchanged.  For `nbytes >= N` the whole
line is consumed together with its `'\n'`: the write index is 0 and the
line-ready count is 0 afterwards. -/
theorem terminal_read_typed_line (ops : lib_ops) (m0 : machine_t) (f : key_flags_t)
    (keys : List Nat) (stack buf : buffer) (nbytes : Int)
    (hp : ∀ k ∈ keys, printable f k) (hN : keys.length ≤ 127)
    (he : m0.k.exec_term_id = m0.k.curr_term_id) :
    (∀ (m : machine_t) (st b : buffer) (n : Int),
      (terminal_read m st b n).isSome = true ↔
        (m.k.exec_term_id = m.k.curr_term_id ∧ 0 < m.con.num_enters)) ∧
    (typed_line ops m0 f keys).con.buff_index = (keys.length : Int) + 1 ∧
    (typed_line ops m0 f keys).con.num_enters = 1 ∧
    ∃ (buf1 : buffer) (s1 : machine_t),
      terminal_read (typed_line ops m0 f keys) stack buf nbytes =
        some (((min keys.length nbytes.toNat : Nat) : Int), buf1, s1) ∧
      (∀ j, buf1 j =
        if j < min keys.length nbytes.toNat then key_char f (keys.getD j 0) else buf j) ∧
      (∀ j, j < min keys.length nbytes.toNat → buf1 j ≠ 10) ∧
      s1.k = m0.k ∧
      (keys.length ≤ nbytes.toNat → s1.con.buff_index = 0 ∧ s1.con.num_enters = 0) := by
  refine ⟨?_, ?_⟩
  · intro m st b n
    unfold terminal_read
    by_cases hc : m.k.exec_term_id = m.k.curr_term_id ∧ m.con.num_enters > 0
    · rw [if_pos hc]
      exact ⟨fun _ => hc, fun _ => rfl⟩
    · rw [if_neg hc]
      exact ⟨fun h => absurd h (by decide), fun h => absurd h hc⟩
  · obtain ⟨t1, t2, t3, t4⟩ := typed_line_spec ops m0 f keys hp hN
    have he1 : (typed_line ops m0 f keys).k.exec_term_id =
        (typed_line ops m0 f keys).k.curr_term_id := by rw [t1]; exact he
    have hline : ∀ j, j < keys.length → (typed_line ops m0 f keys).con.key_buff j ≠ 10 := by
      intro j hj
      rw [t4 j, if_pos hj]
      exact key_char_ne_newline f _
    have hnl : (typed_line ops m0 f keys).con.key_buff keys.length = 10 := by
      rw [t4, if_neg (lt_irrefl _), if_pos rfl]
    obtain ⟨buf1, s1, r1, r2, r3, _, r5, r6, _⟩ := terminal_read_spec
      (typed_line ops m0 f keys) stack buf nbytes keys.length he1 (by rw [t2]; decide) hN
      hline hnl
    have hb : ∀ j, buf1 j =
        if j < min keys.length nbytes.toNat then key_char f (keys.getD j 0) else buf j := by
      intro j
      rw [r2 j]
      by_cases hj : j < min keys.length nbytes.toNat
      · rw [if_pos hj, if_pos hj, t4 j, if_pos (by omega)]
      · rw [if_neg hj, if_neg hj]
    refine ⟨t3, t2, buf1, s1, r1, hb, ?_, r3.trans t1, ?_⟩
    · intro j hj
      rw [hb j, if_pos hj]
      exact key_char_ne_newline f _
    · intro hle
      have hmin : min keys.length nbytes.toNat = keys.length := by omega
      rw [hmin] at r6
      refine ⟨?_, ?_⟩
      · rw [r6, t3]
        omega
      · rw [r5, t2]
        rfl

/-- C33 (counterexample): the keys a, b and ENTER after `init_keyboard()`, then
`terminal_read(fd, buf, 128)`: the value returned is 2, not `min(2 + 1, 128)`,
the bytes copied are "ab" and the last of them is not `'\n'`; the write index
goes from 3 to 0, so three bytes leave the buffer for two returned. -/
theorem terminal_read_excludes_newline_counterexample :
    (List.range 4).map (typed_line sample_ops (fresh_machine 0) no_flags [0x1E, 0x30]).con.key_buff
      = [97, 98, 10, 0] ∧
    (typed_line sample_ops (fresh_machine 0) no_flags [0x1E, 0x30]).con.buff_index = 3 ∧
    (terminal_read (typed_line sample_ops (fresh_machine 0) no_flags [0x1E, 0x30]) zero_buf
        zero_buf 128).map
      (fun r => (r.1, (List.range 4).map r.2.1, r.2.2.con.buff_index)) =
      some (2, [97, 98, 0, 0], 0) ∧
    (2 : Int) ≠ min (2 + 1) 128 := by
  decide

/-- C33 (witness): the keys a, b and ENTER, read with `nbytes = 128`: the call
returns 2 and the write index is 0 afterwards. -/
theorem terminal_read_typed_line_witness :
    ∃ (buf1 : buffer) (s1 : machine_t),
      terminal_read (typed_line sample_ops sample_machine no_flags [0x1E, 0x30]) zero_buf
        zero_buf 128 = some (2, buf1, s1) ∧ s1.con.buff_index = 0 := by
  obtain ⟨buf1, s1, h1, _, _, _, h5⟩ :=
    (terminal_read_typed_line sample_ops sample_machine no_flags [0x1E, 0x30] zero_buf
      zero_buf 128 (by decide) (by decide) (by decide)).2.2.2
  exact ⟨buf1, s1, h1, (h5 (by decide)).1⟩

/-- C35: the line buffer holds "ab\ncd\n" (write index 6, two lines ready).
`terminal_read(fd, buf, 10)` returns 2 and copies "ab"; afterwards the buffer
begins with "d\n": the `c` of the second line is lost, because `shift_buffer`
copies from `&buf[index + 2]`.  The write index is 3 although two bytes are
left, and a second `terminal_read` returns 1 byte, "d". -/
theorem terminal_read_loses_first_byte_of_next_line :
    (List.range 8).map two_lines.con.key_buff = [97, 98, 10, 99, 100, 10, 0, 0] ∧
    two_lines.con.buff_index = 6 ∧ two_lines.con.num_enters = 2 ∧
    two_lines.k.exec_term_id = two_lines.k.curr_term_id ∧
    (terminal_read two_lines zero_buf zero_buf 10).map
      (fun r => (r.1, (List.range 4).map r.2.1, (List.range 8).map r.2.2.con.key_buff,
        r.2.2.con.buff_index, r.2.2.con.num_enters)) =
      some (2, [97, 98, 0, 0], [100, 10, 0, 0, 0, 0, 0, 0], 3, 1) ∧
    ((terminal_read two_lines zero_buf zero_buf 10).bind
      (fun r => terminal_read r.2.2 zero_buf zero_buf 10)).map
      (fun r => (r.1, (List.range 4).map r.2.1)) = some (1, [100, 0, 0, 0]) := by
  decide

/-- C40: `terminal_read` reaches past byte 127.  With the line "a\n" in the
buffer and `nbytes = 10`, `shift_buffer(1, key_buff)` copies 126 bytes from
`&key_buff[3]`, the last of them from index 128: byte 125 of the buffer ends up
with the byte that lay behind the array, 0 or 77 here.  With a line-ready
count of 1 and no `'\n'` in the buffer (ENTER, BACKSPACE) or behind it,
`terminal_read(fd, buf, 200)` runs its copy loop to index 200 and returns 200,
`shift_buffer(200, key_buff)` clears bytes 0..200, so the byte 77 at index 128
is overwritten with 0, and the write index becomes -201. -/
theorem terminal_read_reaches_past_buffer :
    (typed_line sample_ops (fresh_machine 0) no_flags [0x1E]).con.num_enters = 1 ∧
    (terminal_read (typed_line sample_ops (fresh_machine 0) no_flags [0x1E]) zero_buf zero_buf
        10).map (fun r => (r.1, r.2.2.con.key_buff 125)) = some (1, 0) ∧
    (terminal_read (typed_line sample_ops (fresh_machine 77) no_flags [0x1E]) zero_buf zero_buf
        10).map (fun r => (r.1, r.2.2.con.key_buff 125)) = some (1, 77) ∧
    (type_keys sample_ops (fresh_machine 77, no_flags) [0x1C, 0x0E]).1.con.num_enters = 1 ∧
    (type_keys sample_ops (fresh_machine 77, no_flags) [0x1C, 0x0E]).1.con.key_buff 128 = 77 ∧
    (terminal_read (type_keys sample_ops (fresh_machine 77, no_flags) [0x1C, 0x0E]).1 zero_buf
        zero_buf 200).map
      (fun r => (r.1, r.2.2.con.key_buff 128, r.2.2.con.buff_index)) =
      some (200, 0, -201) := by
  decide

/-- C32: the line-ready count is not the number of `'\n'` bytes below the write
index.  After `init_keyboard()`, ENTER and BACKSPACE the count is 1 while the
buffer is empty (BACKSPACE removes the `'\n'` and leaves `num_enters`); after
the keys a, b, c, d, ENTER and `terminal_read(fd, buf, 1)` the count is 0
while "d\n" lies below the write index 3 (`terminal_read` decrements
`num_enters` without having reached the `'\n'`). -/
theorem num_enters_differs_from_newline_count :
    (type_keys sample_ops (fresh_machine 0, no_flags) [0x1C, 0x0E]).1.con.num_enters = 1 ∧
    (type_keys sample_ops (fresh_machine 0, no_flags) [0x1C, 0x0E]).1.con.buff_index = 0 ∧
    count_newlines (type_keys sample_ops (fresh_machine 0, no_flags) [0x1C, 0x0E]).1.con.key_buff
      0 = 0 ∧
    count_newlines (type_keys sample_ops (fresh_machine 0, no_flags) [0x1C, 0x0E]).1.con.key_buff
      128 = 0 ∧
    (terminal_read (typed_line sample_ops (fresh_machine 0) no_flags [0x1E, 0x30, 0x2E, 0x20])
        zero_buf zero_buf 1).map
      (fun r => (r.1, r.2.2.con.num_enters, r.2.2.con.buff_index,
        (List.range 4).map r.2.2.con.key_buff, count_newlines r.2.2.con.key_buff 3)) =
      some (1, 0, 3, [100, 10, 0, 0], 1) := by
  decide

end Kernel391
